import Mathlib

/-!
Vulkan video decode utilities and case path patterns.

Shallow embedding of `DpbSlot`, `DpbSlots`, `VulkanVideoSession`,
`VkParserVideoPictureParameters`, `NvVkDecodeFrameData` and parts of
`VideoBaseDecoder` from
`external/vulkancts/modules/vulkan/video/vktVideoBaseDecodeUtils.hpp`, and of
`matchWildcards`, `CasePaths`, `CaseTreeNode`, `findNode`, `parseCaseTrie` and
the checks of `CaseListFilter` from `framework/common/tcuCommandLine.cpp`.

Conventions of the embedding.

* `DE_ASSERT` is compiled out (release semantics): an operation whose
  assertion fails still runs its body.  The asserted conditions are kept as
  separate boolean definitions (`DpbSlots.FreeSlot_asserts`).
* A `vkPicBuffBase *` is an `Option Nat`: `none` is `NULL`, `some a` the
  object at address `a`.  The reference counts of all picture buffers form
  an explicit map that is threaded through every operation that touches it.
* `std::vector<DpbSlot>` is a `List DpbSlot`, `std::queue<uint8_t>` is a
  `List Nat` whose head is the front of the queue.
* `uint8_t`, `uint32_t` values are `Nat`, `int8_t`, `int32_t` values are
  `Int`; conversions between them are the explicit functions below.
* A string is a `List Char`, an input stream the list of the characters
  still to be read.  `MurmurHash64B` and `isValidTestCaseNameChar` are
  parameters of the functions that call them.
-/

namespace VkVideo

/-! ## Machine integer conversions -/

/-- Conversion of an integer value to `int8_t` (two's complement wrap). -/
def toInt8 (x : Int) : Int :=
  if x % 256 < 128 then x % 256 else x % 256 - 256

/-- Conversion of an integer value to `uint8_t`. -/
def toUInt8 (x : Int) : Nat :=
  (x % 256).toNat

/-- Conversion of an integer value to `size_t` (64 bit), as done when an
`int8_t` indexes a `std::vector`. -/
def toSizeT (x : Int) : Nat :=
  (x % 18446744073709551616).toNat

/-- The value `(uint32_t)(1 << slot)`.  A shift count outside `0..31` is
undefined in C++; the embedding yields `0` there and no theorem below
depends on that case. -/
def shl1 (slot : Int) : Nat :=
  if 0 ≤ slot ∧ slot < 32 then 2 ^ slot.toNat else 0

/-- The value `(uint32_t)~(1 << slot)`. -/
def notShl1 (slot : Int) : Nat :=
  2 ^ 32 - 1 - shl1 slot

/-! ## Picture buffers -/

/-- Pointer to a picture buffer (`vkPicBuffBase *`). -/
abbrev PicPtr := Option Nat

/-- Reference count of every picture buffer, by address. -/
abbrev RefCounts := Nat → Int

/-- Modelled from the spec: `vkPicBuffBase::AddRef` is declared in
`vktVideoFrameBuffer.hpp`, which is not part of the sources at hand; the
spec describes intrusive reference counting, so `AddRef` adds one to the
count of the object. -/
def picAddRef (rc : RefCounts) (p : Nat) : RefCounts :=
  Function.update rc p (rc p + 1)

/-- Modelled from the spec: `vkPicBuffBase::Release` is declared in
`vktVideoFrameBuffer.hpp`, which is not part of the sources at hand; the
spec describes intrusive reference counting, so `Release` takes one from
the count of the object. -/
def picRelease (rc : RefCounts) (p : Nat) : RefCounts :=
  Function.update rc p (rc p - 1)

/-- Modelled from the spec: `VkParserPerFrameDecodeParameters` is declared
in a header that is not part of the sources at hand; the spec gives the
architectural maximum of the DPB table as 16 reference slots plus one setup
slot. -/
def MAX_DPB_REF_AND_SETUP_SLOTS : Nat := 17

/-! ## DpbSlot -/

/-- Data kept for one active internal reference frame (`class DpbSlot`). -/
structure DpbSlot where
  /-- The field `int32_t m_pictureId`: picture id at map time (age). -/
  m_pictureId : Int
  /-- The field `vkPicBuffBase *m_picBuf`: associated resource. -/
  m_picBuf : PicPtr
  /-- The one-bit field `m_reserved`. -/
  m_reserved : Bool
  /-- The one-bit field `m_inUse`. -/
  m_inUse : Bool
deriving DecidableEq, Repr

/-- The value-initialised slot that `std::vector::resize` appends. -/
def DpbSlot.zero : DpbSlot :=
  { m_pictureId := 0, m_picBuf := none, m_reserved := false, m_inUse := false }

/-- The method `DpbSlot::isInUse`. -/
def DpbSlot.isInUse (s : DpbSlot) : Bool :=
  s.m_reserved || s.m_inUse

/-- The method `DpbSlot::isAvailable`. -/
def DpbSlot.isAvailable (s : DpbSlot) : Bool :=
  !s.isInUse

/-- The method `DpbSlot::Invalidate`: returns `wasInUse`, the slot after the
call and the reference counts after the call. -/
def DpbSlot.Invalidate (s : DpbSlot) (rc : RefCounts) : Bool × DpbSlot × RefCounts :=
  let wasInUse := s.isInUse
  let rc1 := match s.m_picBuf with
    | some p => picRelease rc p
    | none => rc
  (wasInUse, { s with m_picBuf := none, m_reserved := false, m_inUse := false }, rc1)

/-- The method `DpbSlot::getPictureResource`. -/
def DpbSlot.getPictureResource (s : DpbSlot) : PicPtr :=
  s.m_picBuf

/-- The method `DpbSlot::setPictureResource`: returns the old picture, the
slot after the call and the reference counts after the call. -/
def DpbSlot.setPictureResource (s : DpbSlot) (picBuf : PicPtr) (age : Int) (rc : RefCounts) :
    PicPtr × DpbSlot × RefCounts :=
  let oldPic := s.m_picBuf
  let rc1 := match picBuf with
    | some p => picAddRef rc p
    | none => rc
  let rc2 := match oldPic with
    | some p => picRelease rc1 p
    | none => rc1
  (oldPic, { s with m_picBuf := picBuf, m_pictureId := age }, rc2)

/-- The method `DpbSlot::Reserve`. -/
def DpbSlot.Reserve (s : DpbSlot) : DpbSlot :=
  { s with m_reserved := true }

/-- The method `DpbSlot::MarkInUse`. -/
def DpbSlot.MarkInUse (s : DpbSlot) (age : Int) : DpbSlot :=
  { s with m_pictureId := age, m_inUse := true }

/-- The method `DpbSlot::getAge`. -/
def DpbSlot.getAge (s : DpbSlot) : Int :=
  s.m_pictureId

/-! ## DpbSlots -/

/-- The slot table (`class DpbSlots`). -/
structure DpbSlots where
  /-- The field `uint8_t m_dpbMaxSize`. -/
  m_dpbMaxSize : Nat
  /-- The field `uint32_t m_slotInUseMask`. -/
  m_slotInUseMask : Nat
  /-- The field `std::vector<DpbSlot> m_dpb`. -/
  m_dpb : List DpbSlot
  /-- The field `std::queue<uint8_t> m_dpbSlotsAvailable`, front first. -/
  m_dpbSlotsAvailable : List Nat
deriving DecidableEq, Repr

/-- Read of `m_dpb[i]`.  An index past the end of the vector is undefined in
C++; the embedding reads a value-initialised slot there. -/
def DpbSlots.slotAt (t : DpbSlots) (i : Nat) : DpbSlot :=
  t.m_dpb.getD i DpbSlot.zero

/-- Write of `m_dpb[i]`.  An index past the end of the vector is undefined in
C++; the embedding leaves the vector as it is there. -/
def DpbSlots.setSlot (t : DpbSlots) (i : Nat) (s : DpbSlot) : DpbSlots :=
  { t with m_dpb := t.m_dpb.set i s }

/-- The statement `m_dpb[ndx].Invalidate()` on the table and the reference
counts. -/
def DpbSlots.invalidateAt (w : DpbSlots × RefCounts) (ndx : Nat) : DpbSlots × RefCounts :=
  let r := (w.1.slotAt ndx).Invalidate w.2
  (w.1.setSlot ndx r.2.1, r.2.2)

/-- The call `m_dpb.resize(n)` of `std::vector`. -/
def vecResize (v : List DpbSlot) (n : Nat) : List DpbSlot :=
  v.take n ++ List.replicate (n - v.length) DpbSlot.zero

/-- The method `DpbSlots::Deinit`. -/
def DpbSlots.Deinit (t : DpbSlots) (rc : RefCounts) : DpbSlots × RefCounts :=
  let w := (List.range t.m_dpbMaxSize).foldl DpbSlots.invalidateAt (t, rc)
  ({ w.1 with m_dpbSlotsAvailable := [], m_dpbMaxSize := 0, m_slotInUseMask := 0 }, w.2)

/-- The method `DpbSlots::Init`; `newDpbMaxSize` is a `uint8_t`.  Returns the
`int32_t` result, the table and the reference counts after the call. -/
def DpbSlots.Init (t : DpbSlots) (newDpbMaxSize : Nat) (reconfigure : Bool) (rc : RefCounts) :
    Int × DpbSlots × RefCounts :=
  let w0 := if !reconfigure then t.Deinit rc else (t, rc)
  if reconfigure && decide (newDpbMaxSize < w0.1.m_dpbMaxSize) then
    ((w0.1.m_dpbMaxSize : Int), w0.1, w0.2)
  else
    let oldDpbMaxSize := if reconfigure then w0.1.m_dpbMaxSize else 0
    let t1 := { w0.1 with m_dpbMaxSize := newDpbMaxSize }
    let t2 := { t1 with m_dpb := vecResize t1.m_dpb t1.m_dpbMaxSize }
    let w3 := (List.range' oldDpbMaxSize (t2.m_dpbMaxSize - oldDpbMaxSize)).foldl
      DpbSlots.invalidateAt (t2, w0.2)
    let t4 := (List.range' oldDpbMaxSize (w3.1.m_dpbMaxSize - oldDpbMaxSize)).foldl
      (fun (t : DpbSlots) dpbIndx =>
        { t with m_dpbSlotsAvailable := t.m_dpbSlotsAvailable ++ [dpbIndx] }) w3.1
    ((t4.m_dpbMaxSize : Int), t4, w3.2)

/-- The constructor `DpbSlots::DpbSlots(uint8_t dpbMaxSize)`. -/
def DpbSlots.ctor (dpbMaxSize : Nat) (rc : RefCounts) : DpbSlots × RefCounts :=
  let t : DpbSlots :=
    { m_dpbMaxSize := 0, m_slotInUseMask := 0, m_dpb := vecResize [] 0,
      m_dpbSlotsAvailable := [] }
  (t.Init dpbMaxSize false rc).2

/-- The method `DpbSlots::AllocateSlot`: returns the `int8_t` result and the
table after the call. -/
def DpbSlots.AllocateSlot (t : DpbSlots) : Int × DpbSlots :=
  match t.m_dpbSlotsAvailable with
  | [] => (-1, t)
  | front :: rest =>
    let slot : Int := toInt8 front
    let t1 := { t with m_slotInUseMask := t.m_slotInUseMask ||| shl1 slot }
    let t2 := { t1 with m_dpbSlotsAvailable := rest }
    (slot, t2.setSlot (toSizeT slot) (t2.slotAt (toSizeT slot)).Reserve)

/-- The three assertions at the head of `DpbSlots::FreeSlot`. -/
def DpbSlots.FreeSlot_asserts (t : DpbSlots) (slot : Int) : Bool :=
  decide (toUInt8 slot < t.m_dpbMaxSize) && (t.slotAt (toSizeT slot)).isInUse &&
    (t.m_slotInUseMask &&& shl1 slot != 0)

/-- The method `DpbSlots::FreeSlot`; `slot` is an `int8_t`. -/
def DpbSlots.FreeSlot (t : DpbSlots) (slot : Int) (rc : RefCounts) : DpbSlots × RefCounts :=
  let w1 := DpbSlots.invalidateAt (t, rc) (toSizeT slot)
  let t2 := { w1.1 with m_dpbSlotsAvailable := w1.1.m_dpbSlotsAvailable ++ [toUInt8 slot] }
  ({ t2 with m_slotInUseMask := t2.m_slotInUseMask &&& notShl1 slot }, w1.2)

/-- The loop test of `DpbSlots::GetSlotOfPictureResource` at index `i`. -/
def DpbSlots.holdsAt (t : DpbSlots) (pPic : PicPtr) (i : Nat) : Bool :=
  (t.m_slotInUseMask &&& shl1 (i : Int) != 0) && (t.slotAt i).isInUse &&
    decide (pPic = (t.slotAt i).getPictureResource)

/-- The method `DpbSlots::GetSlotOfPictureResource`: the loop counter is an
`int8_t` running below `(int8_t)m_dpbMaxSize`. -/
def DpbSlots.GetSlotOfPictureResource (t : DpbSlots) (pPic : PicPtr) : Int :=
  match (List.range (toInt8 t.m_dpbMaxSize).toNat).find? (t.holdsAt pPic) with
  | some i => (i : Int)
  | none => -1

/-- One turn of the loop of `DpbSlots::MapPictureResource`. -/
def DpbSlots.mapStep (pPic : PicPtr) (dpbSlot : Nat) (age : Int)
    (w : DpbSlots × RefCounts) (slot : Nat) : DpbSlots × RefCounts :=
  if slot = dpbSlot then
    let r := (w.1.slotAt slot).setPictureResource pPic age w.2
    (w.1.setSlot slot r.2.1, r.2.2)
  else if pPic.isSome then
    if (w.1.slotAt slot).getPictureResource = pPic then
      w.1.FreeSlot (toInt8 slot) w.2
    else w
  else w

/-- The method `DpbSlots::MapPictureResource`; `dpbSlot` is a `uint8_t`. -/
def DpbSlots.MapPictureResource (t : DpbSlots) (pPic : PicPtr) (dpbSlot : Nat) (age : Int)
    (rc : RefCounts) : DpbSlots × RefCounts :=
  (List.range t.m_dpbMaxSize).foldl (DpbSlots.mapStep pPic dpbSlot age) (t, rc)

/-- The method `DpbSlots::getSlotInUseMask`. -/
def DpbSlots.getSlotInUseMask (t : DpbSlots) : Nat :=
  t.m_slotInUseMask

/-- The method `DpbSlots::getMaxSize`. -/
def DpbSlots.getMaxSize (t : DpbSlots) : Nat :=
  t.m_dpbMaxSize

/-- Bit `i` of the in-use mask. -/
def DpbSlots.maskBit (t : DpbSlots) (i : Nat) : Bool :=
  t.m_slotInUseMask.testBit i

/-! ## Well-formed tables, call sequences, example states -/

/-- The representation invariant that the C++ types and the assertion at the
head of `Init` give every table: the capacity is within the architectural
maximum, the vector has a slot for every index below the capacity, the free
queue only holds indices below the capacity, and the mask is a `uint32_t`. -/
def DpbSlots.WF (t : DpbSlots) : Prop :=
  t.m_dpbMaxSize ≤ MAX_DPB_REF_AND_SETUP_SLOTS ∧ t.m_dpbMaxSize ≤ t.m_dpb.length ∧
    (∀ q ∈ t.m_dpbSlotsAvailable, q < t.m_dpbMaxSize) ∧ t.m_slotInUseMask < 2 ^ 32

instance DpbSlots.decidableWF (t : DpbSlots) : Decidable t.WF := by
  unfold DpbSlots.WF
  infer_instance

/-- The invariant kept by `AllocateSlot` and `FreeSlot` on a table of capacity
`n`: the free queue has no duplicates and holds exactly the indices below `n`
whose mask bit is clear, the mask bit of a slot agrees with `isInUse()`, and
no mask bit at or above `n` is set. -/
structure DpbSlots.Inv (n : Nat) (t : DpbSlots) : Prop where
  /-- The capacity is `n`. -/
  size : t.m_dpbMaxSize = n
  /-- The vector has `n` slots. -/
  len : t.m_dpb.length = n
  /-- No index is queued twice. -/
  nodup : t.m_dpbSlotsAvailable.Nodup
  /-- The queue holds the indices below `n` whose mask bit is clear. -/
  queue_iff : ∀ i, i ∈ t.m_dpbSlotsAvailable ↔ (i < n ∧ t.maskBit i = false)
  /-- The mask bit of a slot is its `isInUse()`. -/
  use_eq : ∀ i, i < n → (t.slotAt i).isInUse = t.maskBit i
  /-- No bit at or above the capacity is set. -/
  mask_hi : ∀ i, n ≤ i → t.maskBit i = false

/-- Number of bits set in the 32-bit in-use mask. -/
def DpbSlots.inUseCount (t : DpbSlots) : Nat :=
  ((List.range 32).filter t.maskBit).length

/-- A call made by a client of the table. -/
inductive DpbOp where
  /-- The call `AllocateSlot()`. -/
  | alloc : DpbOp
  /-- The call `FreeSlot(slot)`. -/
  | free (slot : Int) : DpbOp
deriving DecidableEq, Repr

/-- Effect of one call on the table and the reference counts. -/
def DpbOp.apply (w : DpbSlots × RefCounts) : DpbOp → DpbSlots × RefCounts
  | .alloc => (w.1.AllocateSlot.2, w.2)
  | .free slot => w.1.FreeSlot slot w.2

/-- Effect of a sequence of calls, first call first. -/
def runOps (w : DpbSlots × RefCounts) (ops : List DpbOp) : DpbSlots × RefCounts :=
  ops.foldl DpbOp.apply w

/-- Every `FreeSlot` of the sequence is called on a slot that is in use at the
time of the call, that is, the assertions of `FreeSlot` hold. -/
def validOps : DpbSlots × RefCounts → List DpbOp → Prop
  | _, [] => True
  | w, .alloc :: ops => validOps (DpbOp.alloc.apply w) ops
  | w, .free slot :: ops =>
    w.1.FreeSlot_asserts slot = true ∧ validOps ((DpbOp.free slot).apply w) ops

/-- The results of `k` consecutive `AllocateSlot()` calls and the table after
them. -/
def DpbSlots.allocateMany : Nat → DpbSlots → List Int × DpbSlots
  | 0, t => ([], t)
  | k + 1, t =>
    let r := t.AllocateSlot
    let rs := DpbSlots.allocateMany k r.2
    (r.1 :: rs.1, rs.2)

/-- Reference counts that are all zero. -/
def noRefs : RefCounts := fun _ => 0

/-- A table of capacity 1 whose only slot has been allocated. -/
def fullTable1 : DpbSlots :=
  (DpbSlots.ctor 1 noRefs).1.AllocateSlot.2

/-- A table of capacity 1 whose only slot is free and has been given
picture 7 by `MapPictureResource`. -/
def mappedFreeTable1 : DpbSlots :=
  ((DpbSlots.ctor 1 noRefs).1.MapPictureResource (some 7) 0 0 noRefs).1

/-- A table of capacity 4 with slots 0, 1, 2 allocated; slot 0 holds picture 7
with one reference, slot 2 holds picture 9. -/
def busyTable4 : DpbSlots × RefCounts :=
  let t0 := (DpbSlots.ctor 4 noRefs).1
  let t3 := (DpbSlots.allocateMany 3 t0).2
  let w1 := t3.MapPictureResource (some 7) 0 5 noRefs
  w1.1.MapPictureResource (some 9) 2 6 w1.2

/-! ## Description of `MapPictureResource` -/

/-- Slot `j` is a slot other than `dpbSlot` that holds the picture `pPic`:
the test under which the loop of `MapPictureResource` frees slot `j`. -/
def DpbSlots.otherHolds (t : DpbSlots) (pPic : PicPtr) (dpbSlot : Nat) (j : Nat) : Bool :=
  decide (j ≠ dpbSlot) && decide ((t.slotAt j).getPictureResource = pPic)

/-- The indices below the capacity, ascending, of the slots other than
`dpbSlot` that hold `pPic`. -/
def DpbSlots.otherHolders (t : DpbSlots) (pPic : PicPtr) (dpbSlot : Nat) : List Nat :=
  (List.range t.m_dpbMaxSize).filter (t.otherHolds pPic dpbSlot)

/-- What slot `j` of `t` is turned into by a completed
`MapPictureResource(p, s, age)`, `p` not null. -/
def DpbSlots.mappedSlot (t : DpbSlots) (p s : Nat) (age : Int) (j : Nat) : DpbSlot :=
  if j = s then { t.slotAt j with m_picBuf := some p, m_pictureId := age }
  else if (t.slotAt j).m_picBuf = some p then
    { t.slotAt j with m_picBuf := none, m_reserved := false, m_inUse := false }
  else t.slotAt j

/-- State of the loop of `MapPictureResource(p, s, age)` on `t` and `rc` when
the slots below `k` have been visited. -/
structure DpbSlots.MapInv (t : DpbSlots) (p s : Nat) (age : Int) (rc : RefCounts) (k : Nat)
    (w : DpbSlots × RefCounts) : Prop where
  /-- The capacity is unchanged. -/
  size : w.1.m_dpbMaxSize = t.m_dpbMaxSize
  /-- The length of the vector is unchanged. -/
  len : w.1.m_dpb.length = t.m_dpb.length
  /-- The visited slots have their final value. -/
  slot_lo : ∀ j, j < k → w.1.slotAt j = t.mappedSlot p s age j
  /-- The slots to come are untouched. -/
  slot_hi : ∀ j, k ≤ j → w.1.slotAt j = t.slotAt j
  /-- The freed indices have been queued in ascending order. -/
  queue : w.1.m_dpbSlotsAvailable =
    t.m_dpbSlotsAvailable ++ (List.range k).filter (t.otherHolds (some p) s)
  /-- The mask bits of the freed indices have been cleared. -/
  mask : ∀ i, w.1.maskBit i = (t.maskBit i && !(decide (i < k) && t.otherHolds (some p) s i))
  /-- The reference counts: one reference taken by slot `s`, one dropped for
  the picture slot `s` held, one dropped by each freed slot. -/
  refs : ∀ q, w.2 q = rc q + (if s < k ∧ q = p then 1 else 0)
    - (if s < k ∧ (t.slotAt s).m_picBuf = some q then 1 else 0)
    - (if q = p then (((List.range k).filter (t.otherHolds (some p) s)).length : Int) else 0)

/-- Slot `i` is allocated and holds `pPic`: its mask bit is set, it reports
`isInUse()` and its picture is `pPic`.  These are the three conjuncts that
`GetSlotOfPictureResource` tests. -/
def DpbSlots.liveHolder (t : DpbSlots) (pPic : PicPtr) (i : Nat) : Prop :=
  t.maskBit i = true ∧ (t.slotAt i).isInUse = true ∧ (t.slotAt i).getPictureResource = pPic

instance DpbSlots.decidableLiveHolder (t : DpbSlots) (pPic : PicPtr) (i : Nat) :
    Decidable (t.liveHolder pPic i) := by
  unfold DpbSlots.liveHolder
  infer_instance

/-- The two calls `MapPictureResource(p, A, ageA)` and
`MapPictureResource(p, B, ageB)`, one right after the other. -/
def DpbSlots.mapTwice (t : DpbSlots) (p A B : Nat) (ageA ageB : Int) (rc : RefCounts) :
    DpbSlots × RefCounts :=
  let w1 := t.MapPictureResource (some p) A ageA rc
  w1.1.MapPictureResource (some p) B ageB w1.2

/-! ## VulkanVideoSession -/

/-- Conversion of an integer value to `int32_t` (two's complement wrap). -/
def toInt32 (x : Int) : Int :=
  if x % 4294967296 < 2147483648 then x % 4294967296 else x % 4294967296 - 4294967296

/-- Conversion of an integer value to `uint32_t`. -/
def toUInt32 (x : Int) : Nat :=
  (x % 4294967296).toNat

/-- Modelled from the spec: `VkVideoCoreProfile` and its `operator!=` are
declared in `vktVideoTestUtils.hpp`, which is not part of the sources at
hand; the spec asks that profiles "match exactly", so a profile is a value
that is compared by equality. -/
abbrev VkVideoCoreProfile := Nat

/-- The Vulkan structure `VkExtent2D`. -/
structure VkExtent2D where
  /-- The field `uint32_t width`. -/
  width : Nat
  /-- The field `uint32_t height`. -/
  height : Nat
deriving DecidableEq, Repr

/-- The fields of the Vulkan structure `VkVideoSessionCreateInfoKHR` that
`VulkanVideoSession` reads. -/
structure VkVideoSessionCreateInfoKHR where
  /-- The field `uint32_t queueFamilyIndex`. -/
  queueFamilyIndex : Nat
  /-- The field `VkFormat pictureFormat`. -/
  pictureFormat : Nat
  /-- The field `VkExtent2D maxCodedExtent`. -/
  maxCodedExtent : VkExtent2D
  /-- The field `VkFormat referencePictureFormat`. -/
  referencePictureFormat : Nat
  /-- The field `uint32_t maxDpbSlots`. -/
  maxDpbSlots : Nat
  /-- The field `uint32_t maxActiveReferencePictures`. -/
  maxActiveReferencePictures : Nat
deriving DecidableEq, Repr

/-- The state of a `VulkanVideoSession` that `IsCompatible`, `AddRef` and
`Release` read and write. -/
structure VulkanVideoSession where
  /-- The field `std::atomic<int32_t> m_refCount`. -/
  m_refCount : Int
  /-- The field `VkVideoCoreProfile m_profile`. -/
  m_profile : VkVideoCoreProfile
  /-- The handle `m_devCtx.device`. -/
  m_device : Nat
  /-- The field `VkVideoSessionCreateInfoKHR m_createInfo`. -/
  m_createInfo : VkVideoSessionCreateInfoKHR
  /-- The field `VkVideoSessionKHR m_videoSession`, 0 is `VK_NULL_HANDLE`. -/
  m_videoSession : Nat
deriving DecidableEq, Repr

/-- The constructor `VulkanVideoSession::VulkanVideoSession`: the count is 0,
the create info is zeroed by `deMemset`, the session handle is null. -/
def VulkanVideoSession.ctor (device : Nat) (pVideoProfile : VkVideoCoreProfile) :
    VulkanVideoSession :=
  { m_refCount := 0
    m_profile := pVideoProfile
    m_device := device
    m_createInfo :=
      { queueFamilyIndex := 0, pictureFormat := 0, maxCodedExtent := { width := 0, height := 0 },
        referencePictureFormat := 0, maxDpbSlots := 0, maxActiveReferencePictures := 0 }
    m_videoSession := 0 }

/-- The method `VulkanVideoSession::IsCompatible`. -/
def VulkanVideoSession.IsCompatible (s : VulkanVideoSession) (device : Nat)
    (videoQueueFamily : Nat) (pVideoProfile : VkVideoCoreProfile) (pictureFormat : Nat)
    (maxCodedExtent : VkExtent2D) (referencePicturesFormat : Nat) (maxDpbSlots : Nat)
    (maxActiveReferencePictures : Nat) : Bool :=
  if pVideoProfile ≠ s.m_profile then false
  else if maxCodedExtent.width > s.m_createInfo.maxCodedExtent.width then false
  else if maxCodedExtent.height > s.m_createInfo.maxCodedExtent.height then false
  else if maxDpbSlots > s.m_createInfo.maxDpbSlots then false
  else if maxActiveReferencePictures > s.m_createInfo.maxActiveReferencePictures then false
  else if s.m_createInfo.referencePictureFormat ≠ referencePicturesFormat then false
  else if s.m_createInfo.pictureFormat ≠ pictureFormat then false
  else if s.m_device ≠ device then false
  else if s.m_createInfo.queueFamilyIndex ≠ videoQueueFamily then false
  else true

/-- The method `VulkanVideoSession::AddRef`: returns the `int32_t` result and
the session after the call. -/
def VulkanVideoSession.AddRef (s : VulkanVideoSession) : Int × VulkanVideoSession :=
  let c := toInt32 (s.m_refCount + 1)
  (c, { s with m_refCount := c })

/-- The method `VulkanVideoSession::Release`: returns the `int32_t` result,
the session after the call and whether `delete this` was run. -/
def VulkanVideoSession.Release (s : VulkanVideoSession) : Int × VulkanVideoSession × Bool :=
  let c := toInt32 (s.m_refCount - 1)
  let ret : Nat := toUInt32 c
  (toInt32 ret, { s with m_refCount := c }, decide (ret = 0))

/-- The session after `n` calls of `AddRef()`. -/
def VulkanVideoSession.addRefMany : Nat → VulkanVideoSession → VulkanVideoSession
  | 0, s => s
  | n + 1, s => VulkanVideoSession.addRefMany n s.AddRef.2

/-- The `delete this` flags of `k` consecutive calls of `Release()`, first
call first, and the session after them. -/
def VulkanVideoSession.releaseMany : Nat → VulkanVideoSession → List Bool × VulkanVideoSession
  | 0, s => ([], s)
  | k + 1, s =>
    let r := s.Release
    let rs := VulkanVideoSession.releaseMany k r.2.1
    (r.2.2 :: rs.1, rs.2)

/-- The H.264 baseline profile of the example scenario. -/
def h264Baseline : VkVideoCoreProfile := 66

/-- A session created for 1920x1080 H.264 baseline on device 1, queue family
2, picture format 3, reference picture format 3, 17 DPB slots and 16 active
reference pictures. -/
def session1080p : VulkanVideoSession :=
  { m_refCount := 1
    m_profile := h264Baseline
    m_device := 1
    m_createInfo :=
      { queueFamilyIndex := 2, pictureFormat := 3,
        maxCodedExtent := { width := 1920, height := 1080 },
        referencePictureFormat := 3, maxDpbSlots := 17, maxActiveReferencePictures := 16 }
    m_videoSession := 5 }

/-! ## NvVkDecodeFrameData -/

/-- What the device driver answers to the two calls made by the first
`NvVkDecodeFrameData::resize`: the `VkResult` of `createCommandPool` and the
pool handle it writes, the `VkResult` of `allocateCommandBuffers` and the
handle it writes for each index below the `uint32_t` count it is given. -/
structure CommandPoolDriver where
  /-- The `VkResult` of `createCommandPool`, 0 is `VK_SUCCESS`. -/
  createResult : Int
  /-- The pool handle written by `createCommandPool`. -/
  pool : Nat
  /-- The `VkResult` of `allocateCommandBuffers`, 0 is `VK_SUCCESS`. -/
  allocateResult : Int
  /-- The command buffer handle written at each index. -/
  buffers : Nat → Nat

/-- The state of a `NvVkDecodeFrameData` that `resize`, `GetCommandBuffer` and
`size` read and write. -/
structure NvVkDecodeFrameData where
  /-- The field `VkCommandPool m_videoCommandPool`, 0 is `VK_NULL_HANDLE`. -/
  m_videoCommandPool : Nat
  /-- The field `std::vector<VkCommandBuffer> m_commandBuffers`. -/
  m_commandBuffers : List Nat
deriving DecidableEq, Repr

/-- The constructor `NvVkDecodeFrameData::NvVkDecodeFrameData`. -/
def NvVkDecodeFrameData.ctor : NvVkDecodeFrameData :=
  { m_videoCommandPool := 0, m_commandBuffers := [] }

/-- The method `NvVkDecodeFrameData::size`. -/
def NvVkDecodeFrameData.size (d : NvVkDecodeFrameData) : Nat :=
  d.m_commandBuffers.length

/-- The method `NvVkDecodeFrameData::resize`.  `VK_CHECK` throws when a driver
call does not return `VK_SUCCESS`; the thrown result is the error of the
`Except`. -/
def NvVkDecodeFrameData.resize (d : NvVkDecodeFrameData) (maxDecodeFramesCount : Nat)
    (drv : CommandPoolDriver) : Except Int (Nat × NvVkDecodeFrameData) :=
  if d.m_videoCommandPool = 0 then
    if drv.createResult ≠ 0 then .error drv.createResult
    else
      let d1 := { d with m_videoCommandPool := drv.pool }
      let resized := d1.m_commandBuffers.take maxDecodeFramesCount ++
        List.replicate (maxDecodeFramesCount - d1.m_commandBuffers.length) 0
      let d2 := { d1 with m_commandBuffers := resized }
      if drv.allocateResult ≠ 0 then .error drv.allocateResult
      else
        let commandBufferCount := toUInt32 (maxDecodeFramesCount : Int)
        let written := (List.range d2.m_commandBuffers.length).map
          (fun i => if i < commandBufferCount then drv.buffers i else d2.m_commandBuffers.getD i 0)
        let d3 := { d2 with m_commandBuffers := written }
        .ok (maxDecodeFramesCount, d3)
  else
    .ok (d.m_commandBuffers.length, d)

/-- The assertion `DE_ASSERT(maxDecodeFramesCount <= allocatedCommandBuffers)`
of `resize`: `true` when the call does not trip it.  The branch that creates
the pool asserts nothing. -/
def NvVkDecodeFrameData.resize_asserts (d : NvVkDecodeFrameData) (maxDecodeFramesCount : Nat) :
    Bool :=
  if d.m_videoCommandPool = 0 then true
  else decide (maxDecodeFramesCount ≤ d.m_commandBuffers.length)

/-- The results of a sequence of `resize` calls, first call first, and the
pool after them. -/
def NvVkDecodeFrameData.resizeSeq :
    NvVkDecodeFrameData → List (Nat × CommandPoolDriver) →
      Except Int (List Nat × NvVkDecodeFrameData)
  | d, [] => .ok ([], d)
  | d, (k, drv) :: rest =>
    match d.resize k drv with
    | .error e => .error e
    | .ok (r, d1) =>
      match NvVkDecodeFrameData.resizeSeq d1 rest with
      | .error e => .error e
      | .ok (rs, d2) => .ok (r :: rs, d2)

/-- A driver whose calls succeed: pool handle 9, buffer handles 100, 101, ... -/
def goodDriver : CommandPoolDriver :=
  { createResult := 0, pool := 9, allocateResult := 0, buffers := fun i => 100 + i }

/-- The pool after a first `resize(4)` answered by `goodDriver`. -/
def framePool4 : NvVkDecodeFrameData :=
  { m_videoCommandPool := 9, m_commandBuffers := [100, 101, 102, 103] }

/-! ## VideoBaseDecoder -/

/-- The state of a `VideoBaseDecoder` that `GetCurrentFrameData` and
`triggerPictureParameterSequenceCount` read and write. -/
structure VideoBaseDecoder where
  /-- The field `NvVkDecodeFrameData m_decodeFramesData`. -/
  m_decodeFramesData : NvVkDecodeFrameData
  /-- The field `m_currentPictureParameters`, `none` is `nullptr`. -/
  m_currentPictureParameters : Option Nat
  /-- The field `int m_pictureParameterUpdateCount`. -/
  m_pictureParameterUpdateCount : Int
  /-- The field `size_t m_resetPictureParametersFrameTriggerHack`. -/
  m_resetPictureParametersFrameTriggerHack : Nat
deriving DecidableEq, Repr

/-- The method `VideoBaseDecoder::triggerPictureParameterSequenceCount`.  The
comparison of the `int` count with the `size_t` trigger converts the count to
`size_t`.  Overflow of the `int` count is undefined in C++; the embedding
wraps and no theorem below depends on that case. -/
def VideoBaseDecoder.triggerPictureParameterSequenceCount (d : VideoBaseDecoder) :
    VideoBaseDecoder :=
  let d1 := { d with m_pictureParameterUpdateCount := toInt32 (d.m_pictureParameterUpdateCount + 1) }
  if d1.m_resetPictureParametersFrameTriggerHack > 0 ∧
      toSizeT d1.m_pictureParameterUpdateCount = d1.m_resetPictureParametersFrameTriggerHack then
    { d1 with m_currentPictureParameters := none }
  else d1

/-- The decoder after `k` calls of `triggerPictureParameterSequenceCount()`. -/
def VideoBaseDecoder.triggerMany : Nat → VideoBaseDecoder → VideoBaseDecoder
  | 0, d => d
  | k + 1, d =>
    (VideoBaseDecoder.triggerMany k d).triggerPictureParameterSequenceCount

/-- A decoder with update count 0, reset trigger 3 and parameters object 42. -/
def decoderTrigger3 : VideoBaseDecoder :=
  { m_decodeFramesData := framePool4, m_currentPictureParameters := some 42,
    m_pictureParameterUpdateCount := 0, m_resetPictureParametersFrameTriggerHack := 3 }

/-! ## VkParserVideoPictureParameters -/

/-- The constant `VkParserVideoPictureParameters::MAX_VPS_IDS`. -/
def MAX_VPS_IDS : Nat := 16

/-- The constant `VkParserVideoPictureParameters::MAX_SPS_IDS`. -/
def MAX_SPS_IDS : Nat := 32

/-- The constant `VkParserVideoPictureParameters::MAX_PPS_IDS`. -/
def MAX_PPS_IDS : Nat := 256

/-- The ID bookkeeping of a `VkParserVideoPictureParameters`; a
`std::bitset<N>` is the natural number below `2 ^ N` with the same bits. -/
structure VkParserVideoPictureParameters where
  /-- The field `int32_t m_Id`. -/
  m_Id : Int
  /-- The field `std::atomic<int32_t> m_refCount`. -/
  m_refCount : Int
  /-- The field `std::bitset<MAX_VPS_IDS> m_vpsIdsUsed`. -/
  m_vpsIdsUsed : Nat
  /-- The field `std::bitset<MAX_SPS_IDS> m_spsIdsUsed`. -/
  m_spsIdsUsed : Nat
  /-- The field `std::bitset<MAX_PPS_IDS> m_ppsIdsUsed`. -/
  m_ppsIdsUsed : Nat
  /-- The field `std::bitset<MAX_SPS_IDS> m_av1SpsIdsUsed`. -/
  m_av1SpsIdsUsed : Nat
  /-- The field `int m_updateCount`. -/
  m_updateCount : Int
deriving DecidableEq, Repr

/-- The constructor `VkParserVideoPictureParameters`: the bitsets are
default-constructed, with every bit clear. -/
def VkParserVideoPictureParameters.ctor : VkParserVideoPictureParameters :=
  { m_Id := -1, m_refCount := 0, m_vpsIdsUsed := 0, m_spsIdsUsed := 0, m_ppsIdsUsed := 0,
    m_av1SpsIdsUsed := 0, m_updateCount := 0 }

/-- The method `VkParserVideoPictureParameters::HasVpsId`. -/
def VkParserVideoPictureParameters.HasVpsId (o : VkParserVideoPictureParameters)
    (vpsId : Nat) : Bool :=
  o.m_vpsIdsUsed.testBit vpsId

/-- The method `VkParserVideoPictureParameters::HasSpsId`. -/
def VkParserVideoPictureParameters.HasSpsId (o : VkParserVideoPictureParameters)
    (spsId : Nat) : Bool :=
  o.m_spsIdsUsed.testBit spsId

/-- The method `VkParserVideoPictureParameters::HasPpsId`. -/
def VkParserVideoPictureParameters.HasPpsId (o : VkParserVideoPictureParameters)
    (ppsId : Nat) : Bool :=
  o.m_ppsIdsUsed.testBit ppsId

/-- The kinds of parameter set that carry an ID bitset. -/
inductive ParameterSetKind where
  /-- A video parameter set. -/
  | vps : ParameterSetKind
  /-- A sequence parameter set. -/
  | sps : ParameterSetKind
  /-- A picture parameter set. -/
  | pps : ParameterSetKind
deriving DecidableEq, Repr

/-- Modelled from the spec: the body of
`VkParserVideoPictureParameters::UpdatePictureParametersHierarchy`, which
records the ID of an added parameter set, is not part of the sources at hand
(only its declaration is); the spec says that it tracks "per-kind ID-presence
bitsets" of the "IDs seen so far", so adding the ID `x` of kind `k` sets bit
`x` of the bitset of kind `k` and touches no other bitset. -/
def VkParserVideoPictureParameters.addParameterSetId (o : VkParserVideoPictureParameters)
    (k : ParameterSetKind) (x : Nat) : VkParserVideoPictureParameters :=
  match k with
  | .vps => { o with m_vpsIdsUsed := o.m_vpsIdsUsed ||| 2 ^ x }
  | .sps => { o with m_spsIdsUsed := o.m_spsIdsUsed ||| 2 ^ x }
  | .pps => { o with m_ppsIdsUsed := o.m_ppsIdsUsed ||| 2 ^ x }

/-- The bound on the IDs of a kind. -/
def ParameterSetKind.maxIds : ParameterSetKind → Nat
  | .vps => MAX_VPS_IDS
  | .sps => MAX_SPS_IDS
  | .pps => MAX_PPS_IDS

/-- The query `HasVpsId`, `HasSpsId` or `HasPpsId` of a kind. -/
def VkParserVideoPictureParameters.hasId (o : VkParserVideoPictureParameters)
    (k : ParameterSetKind) (x : Nat) : Bool :=
  match k with
  | .vps => o.HasVpsId x
  | .sps => o.HasSpsId x
  | .pps => o.HasPpsId x

/-! ## Case path patterns of the command line -/

/-- The `while` loop at the head of `matchWildcards`: both iterators advance
while neither is at its end and the characters they point at are equal.
Returns the rest of the pattern and the rest of the path. -/
def skipCommon : List Char → List Char → List Char × List Char
  | c :: pattern, d :: path =>
    if c = d then skipCommon pattern path else (c :: pattern, d :: path)
  | pattern, path => (pattern, path)

/-- The positions visited by the loop `for (; path != pathEnd; ++path)`, each
given as the rest of the path from that position on. -/
def pathPositions : List Char → List (List Char)
  | [] => []
  | d :: path => (d :: path) :: pathPositions path

/-- The function `matchWildcards` with a bound on the depth of its recursive
calls; strings are lists of characters, a pair of iterators is the rest of the
string. -/
def matchWildcardsAux : Nat → List Char → List Char → Bool → Bool
  | 0, _, _, _ => false
  | fuel + 1, patternStart, pathStart, allowPrefix =>
    match skipCommon patternStart pathStart with
    | ([], path) => path.isEmpty
    | (c :: patternNext, path) =>
      if c = '*' then
        (match patternNext with
          | [] => false
          | n :: _ =>
            (pathPositions path).any (fun rest =>
              decide (rest.head? = some n) &&
                matchWildcardsAux fuel patternNext rest allowPrefix)) ||
          matchWildcardsAux fuel patternNext [] allowPrefix
      else if path.isEmpty && allowPrefix then true
      else false

/-- The function `matchWildcards` of `tcuCommandLine.cpp`.  Every recursive
call is on a strictly shorter pattern, so a depth of one more than the length
of the pattern is never exhausted. -/
def matchWildcards (pattern path : List Char) (allowPrefix : Bool) : Bool :=
  matchWildcardsAux (pattern.length + 1) pattern path allowPrefix

/-- The class `CasePaths`: the list of patterns that `de::splitString` cut
out of the comma-separated option value. -/
structure CasePaths where
  /-- The field `m_casePatterns`. -/
  m_casePatterns : List (List Char)
deriving DecidableEq, Repr

/-- The method `CasePaths::matches`, in the build without
`TCU_HIERARCHICAL_CASEPATHS` (the sources at hand never define it). -/
def CasePaths.matches (cp : CasePaths) (caseName : List Char) (allowPrefix : Bool) : Bool :=
  cp.m_casePatterns.any (fun pattern => matchWildcards pattern caseName allowPrefix)

/-- Stated after the spec: `path` is obtained from `pattern` by replacing each
`*` with some, possibly empty, string and keeping every other character. -/
inductive StarSubst : List Char → List Char → Prop where
  /-- The empty pattern yields the empty path. -/
  | nil : StarSubst [] []
  /-- A character other than `*` is kept. -/
  | lit {c : Char} {pattern path : List Char} : c ≠ '*' → StarSubst pattern path →
      StarSubst (c :: pattern) (c :: path)
  /-- A `*` is replaced by the string `u`. -/
  | star {pattern path : List Char} (u : List Char) : StarSubst pattern path →
      StarSubst ('*' :: pattern) (u ++ path)

/-- The pattern has no two adjacent `*` characters. -/
def noAdjacentStars : List Char → Bool
  | a :: b :: rest => !(decide (a = '*') && decide (b = '*')) && noAdjacentStars (b :: rest)
  | _ => true

/-! ## Case trie of the command line -/

/-- The class `CaseTreeNode`: the hash of the node name (`test_case_hash_t`)
and the children in the order they were added. -/
inductive CaseTreeNode where
  /-- A node with hash `m_hash` and children `m_children`. -/
  | mk (m_hash : Nat) (m_children : List CaseTreeNode) : CaseTreeNode

/-- The method `CaseTreeNode::getHash`. -/
def CaseTreeNode.getHash : CaseTreeNode → Nat
  | .mk h _ => h

/-- The field `m_children`. -/
def CaseTreeNode.m_children : CaseTreeNode → List CaseTreeNode
  | .mk _ cs => cs

/-- The method `CaseTreeNode::hasChildren`. -/
def CaseTreeNode.hasChildren (n : CaseTreeNode) : Bool :=
  !n.m_children.isEmpty

/-- The method `CaseTreeNode::addChild`. -/
def CaseTreeNode.addChild (n : CaseTreeNode) (child : CaseTreeNode) : CaseTreeNode :=
  .mk n.getHash (n.m_children ++ [child])

/-- The loop of `CaseTreeNode::findChildNdx` over the children from index
`ndx` on: the index of the first child with the hash, or `NOT_FOUND` (-1). -/
def findChildNdxFrom (hash : Nat) : List CaseTreeNode → Nat → Int
  | [], _ => -1
  | child :: rest, ndx =>
    if child.getHash = hash then (ndx : Int) else findChildNdxFrom hash rest (ndx + 1)

/-- The method `CaseTreeNode::findChildNdx`. -/
def CaseTreeNode.findChildNdx (n : CaseTreeNode) (hash : Nat) : Int :=
  findChildNdxFrom hash n.m_children 0

/-- The method `CaseTreeNode::hasChild`. -/
def CaseTreeNode.hasChild (n : CaseTreeNode) (hash : Nat) : Bool :=
  n.findChildNdx hash != -1

/-- The method `CaseTreeNode::getChild`, `none` is `nullptr`. -/
def CaseTreeNode.getChild (n : CaseTreeNode) (hash : Nat) : Option CaseTreeNode :=
  let ndx := n.findChildNdx hash
  if ndx = -1 then none else n.m_children[ndx.toNat]?

/-- The function `getCurrentComponentLen`; a `const char *` is the list of the
characters before its terminating NUL. -/
def getCurrentComponentLen : List Char → Nat
  | [] => 0
  | c :: path => if c = '.' then 0 else getCurrentComponentLen path + 1

/-- The map `hashCollisionDetectionMap`: the entries in insertion order. -/
abbrev HashCollisionMap := List (Nat × List Char)

/-- The function `hashTestNodeName`; `murmur` stands for
`MurmurHash64B(name.c_str(), name.length(), 1)`, whose value depends on the
bytes in memory and is taken as a parameter.  With a collision map, a name
that differs from the one recorded under the same hash throws; the map is
returned with the name recorded (`insert` keeps an existing entry). -/
def hashTestNodeName (murmur : List Char → Nat) (name : List Char)
    (hashCollisionDetectionMap : Option HashCollisionMap) :
    Except String (Nat × Option HashCollisionMap) :=
  let hash := murmur name
  match hashCollisionDetectionMap with
  | none => .ok (hash, none)
  | some map =>
    match map.find? (fun e => e.1 = hash) with
    | some e =>
      if e.2 ≠ name then .error "Hash collision detected!"
      else .ok (hash, some map)
    | none => .ok (hash, some (map ++ [(hash, name)]))

/-- The function `findNode` with a bound on the number of turns of its loop. -/
def findNodeAux (murmur : List Char → Nat) :
    Nat → CaseTreeNode → List Char → Option CaseTreeNode
  | 0, _, _ => none
  | fuel + 1, curNode, curPath =>
    let curLen := getCurrentComponentLen curPath
    match curNode.getChild (murmur (curPath.take curLen)) with
    | none => none
    | some child =>
      match curPath.drop curLen with
      | [] => some child
      | _ :: rest => findNodeAux murmur fuel child rest

/-- The function `findNode`.  Every turn of the loop but the last removes a
`.` from the path, so one more turn than the path has characters is never
exhausted. -/
def findNode (murmur : List Char → Nat) (root : CaseTreeNode) (path : List Char) :
    Option CaseTreeNode :=
  findNodeAux murmur (path.length + 1) root path

/-- The function `tcu::checkTestGroupName` on a case tree. -/
def checkTestGroupName (murmur : List Char → Nat) (root : CaseTreeNode)
    (groupPath : List Char) : Bool :=
  match findNode murmur root groupPath with
  | some node => node.hasChildren
  | none => false

/-- The function `tcu::checkTestCaseName` on a case tree. -/
def checkTestCaseName (murmur : List Char → Nat) (root : CaseTreeNode)
    (casePath : List Char) : Bool :=
  match findNode murmur root casePath with
  | some node => !node.hasChildren
  | none => false

/-- The local state of `parseCaseTrie`.  A node on `nodeStack` is kept with
the children it has received so far, top of the stack first.  The C++ code
links a new node to its parent when it creates it and the embedding when it
pops it; the tree is the same, because a parent receives no other child while
the node is above it on the stack. -/
structure TrieParser where
  /-- The variable `nodeStack`, top first. -/
  nodeStack : List CaseTreeNode
  /-- The variable `curName`. -/
  curName : List Char
  /-- The variable `expectNode`. -/
  expectNode : Bool
  /-- The parameter `hashCollisionDetectionMap`. -/
  hashCollisionDetectionMap : HashCollisionMap

/-- The statements `if (in.peek() == '\r') in.get(); if (in.peek() == '\n')
in.get();` that consume a trailing new line. -/
def consumeTrailingNewLine (input : List Char) : List Char :=
  let in1 := match input with
    | '\r' :: rest => rest
    | other => other
  match in1 with
  | '\n' :: rest => rest
  | other => other

/-- The statements of the `'}'` branch of `parseCaseTrie` that pop the stack:
the finished node is handed to `k` with the rest of the stack. -/
def popNode : List CaseTreeNode → Option (CaseTreeNode × List CaseTreeNode)
  | [] => none
  | node :: [] => some (node, [])
  | node :: parent :: stack => some (node, parent.addChild node :: stack)

/-- The `while` loop of `parseCaseTrie`; `isValidTestCaseNameChar` is declared
in `tcuTestCase.hpp`, which is not part of the sources at hand, and is taken
as a parameter.  The input stream is the list of the characters still to be
read; the result is the finished root and the rest of the stream. -/
def parseCaseTrieLoop (murmur : List Char → Nat) (isValidTestCaseNameChar : Char → Bool) :
    TrieParser → List Char → Except String (CaseTreeNode × List Char)
  | _, [] => .error "Unterminated case tree"
  | st, curChr :: input =>
    if curChr = Char.ofNat 0 then .error "Unterminated case tree"
    else if curChr = '{' ∨ curChr = ',' ∨ curChr = '}' then
      let created : Except String TrieParser :=
        if !st.curName.isEmpty && st.expectNode then
          match hashTestNodeName murmur st.curName (some st.hashCollisionDetectionMap) with
          | .error e => .error e
          | .ok (hash, map) =>
            let newChild := CaseTreeNode.mk hash []
            let stack := if curChr = '{' then newChild :: st.nodeStack
              else match st.nodeStack with
                | [] => []
                | top :: rest => top.addChild newChild :: rest
            .ok { st with nodeStack := stack, curName := [],
                          hashCollisionDetectionMap := map.getD [] }
        else if st.curName.isEmpty = st.expectNode then
          .error (if st.expectNode then "Empty node name" else "Missing node separator")
        else .ok st
      match created with
      | .error e => .error e
      | .ok st1 =>
        if curChr = '}' then
          match popNode st1.nodeStack with
          | none => .error "pop_back on an empty stack"
          | some (root, []) => .ok (root, consumeTrailingNewLine input)
          | some (_, top :: rest) =>
            parseCaseTrieLoop murmur isValidTestCaseNameChar
              { st1 with expectNode := false, nodeStack := top :: rest } input
        else
          parseCaseTrieLoop murmur isValidTestCaseNameChar { st1 with expectNode := true } input
    else if isValidTestCaseNameChar curChr then
      parseCaseTrieLoop murmur isValidTestCaseNameChar
        { st with curName := st.curName ++ [curChr] } input
    else .error "Illegal character in node name"

/-- The function `parseCaseTrie`: returns the root with the parsed children
and the rest of the stream. -/
def parseCaseTrie (murmur : List Char → Nat) (isValidTestCaseNameChar : Char → Bool)
    (root : CaseTreeNode) (input : List Char) (hashCollisionDetectionMap : HashCollisionMap) :
    Except String (CaseTreeNode × List Char) :=
  match input with
  | '{' :: rest =>
    parseCaseTrieLoop murmur isValidTestCaseNameChar
      { nodeStack := [root], curName := [], expectNode := true,
        hashCollisionDetectionMap := hashCollisionDetectionMap } rest
  | _ => .error "Malformed case trie"

/-! ## Description of a case trie -/

/-- Stated after the spec: a case trie as a tree of node names.  A node
without children is a test case, a node with children a test group. -/
inductive NameTrie where
  /-- A node with its name and its children in the order of the text. -/
  | mk (name : List Char) (children : List NameTrie) : NameTrie

/-- The name of a node. -/
def NameTrie.name : NameTrie → List Char
  | .mk n _ => n

/-- The children of a node. -/
def NameTrie.children : NameTrie → List NameTrie
  | .mk _ cs => cs

mutual
/-- The text of a node: its name, followed for a group by its children in
braces. -/
def NameTrie.text : NameTrie → List Char
  | .mk n [] => n
  | .mk n (c :: cs) => n ++ '{' :: (NameTrie.text c ++ NameTrie.textRest cs)
/-- The text after a child: a comma and the next child, or the closing
brace. -/
def NameTrie.textRest : List NameTrie → List Char
  | [] => ['}']
  | t :: ts => ',' :: (NameTrie.text t ++ NameTrie.textRest ts)
end

/-- The case trie text of a non-empty list of top-level nodes, as in
`{dEQP-GLES2{info{version,renderer}}}`. -/
def caseTrieText : List NameTrie → List Char
  | [] => []
  | t :: ts => '{' :: (t.text ++ NameTrie.textRest ts)

mutual
/-- The `CaseTreeNode` of a node of the trie. -/
def NameTrie.toNode (murmur : List Char → Nat) : NameTrie → CaseTreeNode
  | .mk n cs => .mk (murmur n) (NameTrie.toNodes murmur cs)
/-- The `CaseTreeNode`s of a list of nodes. -/
def NameTrie.toNodes (murmur : List Char → Nat) : List NameTrie → List CaseTreeNode
  | [] => []
  | t :: ts => NameTrie.toNode murmur t :: NameTrie.toNodes murmur ts
end

/-- A node name of a well-formed trie text: not empty and made of valid name
characters, none of which is a brace, a comma, a dot or NUL. -/
def nodeNameOk (isValidTestCaseNameChar : Char → Bool) (name : List Char) : Bool :=
  !name.isEmpty && name.all (fun c => isValidTestCaseNameChar c && decide (c ≠ '{') &&
    decide (c ≠ ',') && decide (c ≠ '}') && decide (c ≠ '.') && decide (c ≠ Char.ofNat 0))

mutual
/-- Every name of the node and below is a well-formed node name. -/
def NameTrie.namesOk (isValidTestCaseNameChar : Char → Bool) : NameTrie → Bool
  | .mk n cs => nodeNameOk isValidTestCaseNameChar n &&
      NameTrie.namesOkList isValidTestCaseNameChar cs
/-- Every name of the nodes and below is a well-formed node name. -/
def NameTrie.namesOkList (isValidTestCaseNameChar : Char → Bool) : List NameTrie → Bool
  | [] => true
  | t :: ts => NameTrie.namesOk isValidTestCaseNameChar t &&
      NameTrie.namesOkList isValidTestCaseNameChar ts
end

mutual
/-- Below the node, the children of every node have pairwise distinct
names. -/
def NameTrie.siblingsDistinct : NameTrie → Bool
  | .mk _ cs => NameTrie.siblingsDistinctList cs
/-- The nodes have pairwise distinct names, and so have the children of every
node below them. -/
def NameTrie.siblingsDistinctList : List NameTrie → Bool
  | [] => true
  | t :: ts => !(ts.map NameTrie.name).contains t.name && NameTrie.siblingsDistinct t &&
      NameTrie.siblingsDistinctList ts
end

mutual
/-- The names of the node and of all nodes below it. -/
def NameTrie.allNames : NameTrie → List (List Char)
  | .mk n cs => n :: NameTrie.allNamesList cs
/-- The names of the nodes and of all nodes below them. -/
def NameTrie.allNamesList : List NameTrie → List (List Char)
  | [] => []
  | t :: ts => NameTrie.allNames t ++ NameTrie.allNamesList ts
end

/-- Stated after the spec: the names `names`, read from the top-level nodes
`ts` downwards, spell the node `u`. -/
inductive Spells : List NameTrie → List (List Char) → NameTrie → Prop where
  /-- The last name is the name of a node of the level. -/
  | last {ts : List NameTrie} {t : NameTrie} : t ∈ ts → Spells ts [t.name] t
  /-- A name is the name of a node of the level and the rest spells a node
  below it. -/
  | step {ts : List NameTrie} {t u : NameTrie} {rest : List (List Char)} : t ∈ ts →
      Spells t.children rest u → Spells ts (t.name :: rest) u

/-- The components of a dotted path: the strings between the dots. -/
def splitDots : List Char → List (List Char)
  | [] => [[]]
  | c :: path =>
    if c = '.' then [] :: splitDots path
    else match splitDots path with
      | comp :: comps => (c :: comp) :: comps
      | [] => [[c]]

/-- The hash gives distinct values to distinct names of the list. -/
def hashDistinctOn (murmur : List Char → Nat) (names : List (List Char)) : Prop :=
  ∀ a ∈ names, ∀ b ∈ names, murmur a = murmur b → a = b

instance decidableHashDistinctOn (murmur : List Char → Nat) (names : List (List Char)) :
    Decidable (hashDistinctOn murmur names) := by
  unfold hashDistinctOn
  infer_instance

/-- The node reached from the top-level nodes `ts` by following the names,
taking at each level the first node with the name. -/
def walkNames : List NameTrie → List (List Char) → Option NameTrie
  | _, [] => none
  | ts, [n] => ts.find? (fun t => decide (t.name = n))
  | ts, n :: m :: rest =>
    match ts.find? (fun t => decide (t.name = n)) with
    | some t => walkNames t.children (m :: rest)
    | none => none

/-- A hash for the examples: the characters read as digits in base 256. -/
def exampleHash (name : List Char) : Nat :=
  name.foldl (fun acc c => acc * 256 + c.toNat) 1

/-- Name characters for the examples: letters, digits, `-` and `_`. -/
def exampleNameChar (c : Char) : Bool :=
  c.isAlphanum || c = '-' || c = '_'

/-- The trie of the text `{dEQP-GLES2{info{version,renderer}}}`. -/
def exampleTrie : List NameTrie :=
  [.mk "dEQP-GLES2".toList [.mk "info".toList
    [.mk "version".toList [], .mk "renderer".toList []]]]

/-- The trie of the text `{a{b},a{c}}`, with two top-level nodes named `a`. -/
def duplicateTrie : List NameTrie :=
  [.mk ['a'] [.mk ['b'] []], .mk ['a'] [.mk ['c'] []]]

/-! ## CaseListFilter -/

/-- The state of a `CaseListFilter` that the name and fraction checks read;
`none` is a null pointer. -/
structure CaseListFilter where
  /-- The field `m_caseTree`. -/
  m_caseTree : Option CaseTreeNode
  /-- The field `m_casePaths`. -/
  m_casePaths : Option CasePaths
  /-- The field `std::vector<int> m_caseFraction`. -/
  m_caseFraction : List Int
  /-- The field `m_caseFractionMandatoryTests`. -/
  m_caseFractionMandatoryTests : Option CasePaths

/-- The method `CaseListFilter::checkTestGroupName`. -/
def CaseListFilter.checkTestGroupName (murmur : List Char → Nat) (f : CaseListFilter)
    (groupName : List Char) : Bool :=
  let first : Option Bool :=
    match f.m_casePaths with
    | some paths => some (paths.matches groupName true)
    | none =>
      match f.m_caseTree with
      | some tree => some (groupName.isEmpty || VkVideo.checkTestGroupName murmur tree groupName)
      | none => none
  match first with
  | none => true
  | some result =>
    match f.m_caseFractionMandatoryTests with
    | some mandatory => if !result then mandatory.matches groupName true else result
    | none => result

/-- The method `CaseListFilter::checkTestCaseName`. -/
def CaseListFilter.checkTestCaseName (murmur : List Char → Nat) (f : CaseListFilter)
    (caseName : List Char) : Bool :=
  let first : Option Bool :=
    match f.m_casePaths with
    | some paths => some (paths.matches caseName false)
    | none =>
      match f.m_caseTree with
      | some tree => some (VkVideo.checkTestCaseName murmur tree caseName)
      | none => none
  match first with
  | none => true
  | some result =>
    match f.m_caseFractionMandatoryTests with
    | some mandatory => if !result then mandatory.matches caseName false else result
    | none => result

/-- The method `CaseListFilter::checkCaseFraction`.  The remainder `%` of C++
truncates towards zero; a remainder by zero is undefined in C++ and is what
`Int.tmod` gives in the embedding. -/
def CaseListFilter.checkCaseFraction (f : CaseListFilter) (i : Int) (testCaseName : List Char) :
    Bool :=
  decide (f.m_caseFraction.length ≠ 2) ||
    decide (Int.tmod i (f.m_caseFraction.getD 1 0) = f.m_caseFraction.getD 0 0) ||
    (match f.m_caseFractionMandatoryTests with
      | some mandatory => mandatory.matches testCaseName false
      | none => false)

/-- Whether `checkCaseFraction` evaluates `i % m_caseFraction[1]` with a zero
divisor: the remainder is evaluated exactly when the fraction has two
elements. -/
def CaseListFilter.remainderByZero (f : CaseListFilter) : Bool :=
  decide (f.m_caseFraction.length = 2) && decide (f.m_caseFraction.getD 1 0 = 0)

/-- The part of the constructor `CaseListFilter::CaseListFilter` that takes
and validates the case fraction: the value of `m_caseFraction`, or the message
of the exception thrown. -/
def CaseListFilter.ctorCaseFraction (subProcess : Bool) (optCaseFraction : List Int) :
    Except String (List Int) :=
  let m_caseFraction := if !subProcess then optCaseFraction else []
  if m_caseFraction.length = 2 ∧
      (m_caseFraction.getD 0 0 < 0 ∨ m_caseFraction.getD 1 0 ≤ 0 ∨
        m_caseFraction.getD 0 0 ≥ m_caseFraction.getD 1 0) then
    .error "Invalid case fraction. First element must be non-negative and less than second element. Second element must be greater than 0."
  else if m_caseFraction.length ≠ 0 ∧ m_caseFraction.length ≠ 2 then
    .error "Invalid case fraction. Must have two components."
  else .ok m_caseFraction

/-! ## The constructor of CaseListFilter -/

/-- The options of `de::cmdline::CommandLine` that the constructor of
`CaseListFilter` reads, each field named after its `opt::` tag; `none` is an
option for which `hasOption` is false.  The runner type options only set
`m_runnerType`, which the checks embedded here do not read, and are left
out. -/
structure CommandLine where
  /-- The option `opt::CaseList`. -/
  CaseList : Option (List Char)
  /-- The option `opt::CaseListFile`. -/
  CaseListFile : Option (List Char)
  /-- The option `opt::CaseListResource`. -/
  CaseListResource : Option (List Char)
  /-- The option `opt::StdinCaseList`. -/
  StdinCaseList : Bool
  /-- The option `opt::CasePath`. -/
  CasePath : Option (List Char)
  /-- The option `opt::SubProcess`. -/
  SubProcess : Bool
  /-- The option `opt::CaseFraction`. -/
  CaseFraction : List Int
  /-- The option `opt::CaseFractionMandatoryTests`. -/
  CaseFractionMandatoryTests : List Char

/-- What the constructor of `CaseListFilter` reads besides the command line,
and the functions it calls that are not embedded: a result `.error` is an
exception thrown by the call. -/
structure FilterEnv where
  /-- The call `de::splitString(pathList, ',')`; `de::splitString` is declared
  in `deStringUtil.hpp`, which is not part of the sources at hand. -/
  splitString : List Char → List (List Char)
  /-- The contents of the file of the given name when `std::ifstream` opens it
  and the stream is good, `none` otherwise. -/
  openFile : List Char → Option (List Char)
  /-- The bytes that `archive.getResource(name)` yields through `getSize` and
  `read`; `tcu::Archive` and `tcu::Resource` are not part of the sources at
  hand. -/
  getResource : List Char → Except String (List Char)
  /-- The characters waiting on `std::cin`. -/
  stdin : List Char
  /-- The call `parseGroupFile(root, in, archive, true, map)`, which reads
  further resources of the archive: the root after the call and the rest of
  the stream. -/
  parseGroupFile : CaseTreeNode → List Char → HashCollisionMap →
    Except String (CaseTreeNode × List Char)
  /-- The call `parseCaseList(root, in, reportDuplicates, map)` of the overload
  that runs `parseSimpleCaseList` on a node stack holding `root`: the root
  after the call and the rest of the stream.  Its node stack points into the
  tree it extends and is not embedded; the statements below hold for every
  behaviour of the call. -/
  parseSimpleCaseList : CaseTreeNode → List Char → Bool → HashCollisionMap →
    Except String (CaseTreeNode × List Char)

/-- The lines that the loop `while (std::getline(fileStream, line))` reads:
`cur` is the part of the current line read so far.  A last line without a
new line character is read if it is not empty. -/
def getLinesAux : List Char → List Char → List (List Char)
  | cur, [] => if cur.isEmpty then [] else [cur]
  | cur, c :: rest =>
    if c = '\n' then cur :: getLinesAux [] rest else getLinesAux (cur ++ [c]) rest

/-- The function `parseCaseList(in, archive, path)` that returns the root of
the case tree; `path` is `none` for the default argument `nullptr`. -/
def parseCaseList (murmur : List Char → Nat) (isValidTestCaseNameChar : Char → Bool)
    (env : FilterEnv) (input : List Char) (path : Option (List Char)) :
    Except String CaseTreeNode :=
  match hashTestNodeName murmur [] (some []) with
  | .error e => .error e
  | .ok (hash, map) =>
    let hashCollisionDetectionMap := map.getD []
    let root := CaseTreeNode.mk hash []
    let parsed : Except String (CaseTreeNode × List Char) :=
      if input.head? = some '{' then
        parseCaseTrie murmur isValidTestCaseNameChar root input hashCollisionDetectionMap
      else
        let readGroupFile : Bool :=
          match path with
          | some _ =>
            let line := (input.takeWhile (fun c => c ≠ '\n')).filter (fun c => c ≠ '\r')
            decide (line.length > 4) && List.isSuffixOf ['.', 't', 'x', 't'] line
          | none => false
        if readGroupFile then env.parseGroupFile root input hashCollisionDetectionMap
        else env.parseSimpleCaseList root input true hashCollisionDetectionMap
    match parsed with
    | .error e => .error e
    | .ok (root1, rest) =>
      match rest with
      | [] => .ok root1
      | curChr :: _ =>
        if curChr ≠ Char.ofNat 0 then .error "Trailing characters at end of case list"
        else .ok root1

/-- The part of the constructor `CaseListFilter::CaseListFilter(cmdLine,
archive)` that reads the case list or the case paths: the values of
`m_caseTree` and `m_casePaths`, or the message of the exception thrown. -/
def CaseListFilter.ctorCaseSource (murmur : List Char → Nat)
    (isValidTestCaseNameChar : Char → Bool) (env : FilterEnv) (cmdLine : CommandLine) :
    Except String (Option CaseTreeNode × Option CasePaths) :=
  match cmdLine.CaseList with
  | some str =>
    match parseCaseList murmur isValidTestCaseNameChar env str none with
    | .error e => .error e
    | .ok tree => .ok (some tree, none)
  | none =>
    match cmdLine.CaseListFile with
    | some caseListFile =>
      match env.openFile caseListFile with
      | none => .error ("Failed to open case list file '" ++ String.mk caseListFile ++ "'")
      | some content =>
        match parseCaseList murmur isValidTestCaseNameChar env content (some caseListFile) with
        | .error e => .error e
        | .ok tree => .ok (some tree, none)
    | none =>
      match cmdLine.CaseListResource with
      | some name =>
        match env.getResource name with
        | .error e => .error e
        | .ok buffer =>
          if buffer.isEmpty then .error "Empty case list resource"
          else
            match parseCaseList murmur isValidTestCaseNameChar env buffer none with
            | .error e => .error e
            | .ok tree => .ok (some tree, none)
      | none =>
        if cmdLine.StdinCaseList then
          match parseCaseList murmur isValidTestCaseNameChar env env.stdin none with
          | .error e => .error e
          | .ok tree => .ok (some tree, none)
        else
          match cmdLine.CasePath with
          | some pathList => .ok (none, some { m_casePatterns := env.splitString pathList })
          | none => .ok (none, none)

/-- The part of the constructor `CaseListFilter::CaseListFilter(cmdLine,
archive)` that follows the validation of the fraction and reads the file of
mandatory tests: the values of `m_caseFractionMandatoryTests` and `m_caseTree`,
or the message of the exception thrown. -/
def CaseListFilter.ctorMandatoryTests (env : FilterEnv) (cmdLine : CommandLine)
    (m_caseTree : Option CaseTreeNode) (m_caseFraction : List Int) :
    Except String (Option CasePaths × Option CaseTreeNode) :=
  if m_caseFraction.length = 2 then
    let caseFractionMandatoryTestsFilename := cmdLine.CaseFractionMandatoryTests
    if !caseFractionMandatoryTestsFilename.isEmpty then
      match env.openFile caseFractionMandatoryTestsFilename with
      | none =>
        .error ("Failed to open case fraction mandatory test list: '" ++
          String.mk caseFractionMandatoryTestsFilename ++ "'")
      | some content =>
        let cfPaths := (getLinesAux [] content).map (fun line => line.filter (fun c => c ≠ '\r'))
        if !cfPaths.isEmpty then
          match m_caseTree with
          | some tree =>
            match env.parseSimpleCaseList tree content false [] with
            | .error e => .error e
            | .ok (tree1, _) => .ok (some { m_casePatterns := cfPaths }, some tree1)
          | none => .ok (some { m_casePatterns := cfPaths }, none)
        else .ok (none, m_caseTree)
    else .ok (none, m_caseTree)
  else .ok (none, m_caseTree)

/-- The constructor `CaseListFilter::CaseListFilter(cmdLine, archive)`: the
filter it builds, or the message of the exception it throws. -/
def CaseListFilter.ctor (murmur : List Char → Nat) (isValidTestCaseNameChar : Char → Bool)
    (env : FilterEnv) (cmdLine : CommandLine) : Except String CaseListFilter :=
  match CaseListFilter.ctorCaseSource murmur isValidTestCaseNameChar env cmdLine with
  | .error e => .error e
  | .ok (tree, paths) =>
    match CaseListFilter.ctorCaseFraction cmdLine.SubProcess cmdLine.CaseFraction with
    | .error e => .error e
    | .ok fraction =>
      match CaseListFilter.ctorMandatoryTests env cmdLine tree fraction with
      | .error e => .error e
      | .ok (mandatory, tree1) =>
        .ok { m_caseTree := tree1, m_casePaths := paths, m_caseFraction := fraction,
              m_caseFractionMandatoryTests := mandatory }

/-- The condition under which the validation of the case fraction throws. -/
def invalidCaseFraction (caseFraction : List Int) : Prop :=
  (caseFraction.length ≠ 0 ∧ caseFraction.length ≠ 2) ∨
    (caseFraction.length = 2 ∧ (caseFraction.getD 0 0 < 0 ∨ caseFraction.getD 1 0 ≤ 0 ∨
      caseFraction.getD 0 0 ≥ caseFraction.getD 1 0))

instance decidableInvalidCaseFraction (caseFraction : List Int) :
    Decidable (invalidCaseFraction caseFraction) := by
  unfold invalidCaseFraction
  infer_instance

/-- An environment for the examples: no file, no resource, nothing on
`std::cin`; the calls that are not embedded throw. -/
def exampleEnv : FilterEnv :=
  { splitString := fun pathList => [pathList]
    openFile := fun _ => none
    getResource := fun _ => .error "Resource not found"
    stdin := []
    parseGroupFile := fun _ _ _ => .error "Resource not found"
    parseSimpleCaseList := fun _ _ _ _ => .error "Empty test case name" }

/-- The command line `--deqp-caselist={} --deqp-fraction=0,2`. -/
def emptyTrieCommandLine : CommandLine :=
  { CaseList := some ['{', '}'], CaseListFile := none, CaseListResource := none,
    StdinCaseList := false, CasePath := none, SubProcess := false, CaseFraction := [0, 2],
    CaseFractionMandatoryTests := [] }

/-- The command line `--deqp-caselist={a{b,c}} --deqp-fraction=1,3`. -/
def smallTrieCommandLine : CommandLine :=
  { CaseList := some ['{', 'a', '{', 'b', ',', 'c', '}', '}'], CaseListFile := none,
    CaseListResource := none, StdinCaseList := false, CasePath := none, SubProcess := false,
    CaseFraction := [1, 3], CaseFractionMandatoryTests := [] }

/-! ## Frame data of the decoder -/

/-- The structure `NvVkDecodeFrameDataSlot`. -/
structure NvVkDecodeFrameDataSlot where
  /-- The field `uint32_t slot`. -/
  slot : Nat
  /-- The field `VkCommandBuffer commandBuffer`. -/
  commandBuffer : Nat
deriving DecidableEq, Repr

/-- The method `NvVkDecodeFrameData::GetCommandBuffer`.  An index past the end
of the vector is undefined in C++; the embedding reads a null handle there. -/
def NvVkDecodeFrameData.GetCommandBuffer (d : NvVkDecodeFrameData) (slot : Nat) : Nat :=
  d.m_commandBuffers.getD slot 0

/-- The method `VideoBaseDecoder::GetCurrentFrameData`; `slotId` is a
`uint32_t`, the result an `int32_t`.  Returns the result and the value of
`frameDataSlot` after the call. -/
def VideoBaseDecoder.GetCurrentFrameData (d : VideoBaseDecoder) (slotId : Nat)
    (frameDataSlot : NvVkDecodeFrameDataSlot) : Int × NvVkDecodeFrameDataSlot :=
  if slotId < d.m_decodeFramesData.size then
    let f1 := { frameDataSlot with
      commandBuffer := d.m_decodeFramesData.GetCommandBuffer slotId }
    let f2 := { f1 with slot := slotId }
    (toInt32 (slotId : Int), f2)
  else (-1, frameDataSlot)

/-! ## Reference counts during `MapPictureResource` -/

/-- The reference counts after each `AddRef` or `Release` of one turn of the
loop of `MapPictureResource`, in program order: for the target slot the counts
after the `AddRef` of `setPictureResource` and after its `Release`, for any
other slot the counts after the turn. -/
def DpbSlots.mapStepCounts (pPic : PicPtr) (dpbSlot : Nat) (age : Int)
    (w : DpbSlots × RefCounts) (slot : Nat) : List RefCounts :=
  if slot = dpbSlot then
    [match pPic with
      | some p => picAddRef w.2 p
      | none => w.2,
     (DpbSlots.mapStep pPic dpbSlot age w slot).2]
  else [(DpbSlots.mapStep pPic dpbSlot age w slot).2]

/-- The reference counts at every step of `MapPictureResource`: the counts
at entry and then, turn by turn, the counts after each `AddRef` or `Release`. -/
def DpbSlots.MapPictureResource_counts (t : DpbSlots) (pPic : PicPtr) (dpbSlot : Nat)
    (age : Int) (rc : RefCounts) : List RefCounts :=
  rc :: (List.range t.m_dpbMaxSize).flatMap (fun k =>
    DpbSlots.mapStepCounts pPic dpbSlot age
      ((List.range k).foldl (DpbSlots.mapStep pPic dpbSlot age) (t, rc)) k)

/-- The number of slots below the capacity that hold the picture `p`. -/
def DpbSlots.holders (t : DpbSlots) (p : Nat) : Nat :=
  ((List.range t.m_dpbMaxSize).filter
    (fun i => decide ((t.slotAt i).getPictureResource = some p))).length

/-- A table of capacity 2 whose slot 0 is allocated and holds picture 7, and
reference counts in which that slot holds the only reference on picture 7. -/
def soleOwnerTable : DpbSlots × RefCounts :=
  ((DpbSlots.ctor 2 noRefs).1.AllocateSlot.2.MapPictureResource (some 7) 0 0 noRefs)

/-! ## Conversions on small values -/

lemma toInt8_natCast {n : Nat} (h : n < 128) : toInt8 (n : Int) = (n : Int) := by
  unfold toInt8
  have h1 : ((n : Int) % 256) = (n : Int) := by omega
  rw [h1]
  split <;> omega

lemma toUInt8_natCast {n : Nat} (h : n < 256) : toUInt8 (n : Int) = n := by
  unfold toUInt8
  omega

lemma toSizeT_natCast {n : Nat} (h : n < 256) : toSizeT (n : Int) = n := by
  unfold toSizeT
  omega

lemma shl1_natCast {n : Nat} (h : n < 32) : shl1 (n : Int) = 2 ^ n := by
  unfold shl1
  rw [if_pos (by omega)]
  simp

lemma shl1_ne_zero {slot : Int} (h : shl1 slot ≠ 0) : 0 ≤ slot ∧ slot < 32 := by
  unfold shl1 at h
  by_contra hc
  exact h (if_neg hc)

/-! ## Bits of the in-use mask -/

lemma and_two_pow_ne_zero (m i : Nat) : (m &&& 2 ^ i != 0) = m.testBit i := by
  rw [Nat.and_two_pow]
  cases m.testBit i <;> simp

lemma testBit_lor_two_pow (m s i : Nat) :
    (m ||| 2 ^ s).testBit i = (m.testBit i || decide (s = i)) := by
  rw [Nat.testBit_lor, Nat.testBit_two_pow]

lemma testBit_and_not_two_pow (m s i : Nat) (hs : s < 32) :
    (m &&& (2 ^ 32 - 1 - 2 ^ s)).testBit i =
      (m.testBit i && (decide (i < 32) && !decide (s = i))) := by
  have h1 : (2 : Nat) ^ s < 2 ^ 32 := Nat.pow_lt_pow_right (by norm_num) hs
  have h2 : (2 : Nat) ^ 32 - 1 - 2 ^ s = 2 ^ 32 - (2 ^ s + 1) := by omega
  rw [Nat.testBit_and, h2, Nat.testBit_two_pow_sub_succ h1, Nat.testBit_two_pow]

/-! ## Reads and writes of the slot vector -/

lemma slotAt_setSlot_self (t : DpbSlots) {i : Nat} (s : DpbSlot) (h : i < t.m_dpb.length) :
    (t.setSlot i s).slotAt i = s := by
  simp [DpbSlots.slotAt, DpbSlots.setSlot, List.getD_eq_getElem?_getD, List.getElem?_set, h]

lemma slotAt_setSlot_ne (t : DpbSlots) {i j : Nat} (s : DpbSlot) (h : i ≠ j) :
    (t.setSlot i s).slotAt j = t.slotAt j := by
  simp [DpbSlots.slotAt, DpbSlots.setSlot, List.getD_eq_getElem?_getD, List.getElem?_set, h]

lemma setSlot_slotAt_self (t : DpbSlots) (i : Nat) : t.setSlot i (t.slotAt i) = t := by
  have h : t.m_dpb.set i (t.m_dpb.getD i DpbSlot.zero) = t.m_dpb := by
    apply List.ext_getElem?
    intro j
    rw [List.getElem?_set]
    by_cases hij : i = j
    · subst hij
      by_cases hi : i < t.m_dpb.length
      · simp [hi, List.getD_eq_getElem?_getD, List.getElem?_eq_getElem hi]
      · simp [hi, List.getElem?_eq_none (Nat.le_of_not_lt hi)]
    · simp [hij]
  unfold DpbSlots.setSlot DpbSlots.slotAt
  rw [h]

/-! ## Closed forms of `AllocateSlot` and `FreeSlot` on valid indices -/

lemma AllocateSlot_cons (t : DpbSlots) (s : Nat) (rest : List Nat)
    (hq : t.m_dpbSlotsAvailable = s :: rest) (hs : s < 32) :
    t.AllocateSlot = ((s : Int),
      { m_dpbMaxSize := t.m_dpbMaxSize
        m_slotInUseMask := t.m_slotInUseMask ||| 2 ^ s
        m_dpb := t.m_dpb.set s (t.slotAt s).Reserve
        m_dpbSlotsAvailable := rest }) := by
  unfold DpbSlots.AllocateSlot
  rw [hq]
  simp only [toInt8_natCast (show s < 128 by omega), toSizeT_natCast (show s < 256 by omega),
    shl1_natCast hs, DpbSlots.setSlot, DpbSlots.slotAt]

lemma FreeSlot_natCast (t : DpbSlots) (i : Nat) (rc : RefCounts) (hi : i < 32) :
    t.FreeSlot (i : Int) rc =
      ({ m_dpbMaxSize := t.m_dpbMaxSize
         m_slotInUseMask := t.m_slotInUseMask &&& (2 ^ 32 - 1 - 2 ^ i)
         m_dpb := t.m_dpb.set i
           { t.slotAt i with m_picBuf := none, m_reserved := false, m_inUse := false }
         m_dpbSlotsAvailable := t.m_dpbSlotsAvailable ++ [i] },
       match (t.slotAt i).m_picBuf with
       | some p => picRelease rc p
       | none => rc) := by
  simp only [DpbSlots.FreeSlot, DpbSlots.invalidateAt, DpbSlot.Invalidate, notShl1,
    toSizeT_natCast (show i < 256 by omega), toUInt8_natCast (show i < 256 by omega),
    shl1_natCast hi, DpbSlots.setSlot, DpbSlots.slotAt]

lemma DpbSlots.WF.lt_32 {t : DpbSlots} (hwf : t.WF) {i : Nat} (hi : i < t.m_dpbMaxSize) : i < 32 := by
  have h := hwf.1
  unfold MAX_DPB_REF_AND_SETUP_SLOTS at h
  omega

lemma DpbSlots.WF.lt_length {t : DpbSlots} (hwf : t.WF) {i : Nat} (hi : i < t.m_dpbMaxSize) :
    i < t.m_dpb.length :=
  Nat.lt_of_lt_of_le hi hwf.2.1

lemma maskBit_of_ge {t : DpbSlots} (hwf : t.WF) {j : Nat} (hj : 32 ≤ j) :
    t.m_slotInUseMask.testBit j = false := by
  apply Nat.testBit_lt_two_pow
  exact Nat.lt_of_lt_of_le hwf.2.2.2 (Nat.pow_le_pow_right (by norm_num) hj)

lemma allocateMany_take (k : Nat) : ∀ (t : DpbSlots), (∀ q ∈ t.m_dpbSlotsAvailable, q < 32) →
    k ≤ t.m_dpbSlotsAvailable.length →
    (t.allocateMany k).1 = List.map (fun (q : Nat) => (q : Int)) (t.m_dpbSlotsAvailable.take k) ∧
      (t.allocateMany k).2.m_dpbSlotsAvailable = t.m_dpbSlotsAvailable.drop k := by
  induction k with
  | zero => intro t _ _; simp [DpbSlots.allocateMany]
  | succ k ih =>
    intro t hlt hlen
    match hq : t.m_dpbSlotsAvailable with
    | [] => rw [hq] at hlen; simp at hlen
    | s :: rest =>
      have hs : s < 32 := hlt s (by rw [hq]; simp)
      have hA := AllocateSlot_cons t s rest hq hs
      have hrest : ∀ q ∈ (t.AllocateSlot).2.m_dpbSlotsAvailable, q < 32 := by
        intro q hqm
        rw [hA] at hqm
        exact hlt q (by rw [hq]; exact List.mem_cons_of_mem _ hqm)
      have hlen2 : k ≤ (t.AllocateSlot).2.m_dpbSlotsAvailable.length := by
        rw [hA]
        rw [hq] at hlen
        simpa using hlen
      obtain ⟨h1, h2⟩ := ih (t.AllocateSlot).2 hrest hlen2
      constructor
      · simp only [DpbSlots.allocateMany, h1]
        rw [hA]
        simp
      · simp only [DpbSlots.allocateMany, h2]
        rw [hA]
        simp

/-! ## AllocateSlot -/

lemma AllocateSlot_nil (t : DpbSlots) (h : t.m_dpbSlotsAvailable = []) :
    t.AllocateSlot.1 = -1 ∧ t.AllocateSlot.2 = t := by
  unfold DpbSlots.AllocateSlot
  rw [h]
  exact ⟨rfl, rfl⟩

/-- C2: on a table whose free queue is empty `AllocateSlot()` returns the
sentinel -1 and hands back the very same table: capacity, every slot (flags,
picture, age), the in-use mask and the free queue are unchanged. -/
theorem AllocateSlot_empty_queue (t : DpbSlots) (h : t.m_dpbSlotsAvailable = []) :
    t.AllocateSlot.1 = -1 ∧ t.AllocateSlot.2 = t :=
  AllocateSlot_nil t h

/-- Witness of C2 on a full table of capacity 1. -/
theorem AllocateSlot_empty_queue_witness :
    fullTable1.m_dpbSlotsAvailable = [] ∧
      fullTable1.AllocateSlot.1 = -1 ∧ fullTable1.AllocateSlot.2 = fullTable1 :=
  ⟨by decide, AllocateSlot_empty_queue fullTable1 (by decide)⟩

/-- C4 as stated fails: the free slot at the front of the queue of
`mappedFreeTable1` holds picture 7 (put there by `MapPictureResource`), and
after `AllocateSlot()` has returned this slot it still holds picture 7, so the
allocated slot does not "hold no picture". -/
theorem AllocateSlot_front_may_hold_picture :
    mappedFreeTable1.WF ∧ mappedFreeTable1.m_dpbSlotsAvailable = [0] ∧
      mappedFreeTable1.AllocateSlot.1 = 0 ∧
      (mappedFreeTable1.AllocateSlot.2.slotAt 0).isInUse = true ∧
      (mappedFreeTable1.AllocateSlot.2.slotAt 0).getPictureResource = some 7 := by
  decide

lemma AllocateSlot_cons_effect (t : DpbSlots) (s : Nat) (rest : List Nat) (hwf : t.WF)
    (hq : t.m_dpbSlotsAvailable = s :: rest) :
    t.AllocateSlot.1 = (s : Int) ∧
      t.AllocateSlot.2.m_dpbSlotsAvailable = rest ∧
      t.AllocateSlot.2.maskBit s = true ∧
      (t.AllocateSlot.2.slotAt s).m_reserved = true ∧
      (t.AllocateSlot.2.slotAt s).isInUse = true ∧
      (t.AllocateSlot.2.slotAt s).getPictureResource = (t.slotAt s).getPictureResource ∧
      (t.AllocateSlot.2.slotAt s).getAge = (t.slotAt s).getAge ∧
      (t.AllocateSlot.2.slotAt s).m_inUse = (t.slotAt s).m_inUse ∧
      t.AllocateSlot.2.m_dpbMaxSize = t.m_dpbMaxSize ∧
      t.AllocateSlot.2.m_dpb.length = t.m_dpb.length ∧
      (∀ j, j ≠ s → t.AllocateSlot.2.slotAt j = t.slotAt j) ∧
      (∀ j, j ≠ s → t.AllocateSlot.2.maskBit j = t.maskBit j) := by
  have hs : s < t.m_dpbMaxSize := hwf.2.2.1 s (by rw [hq]; simp)
  have hA := AllocateSlot_cons t s rest hq (hwf.lt_32 hs)
  have hlen := hwf.lt_length hs
  have hslot : (t.AllocateSlot.2.slotAt s) = (t.slotAt s).Reserve := by
    rw [hA]
    exact slotAt_setSlot_self t _ hlen
  refine ⟨by rw [hA], by rw [hA], ?_, ?_, ?_, ?_, ?_, ?_, by rw [hA], ?_, ?_, ?_⟩
  · rw [hA]
    simp [DpbSlots.maskBit, testBit_lor_two_pow]
  · rw [hslot]; rfl
  · rw [hslot]; simp [DpbSlot.isInUse, DpbSlot.Reserve]
  · rw [hslot]; rfl
  · rw [hslot]; rfl
  · rw [hslot]; rfl
  · rw [hA]; simp
  · intro j hj
    rw [hA]
    exact slotAt_setSlot_ne t _ (Ne.symm hj)
  · intro j hj
    rw [hA]
    simp [DpbSlots.maskBit, testBit_lor_two_pow, Ne.symm hj]

/-- C4 (amended): on a well-formed table whose free queue is `s :: rest`,
`AllocateSlot()` returns `s`; afterwards the queue is `rest`, bit `s` of the
mask is set, slot `s` is reserved and so reports `isInUse()`, its picture, age
and `m_inUse` flag are what they were before the call, and the capacity, every
other slot and every other mask bit are unchanged. -/
theorem AllocateSlot_front (t : DpbSlots) (s : Nat) (rest : List Nat) (hwf : t.WF)
    (hq : t.m_dpbSlotsAvailable = s :: rest) :
    t.AllocateSlot.1 = (s : Int) ∧
      t.AllocateSlot.2.m_dpbSlotsAvailable = rest ∧
      t.AllocateSlot.2.maskBit s = true ∧
      (t.AllocateSlot.2.slotAt s).m_reserved = true ∧
      (t.AllocateSlot.2.slotAt s).isInUse = true ∧
      (t.AllocateSlot.2.slotAt s).getPictureResource = (t.slotAt s).getPictureResource ∧
      (t.AllocateSlot.2.slotAt s).getAge = (t.slotAt s).getAge ∧
      (t.AllocateSlot.2.slotAt s).m_inUse = (t.slotAt s).m_inUse ∧
      t.AllocateSlot.2.m_dpbMaxSize = t.m_dpbMaxSize ∧
      t.AllocateSlot.2.m_dpb.length = t.m_dpb.length ∧
      (∀ j, j ≠ s → t.AllocateSlot.2.slotAt j = t.slotAt j) ∧
      (∀ j, j ≠ s → t.AllocateSlot.2.maskBit j = t.maskBit j) :=
  AllocateSlot_cons_effect t s rest hwf hq

/-- Witness of C4 (amended) on a table of capacity 4 whose queue is `[3]`. -/
theorem AllocateSlot_front_witness :
    busyTable4.1.WF ∧ busyTable4.1.m_dpbSlotsAvailable = [3] ∧
      busyTable4.1.AllocateSlot.1 = 3 ∧
      busyTable4.1.AllocateSlot.2.m_dpbSlotsAvailable = [] ∧
      busyTable4.1.AllocateSlot.2.maskBit 3 = true :=
  have h := AllocateSlot_front busyTable4.1 3 [] (by decide) (by decide)
  ⟨by decide, by decide, h.1, h.2.1, h.2.2.1⟩

/-! ## FreeSlot -/

lemma FreeSlot_natCast_effect (t : DpbSlots) (i : Nat) (rc : RefCounts) (hwf : t.WF)
    (hi : i < t.m_dpbMaxSize) (_huse : t.FreeSlot_asserts (i : Int) = true) :
    ((t.FreeSlot (i : Int) rc).1.slotAt i).isInUse = false ∧
      ((t.FreeSlot (i : Int) rc).1.slotAt i).getPictureResource = none ∧
      (∀ p, (t.slotAt i).getPictureResource = some p →
        (t.FreeSlot (i : Int) rc).2 p = rc p - 1 ∧
          ∀ q, q ≠ p → (t.FreeSlot (i : Int) rc).2 q = rc q) ∧
      ((t.slotAt i).getPictureResource = none → (t.FreeSlot (i : Int) rc).2 = rc) ∧
      (t.FreeSlot (i : Int) rc).1.maskBit i = false ∧
      (t.FreeSlot (i : Int) rc).1.m_dpbSlotsAvailable = t.m_dpbSlotsAvailable ++ [i] ∧
      ((t.FreeSlot (i : Int) rc).1.allocateMany (t.m_dpbSlotsAvailable.length + 1)).1 =
        List.map (fun (q : Nat) => (q : Int)) (t.m_dpbSlotsAvailable ++ [i]) ∧
      (t.FreeSlot (i : Int) rc).1.m_dpbMaxSize = t.m_dpbMaxSize ∧
      (∀ j, j ≠ i → (t.FreeSlot (i : Int) rc).1.slotAt j = t.slotAt j) ∧
      (∀ j, j ≠ i → (t.FreeSlot (i : Int) rc).1.maskBit j = t.maskBit j) := by
  have h32 := hwf.lt_32 hi
  have hlen := hwf.lt_length hi
  have hF := FreeSlot_natCast t i rc h32
  have hslot : (t.FreeSlot (i : Int) rc).1.slotAt i =
      { t.slotAt i with m_picBuf := none, m_reserved := false, m_inUse := false } := by
    rw [hF]
    exact slotAt_setSlot_self t _ hlen
  have hqueue : (t.FreeSlot (i : Int) rc).1.m_dpbSlotsAvailable =
      t.m_dpbSlotsAvailable ++ [i] := by rw [hF]
  refine ⟨?_, ?_, ?_, ?_, ?_, hqueue, ?_, by rw [hF], ?_, ?_⟩
  · rw [hslot]; rfl
  · rw [hslot]; rfl
  · intro p hp
    have hp2 : (t.slotAt i).m_picBuf = some p := hp
    rw [hF]
    simp only [hp2, picRelease]
    refine ⟨by simp, ?_⟩
    intro q hq
    simp [Function.update, hq]
  · intro hp
    have hp2 : (t.slotAt i).m_picBuf = none := hp
    rw [hF]
    simp only [hp2]
  · rw [hF]
    simp only [DpbSlots.maskBit]
    rw [testBit_and_not_two_pow _ _ _ h32]
    simp
  · have hlt : ∀ q ∈ (t.FreeSlot (i : Int) rc).1.m_dpbSlotsAvailable, q < 32 := by
      intro q hq
      rw [hqueue] at hq
      rcases List.mem_append.mp hq with h | h
      · exact hwf.lt_32 (hwf.2.2.1 q h)
      · simp at h; omega
    have h := (allocateMany_take (t.m_dpbSlotsAvailable.length + 1) _ hlt
      (by rw [hqueue]; simp)).1
    rw [h, hqueue]
    congr 1
    apply List.take_of_length_le
    simp
  · intro j hj
    rw [hF]
    exact slotAt_setSlot_ne t _ (Ne.symm hj)
  · intro j hj
    rw [hF]
    simp only [DpbSlots.maskBit]
    rw [testBit_and_not_two_pow _ _ _ h32]
    by_cases hj32 : j < 32
    · simp [hj32, Ne.symm hj]
    · simp [hj32, maskBit_of_ge hwf (Nat.le_of_not_lt hj32)]

/-- C5: on a well-formed table, `FreeSlot(i)` for an index below the capacity
whose slot is in use leaves slot `i` not in use and without a picture, takes
exactly one reference from the picture the slot held (and touches no other
count), clears bit `i`, puts `i` at the back of the free queue, so that the
following allocations hand out the indices that were queued before and then
`i`, and leaves the capacity, every other slot and every other mask bit as
they were. -/
theorem FreeSlot_effect (t : DpbSlots) (i : Nat) (rc : RefCounts) (hwf : t.WF)
    (hi : i < t.m_dpbMaxSize) (_huse : t.FreeSlot_asserts (i : Int) = true) :
    ((t.FreeSlot (i : Int) rc).1.slotAt i).isInUse = false ∧
      ((t.FreeSlot (i : Int) rc).1.slotAt i).getPictureResource = none ∧
      (∀ p, (t.slotAt i).getPictureResource = some p →
        (t.FreeSlot (i : Int) rc).2 p = rc p - 1 ∧
          ∀ q, q ≠ p → (t.FreeSlot (i : Int) rc).2 q = rc q) ∧
      ((t.slotAt i).getPictureResource = none → (t.FreeSlot (i : Int) rc).2 = rc) ∧
      (t.FreeSlot (i : Int) rc).1.maskBit i = false ∧
      (t.FreeSlot (i : Int) rc).1.m_dpbSlotsAvailable = t.m_dpbSlotsAvailable ++ [i] ∧
      ((t.FreeSlot (i : Int) rc).1.allocateMany (t.m_dpbSlotsAvailable.length + 1)).1 =
        List.map (fun (q : Nat) => (q : Int)) (t.m_dpbSlotsAvailable ++ [i]) ∧
      (t.FreeSlot (i : Int) rc).1.m_dpbMaxSize = t.m_dpbMaxSize ∧
      (∀ j, j ≠ i → (t.FreeSlot (i : Int) rc).1.slotAt j = t.slotAt j) ∧
      (∀ j, j ≠ i → (t.FreeSlot (i : Int) rc).1.maskBit j = t.maskBit j) :=
  FreeSlot_natCast_effect t i rc hwf hi _huse

/-- Witness of C5: freeing slot 0 of `busyTable4`, which holds picture 7. -/
theorem FreeSlot_effect_witness :
    busyTable4.1.WF ∧ busyTable4.1.FreeSlot_asserts 0 = true ∧
      (busyTable4.1.FreeSlot 0 busyTable4.2).2 7 = busyTable4.2 7 - 1 ∧
      (busyTable4.1.FreeSlot 0 busyTable4.2).1.m_dpbSlotsAvailable = [3, 0] :=
  have h := FreeSlot_effect busyTable4.1 0 busyTable4.2 (by decide) (by decide) (by decide)
  ⟨by decide, by decide, (h.2.2.1 7 (by decide)).1, by decide⟩

/-! ## The constructor -/

lemma invalidateAt_of_zero (t : DpbSlots) (rc : RefCounts) (i : Nat)
    (h : t.slotAt i = DpbSlot.zero) : DpbSlots.invalidateAt (t, rc) i = (t, rc) := by
  unfold DpbSlots.invalidateAt DpbSlot.Invalidate
  simp only [h]
  have h2 := setSlot_slotAt_self t i
  rw [h] at h2
  exact Prod.ext h2 rfl

lemma foldl_invalidateAt_of_zero (l : List Nat) (t : DpbSlots) (rc : RefCounts)
    (h : ∀ i ∈ l, t.slotAt i = DpbSlot.zero) :
    l.foldl DpbSlots.invalidateAt (t, rc) = (t, rc) := by
  induction l with
  | nil => rfl
  | cons a l ih =>
    rw [List.foldl_cons, invalidateAt_of_zero t rc a (h a (by simp))]
    exact ih (fun i hi => h i (List.mem_cons_of_mem _ hi))

lemma foldl_push (l : List Nat) : ∀ t : DpbSlots,
    l.foldl (fun (t : DpbSlots) dpbIndx =>
      { t with m_dpbSlotsAvailable := t.m_dpbSlotsAvailable ++ [dpbIndx] }) t =
      { t with m_dpbSlotsAvailable := t.m_dpbSlotsAvailable ++ l } := by
  induction l with
  | nil => intro t; simp
  | cons a l ih => intro t; rw [List.foldl_cons, ih]; simp

lemma ctor_eq (n : Nat) (rc : RefCounts) :
    DpbSlots.ctor n rc =
      ({ m_dpbMaxSize := n
         m_slotInUseMask := 0
         m_dpb := List.replicate n DpbSlot.zero
         m_dpbSlotsAvailable := List.range n }, rc) := by
  have hz : ∀ i, (List.replicate n DpbSlot.zero).getD i DpbSlot.zero = DpbSlot.zero := by
    intro i
    rw [List.getD_eq_getElem?_getD]
    by_cases hi : i < n
    · simp [List.getElem?_replicate, hi]
    · simp [List.getElem?_replicate, hi]
  simp only [DpbSlots.ctor, DpbSlots.Init, DpbSlots.Deinit, vecResize, List.range_zero,
    List.foldl_nil, Bool.not_false, if_true, Bool.false_and, Bool.false_eq_true, if_false,
    List.take_nil, List.nil_append, List.length_nil, Nat.sub_zero, List.replicate_zero]
  rw [foldl_invalidateAt_of_zero _ _ _ (fun i _ => by exact hz i), foldl_push]
  simp [List.range_eq_range']

/-- C3: for a capacity `n` within the architectural maximum, `n` consecutive
`AllocateSlot()` calls on a freshly constructed `DpbSlots(n)` return
`0, 1, ..., n-1` in this order (all non-negative, pairwise distinct), and the
call after them returns -1. -/
theorem ctor_allocate_all (n : Nat) (rc : RefCounts) (hn : n ≤ MAX_DPB_REF_AND_SETUP_SLOTS) :
    ((DpbSlots.ctor n rc).1.allocateMany n).1 =
        List.map (fun (i : Nat) => (i : Int)) (List.range n) ∧
      (∀ r ∈ ((DpbSlots.ctor n rc).1.allocateMany n).1, 0 ≤ r) ∧
      ((DpbSlots.ctor n rc).1.allocateMany n).1.Nodup ∧
      ((DpbSlots.ctor n rc).1.allocateMany n).2.AllocateSlot.1 = -1 := by
  have hn32 : n ≤ 32 := by unfold MAX_DPB_REF_AND_SETUP_SLOTS at hn; omega
  have hlt : ∀ q ∈ (DpbSlots.ctor n rc).1.m_dpbSlotsAvailable, q < 32 := by
    intro q hq
    rw [ctor_eq] at hq
    have := List.mem_range.mp hq
    omega
  have hlen : n ≤ (DpbSlots.ctor n rc).1.m_dpbSlotsAvailable.length := by
    rw [ctor_eq]; simp
  obtain ⟨h1, h2⟩ := allocateMany_take n _ hlt hlen
  have h1b : ((DpbSlots.ctor n rc).1.allocateMany n).1 =
      List.map (fun (i : Nat) => (i : Int)) (List.range n) := by
    rw [h1, ctor_eq]
    congr 1
    apply List.take_of_length_le
    simp
  have h2b : ((DpbSlots.ctor n rc).1.allocateMany n).2.m_dpbSlotsAvailable = [] := by
    rw [h2, ctor_eq]
    apply List.drop_of_length_le
    simp
  refine ⟨h1b, ?_, ?_, (AllocateSlot_nil _ h2b).1⟩
  · intro r hr
    rw [h1b] at hr
    obtain ⟨i, _, rfl⟩ := List.mem_map.mp hr
    exact Int.ofNat_nonneg i
  · rw [h1b]
    exact List.Nodup.map (fun a b hab => Int.ofNat.inj hab) (List.nodup_range n)

/-- Witness of C3: capacity 4, four allocations succeed, the fifth fails. -/
theorem ctor_allocate_all_witness :
    ((DpbSlots.ctor 4 noRefs).1.allocateMany 4).1 = [0, 1, 2, 3] ∧
      ((DpbSlots.ctor 4 noRefs).1.allocateMany 4).2.AllocateSlot.1 = -1 :=
  have h := ctor_allocate_all 4 noRefs (by decide)
  ⟨h.1, h.2.2.2⟩

/-! ## The invariant of allocation and release -/

lemma Inv_ctor (n : Nat) (rc : RefCounts) : (DpbSlots.ctor n rc).1.Inv n := by
  rw [ctor_eq]
  have hz : ∀ i, (List.replicate n DpbSlot.zero).getD i DpbSlot.zero = DpbSlot.zero := by
    intro i
    rw [List.getD_eq_getElem?_getD]
    by_cases hi : i < n
    · simp [List.getElem?_replicate, hi]
    · simp [List.getElem?_replicate, hi]
  exact
    { size := rfl
      len := by simp
      nodup := List.nodup_range n
      queue_iff := by intro i; simp [DpbSlots.maskBit]
      use_eq := by
        intro i _
        simp only [DpbSlots.slotAt, hz, DpbSlots.maskBit, Nat.zero_testBit]
        rfl
      mask_hi := by intro i _; simp [DpbSlots.maskBit] }

lemma Inv_wf {n : Nat} {t : DpbSlots} (hn : n ≤ MAX_DPB_REF_AND_SETUP_SLOTS) (h : t.Inv n) :
    t.WF := by
  refine ⟨by rw [h.size]; exact hn, by rw [h.size, h.len], ?_, ?_⟩
  · intro q hq
    rw [h.size]
    exact ((h.queue_iff q).mp hq).1
  · apply Nat.lt_pow_two_of_testBit
    intro i hi
    apply h.mask_hi
    unfold MAX_DPB_REF_AND_SETUP_SLOTS at hn
    omega

lemma Inv_AllocateSlot {n : Nat} {t : DpbSlots} (hn : n ≤ MAX_DPB_REF_AND_SETUP_SLOTS)
    (h : t.Inv n) : t.AllocateSlot.2.Inv n := by
  match hq : t.m_dpbSlotsAvailable with
  | [] => rw [(AllocateSlot_nil t hq).2]; exact h
  | s :: rest =>
    have hwf := Inv_wf hn h
    obtain ⟨_, hqueue, hbit, _, huse, _, _, _, hsize, hlen, hslots, hbits⟩ :=
      AllocateSlot_cons_effect t s rest hwf hq
    have hsn : s < n := ((h.queue_iff s).mp (by rw [hq]; simp)).1
    have hnd : (s :: rest).Nodup := hq ▸ h.nodup
    have hs_notin : s ∉ rest := (List.nodup_cons.mp hnd).1
    exact
      { size := by rw [hsize, h.size]
        len := by rw [hlen, h.len]
        nodup := by rw [hqueue]; exact (List.nodup_cons.mp hnd).2
        queue_iff := by
          intro i
          rw [hqueue]
          by_cases his : i = s
          · subst his
            simp [hs_notin, hbit]
          · rw [hbits i his, ← h.queue_iff i, hq]
            simp [his]
        use_eq := by
          intro i hi
          by_cases his : i = s
          · subst his
            rw [huse, hbit]
          · rw [hslots i his, hbits i his]
            exact h.use_eq i hi
        mask_hi := by
          intro i hi
          have his : i ≠ s := by omega
          rw [hbits i his]
          exact h.mask_hi i hi }

lemma FreeSlot_asserts_natCast (t : DpbSlots) (slot : Int)
    (h : t.FreeSlot_asserts slot = true) :
    ∃ i : Nat, slot = (i : Int) ∧ i < 32 ∧ i < t.m_dpbMaxSize ∧
      (t.slotAt i).isInUse = true ∧ t.maskBit i = true := by
  unfold DpbSlots.FreeSlot_asserts at h
  simp only [Bool.and_eq_true, decide_eq_true_eq] at h
  obtain ⟨⟨h1, h2⟩, h3⟩ := h
  have hne : shl1 slot ≠ 0 := by
    intro h0
    rw [h0] at h3
    simp at h3
  obtain ⟨hlo, hhi⟩ := shl1_ne_zero hne
  obtain ⟨i, rfl⟩ := Int.eq_ofNat_of_zero_le hlo
  have hi : i < 32 := by omega
  rw [toUInt8_natCast (by omega)] at h1
  rw [toSizeT_natCast (by omega)] at h2
  rw [shl1_natCast hi, and_two_pow_ne_zero] at h3
  exact ⟨i, rfl, hi, h1, h2, h3⟩

lemma Inv_FreeSlot {n : Nat} {t : DpbSlots} (hn : n ≤ MAX_DPB_REF_AND_SETUP_SLOTS)
    (h : t.Inv n) (slot : Int) (rc : RefCounts) (ha : t.FreeSlot_asserts slot = true) :
    (t.FreeSlot slot rc).1.Inv n := by
  have hwf := Inv_wf hn h
  obtain ⟨i, rfl, _, hi, _, hbit⟩ := FreeSlot_asserts_natCast t slot ha
  obtain ⟨huse', _, _, _, hbit', hqueue, _, hsize, hslots, hbits⟩ :=
    FreeSlot_natCast_effect t i rc hwf hi ha
  have hin : i < n := by rw [← h.size]; exact hi
  have hi_notin : i ∉ t.m_dpbSlotsAvailable := by
    intro hmem
    have := ((h.queue_iff i).mp hmem).2
    rw [hbit] at this
    exact Bool.noConfusion this
  exact
    { size := by rw [hsize, h.size]
      len := by
        rw [FreeSlot_natCast t i rc (hwf.lt_32 hi)]
        simp [h.len]
      nodup := by
        rw [hqueue]
        exact List.Nodup.append h.nodup (List.nodup_singleton i) (by simpa using hi_notin)
      queue_iff := by
        intro j
        rw [hqueue]
        by_cases hji : j = i
        · subst hji
          simp [hbit', hin]
        · rw [hbits j hji, ← h.queue_iff j]
          simp [hji]
      use_eq := by
        intro j hj
        by_cases hji : j = i
        · subst hji
          rw [huse', hbit']
        · rw [hslots j hji, hbits j hji]
          exact h.use_eq j hj
      mask_hi := by
        intro j hj
        have hji : j ≠ i := by omega
        rw [hbits j hji]
        exact h.mask_hi j hj }

lemma Inv_runOps {n : Nat} (hn : n ≤ MAX_DPB_REF_AND_SETUP_SLOTS) (ops : List DpbOp) :
    ∀ w : DpbSlots × RefCounts, w.1.Inv n → validOps w ops → (runOps w ops).1.Inv n := by
  induction ops with
  | nil => intro w h _; exact h
  | cons op ops ih =>
    intro w h hv
    cases op with
    | alloc =>
      exact ih _ (Inv_AllocateSlot hn h) hv
    | free slot =>
      exact ih _ (Inv_FreeSlot hn h slot w.2 hv.1) hv.2

lemma Inv_inUseCount_le {n : Nat} {t : DpbSlots} (h : t.Inv n) : t.inUseCount ≤ n := by
  unfold DpbSlots.inUseCount
  have hnd : ((List.range 32).filter t.maskBit).Nodup :=
    List.Nodup.filter _ (List.nodup_range 32)
  have hsub : (List.range 32).filter t.maskBit ⊆ List.range n := by
    intro i hi
    have hb := (List.mem_filter.mp hi).2
    rw [List.mem_range]
    by_contra hc
    have := h.mask_hi i (Nat.le_of_not_lt hc)
    rw [this] at hb
    exact Bool.noConfusion hb
  have := (List.subperm_of_subset hnd hsub).length_le
  simpa using this

/-- C1: after any sequence of `AllocateSlot()` and `FreeSlot(i)` calls on a
freshly constructed `DpbSlots(n)`, each `FreeSlot` being called on a slot that
is in use at that time, an index below `n` is in the free queue iff its mask
bit is clear iff its slot reports `isInUse() == false`; the queue holds only
indices below `n` and none twice; and the number of in-use slots, counted by
the mask or by the slots, is at most `n`. -/
theorem alloc_free_invariant (n : Nat) (rc : RefCounts) (ops : List DpbOp)
    (hn : n ≤ MAX_DPB_REF_AND_SETUP_SLOTS) (hops : validOps (DpbSlots.ctor n rc) ops) :
    (∀ i, i < n →
      ((i ∈ (runOps (DpbSlots.ctor n rc) ops).1.m_dpbSlotsAvailable ↔
          (runOps (DpbSlots.ctor n rc) ops).1.maskBit i = false) ∧
        ((runOps (DpbSlots.ctor n rc) ops).1.maskBit i = false ↔
          ((runOps (DpbSlots.ctor n rc) ops).1.slotAt i).isInUse = false))) ∧
      (∀ q ∈ (runOps (DpbSlots.ctor n rc) ops).1.m_dpbSlotsAvailable, q < n) ∧
      (runOps (DpbSlots.ctor n rc) ops).1.m_dpbSlotsAvailable.Nodup ∧
      (runOps (DpbSlots.ctor n rc) ops).1.inUseCount ≤ n ∧
      ((runOps (DpbSlots.ctor n rc) ops).1.m_dpb.filter DpbSlot.isInUse).length ≤ n := by
  have h := Inv_runOps hn ops _ (Inv_ctor n rc) hops
  refine ⟨?_, ?_, h.nodup, Inv_inUseCount_le h, ?_⟩
  · intro i hi
    constructor
    · rw [h.queue_iff i]
      simp [hi]
    · rw [h.use_eq i hi]
  · intro q hq
    exact ((h.queue_iff q).mp hq).1
  · calc ((runOps (DpbSlots.ctor n rc) ops).1.m_dpb.filter DpbSlot.isInUse).length
        ≤ (runOps (DpbSlots.ctor n rc) ops).1.m_dpb.length := List.length_filter_le _ _
      _ = n := h.len

/-- Witness of C1: capacity 2, the calls alloc, alloc, free 0, alloc, alloc. -/
theorem alloc_free_invariant_witness :
    validOps (DpbSlots.ctor 2 noRefs) [.alloc, .alloc, .free 0, .alloc, .alloc] ∧
      (runOps (DpbSlots.ctor 2 noRefs)
        [.alloc, .alloc, .free 0, .alloc, .alloc]).1.m_dpbSlotsAvailable.Nodup ∧
      (runOps (DpbSlots.ctor 2 noRefs)
        [.alloc, .alloc, .free 0, .alloc, .alloc]).1.inUseCount ≤ 2 :=
  have hv : validOps (DpbSlots.ctor 2 noRefs) [.alloc, .alloc, .free 0, .alloc, .alloc] := by
    simp only [validOps, and_true]
    decide
  have h := alloc_free_invariant 2 noRefs [.alloc, .alloc, .free 0, .alloc, .alloc]
    (by decide) hv
  ⟨hv, h.2.2.1, h.2.2.2.1⟩

/-! ## MapPictureResource -/

lemma filter_range_succ (f : Nat → Bool) (k : Nat) :
    (List.range (k + 1)).filter f = (List.range k).filter f ++ (if f k then [k] else []) := by
  rw [List.range_succ, List.filter_append]
  by_cases h : f k <;> simp [h]

lemma picAddRef_apply (rc : RefCounts) (p q : Nat) :
    picAddRef rc p q = rc q + (if q = p then 1 else 0) := by
  unfold picAddRef
  rw [Function.update_apply]
  split_ifs with h
  · rw [h]
  · simp

lemma picRelease_apply (rc : RefCounts) (p q : Nat) :
    picRelease rc p q = rc q - (if q = p then 1 else 0) := by
  unfold picRelease
  rw [Function.update_apply]
  split_ifs with h
  · rw [h]
  · simp

lemma MapInv_zero (t : DpbSlots) (p s : Nat) (age : Int) (rc : RefCounts) :
    t.MapInv p s age rc 0 (t, rc) :=
  { size := rfl
    len := rfl
    slot_lo := by intro j hj; omega
    slot_hi := by intro j _; rfl
    queue := by simp
    mask := by intro i; simp
    refs := by intro q; simp }

lemma MapInv_step {t : DpbSlots} {p s : Nat} {age : Int} {rc : RefCounts} {k : Nat}
    {w : DpbSlots × RefCounts} (hwf : t.WF) (hk : k < t.m_dpbMaxSize)
    (h : t.MapInv p s age rc k w) :
    t.MapInv p s age rc (k + 1) (DpbSlots.mapStep (some p) s age w k) := by
  have hk32 : k < 32 := hwf.lt_32 hk
  have hklen : k < w.1.m_dpb.length := by rw [h.len]; exact hwf.lt_length hk
  have hwk : w.1.slotAt k = t.slotAt k := h.slot_hi k (Nat.le_refl k)
  by_cases hks : k = s
  · -- the slot that receives the picture
    have hoh : t.otherHolds (some p) s k = false := by simp [DpbSlots.otherHolds, hks]
    have hstep : DpbSlots.mapStep (some p) s age w k =
        (w.1.setSlot k { t.slotAt k with m_picBuf := some p, m_pictureId := age },
          match (t.slotAt k).m_picBuf with
          | some o => picRelease (picAddRef w.2 p) o
          | none => picAddRef w.2 p) := by
      simp only [DpbSlots.mapStep, if_pos hks, DpbSlot.setPictureResource, hwk]
    rw [hstep]
    exact
      { size := h.size
        len := by simp [DpbSlots.setSlot, h.len]
        slot_lo := by
          intro j hj
          by_cases hjk : j = k
          · subst hjk
            rw [slotAt_setSlot_self _ _ hklen]
            simp [DpbSlots.mappedSlot, hks]
          · rw [slotAt_setSlot_ne _ _ (Ne.symm hjk)]
            exact h.slot_lo j (by omega)
        slot_hi := by
          intro j hj
          rw [slotAt_setSlot_ne _ _ (by omega)]
          exact h.slot_hi j (by omega)
        queue := by
          rw [filter_range_succ, hoh]
          simpa [DpbSlots.setSlot] using h.queue
        mask := by
          intro i
          have := h.mask i
          simp only [DpbSlots.maskBit, DpbSlots.setSlot] at this ⊢
          rw [this]
          by_cases hik : i = k
          · subst hik; simp [hoh]
          · have : (decide (i < k + 1)) = decide (i < k) := by
              apply decide_eq_decide.mpr; omega
            rw [this]
        refs := by
          intro q
          rw [filter_range_succ, hoh]
          have hr := h.refs q
          have hrp := h.refs p
          subst hks
          simp only [lt_irrefl, false_and, if_false, Nat.lt_succ_self, true_and,
            List.append_nil, Bool.false_eq_true, add_zero, sub_zero] at hr ⊢
          cases hold : (t.slotAt k).m_picBuf with
          | none =>
            simp only [picAddRef_apply, hr, reduceCtorEq, if_false, sub_zero]
            ring
          | some o =>
            simp only [picRelease_apply, picAddRef_apply, hr, Option.some.injEq]
            by_cases hqo : q = o
            · subst hqo
              simp only [if_true]
              ring
            · have hoq : ¬ o = q := fun h => hqo h.symm
              simp only [hqo, hoq, if_false]
              ring }
  · by_cases hpic : (t.slotAt k).m_picBuf = some p
    · -- another slot that holds the picture: FreeSlot
      have hoh : t.otherHolds (some p) s k = true := by
        simp [DpbSlots.otherHolds, hks, DpbSlot.getPictureResource, hpic]
      have hstep : DpbSlots.mapStep (some p) s age w k = w.1.FreeSlot (k : Int) w.2 := by
        simp only [DpbSlots.mapStep, if_neg hks, Option.isSome_some, if_true, hwk,
          DpbSlot.getPictureResource, hpic, toInt8_natCast (show k < 128 by omega)]
      rw [hstep, FreeSlot_natCast _ _ _ hk32, hwk, hpic]
      exact
        { size := h.size
          len := by simp [h.len]
          slot_lo := by
            intro j hj
            by_cases hjk : j = k
            · subst hjk
              have := slotAt_setSlot_self w.1
                { t.slotAt j with m_picBuf := none, m_reserved := false, m_inUse := false } hklen
              simp only [DpbSlots.setSlot, DpbSlots.slotAt] at this ⊢
              rw [this]
              simp [DpbSlots.mappedSlot, hks, DpbSlots.slotAt] at hpic ⊢
              simp [hpic]
            · have := slotAt_setSlot_ne w.1
                { t.slotAt k with m_picBuf := none, m_reserved := false, m_inUse := false }
                (Ne.symm hjk)
              simp only [DpbSlots.setSlot, DpbSlots.slotAt] at this
              simp only [DpbSlots.slotAt]
              rw [this]
              exact h.slot_lo j (by omega)
          slot_hi := by
            intro j hj
            have := slotAt_setSlot_ne w.1
              { t.slotAt k with m_picBuf := none, m_reserved := false, m_inUse := false }
              (show k ≠ j by omega)
            simp only [DpbSlots.setSlot, DpbSlots.slotAt] at this
            simp only [DpbSlots.slotAt]
            rw [this]
            exact h.slot_hi j (by omega)
          queue := by
            rw [filter_range_succ, hoh, h.queue]
            simp
          mask := by
            intro i
            have hm := h.mask i
            simp only [DpbSlots.maskBit] at hm ⊢
            rw [testBit_and_not_two_pow _ _ _ hk32, hm]
            by_cases hik : i = k
            · subst hik; simp [hoh]
            · have h1 : (decide (i < k + 1)) = decide (i < k) := by
                apply decide_eq_decide.mpr; omega
              rw [h1]
              by_cases hi32 : i < 32
              · simp [hi32, Ne.symm hik]
              · have := maskBit_of_ge hwf (Nat.le_of_not_lt hi32)
                simp [DpbSlots.maskBit, this]
          refs := by
            intro q
            rw [filter_range_succ, hoh]
            have hr := h.refs q
            have hsk : (s < k + 1) = (s < k) := by
              apply propext; constructor <;> intro <;> omega
            simp only [hsk, picRelease, Function.update_apply, List.length_append,
              if_true, List.length_singleton]
            by_cases hqp : q = p
            · subst hqp
              simp only [if_true] at hr ⊢
              rw [hr]
              push_cast
              ring
            · simp only [hqp, if_false] at hr ⊢
              rw [hr] }
    · -- a slot that does not hold the picture: nothing happens
      have hoh : t.otherHolds (some p) s k = false := by
        simp [DpbSlots.otherHolds, DpbSlot.getPictureResource, hpic]
      have hstep : DpbSlots.mapStep (some p) s age w k = w := by
        simp only [DpbSlots.mapStep, if_neg hks, Option.isSome_some, if_true, hwk,
          DpbSlot.getPictureResource, hpic, if_false]
      rw [hstep]
      exact
        { size := h.size
          len := h.len
          slot_lo := by
            intro j hj
            by_cases hjk : j = k
            · subst hjk
              rw [hwk]
              simp [DpbSlots.mappedSlot, hks, hpic]
            · exact h.slot_lo j (by omega)
          slot_hi := by
            intro j hj
            exact h.slot_hi j (by omega)
          queue := by
            rw [filter_range_succ, hoh]
            simpa using h.queue
          mask := by
            intro i
            rw [h.mask i]
            by_cases hik : i = k
            · subst hik; simp [hoh]
            · have : (decide (i < k + 1)) = decide (i < k) := by
                apply decide_eq_decide.mpr; omega
              rw [this]
          refs := by
            intro q
            rw [filter_range_succ, hoh]
            have hr := h.refs q
            have hsk : (s < k + 1) = (s < k) := by
              apply propext; constructor <;> intro <;> omega
            simp only [hsk, Bool.false_eq_true, if_false, List.append_nil]
            exact hr }

lemma MapInv_foldl {t : DpbSlots} {p s : Nat} {age : Int} {rc : RefCounts} (hwf : t.WF) :
    ∀ k, k ≤ t.m_dpbMaxSize →
      t.MapInv p s age rc k ((List.range k).foldl (DpbSlots.mapStep (some p) s age) (t, rc)) := by
  intro k
  induction k with
  | zero => intro _; exact MapInv_zero t p s age rc
  | succ k ih =>
    intro hk
    rw [List.range_succ, List.foldl_append]
    exact MapInv_step hwf (by omega) (ih (by omega))

lemma MapInv_final (t : DpbSlots) (p s : Nat) (age : Int) (rc : RefCounts) (hwf : t.WF) :
    t.MapInv p s age rc t.m_dpbMaxSize (t.MapPictureResource (some p) s age rc) :=
  MapInv_foldl hwf t.m_dpbMaxSize (Nat.le_refl _)

lemma mappedSlot_ne_holds (t : DpbSlots) (p s : Nat) (age : Int) {j : Nat} (hj : j ≠ s) :
    (t.mappedSlot p s age j).m_picBuf ≠ some p := by
  unfold DpbSlots.mappedSlot
  rw [if_neg hj]
  split_ifs with h
  · simp
  · exact h

lemma mappedSlot_of_otherHolds {t : DpbSlots} {p s : Nat} (age : Int) {j : Nat}
    (h : t.otherHolds (some p) s j = true) :
    t.mappedSlot p s age j =
      { t.slotAt j with m_picBuf := none, m_reserved := false, m_inUse := false } := by
  simp only [DpbSlots.otherHolds, Bool.and_eq_true, decide_eq_true_eq,
    DpbSlot.getPictureResource] at h
  unfold DpbSlots.mappedSlot
  rw [if_neg h.1, if_pos h.2]

lemma mappedSlot_of_not_otherHolds {t : DpbSlots} {p s : Nat} (age : Int) {j : Nat}
    (hj : j ≠ s) (h : t.otherHolds (some p) s j = false) :
    t.mappedSlot p s age j = t.slotAt j := by
  have hp : ¬ (t.slotAt j).m_picBuf = some p := by
    intro hc
    simp [DpbSlots.otherHolds, hj, DpbSlot.getPictureResource, hc] at h
  unfold DpbSlots.mappedSlot
  rw [if_neg hj, if_neg hp]

lemma MapInv_wf {t : DpbSlots} {p s : Nat} {age : Int} {rc : RefCounts}
    {w : DpbSlots × RefCounts} (hwf : t.WF) (h : t.MapInv p s age rc t.m_dpbMaxSize w) :
    w.1.WF := by
  refine ⟨by rw [h.size]; exact hwf.1, by rw [h.size, h.len]; exact hwf.2.1, ?_, ?_⟩
  · intro q hq
    rw [h.queue] at hq
    rw [h.size]
    rcases List.mem_append.mp hq with hq | hq
    · exact hwf.2.2.1 q hq
    · exact List.mem_range.mp (List.mem_filter.mp hq).1
  · apply Nat.lt_pow_two_of_testBit
    intro i hi
    have := h.mask i
    simp only [DpbSlots.maskBit] at this
    rw [this, maskBit_of_ge hwf hi]
    rfl

lemma WF_MapPictureResource {t : DpbSlots} (p s : Nat) (age : Int) (rc : RefCounts)
    (hwf : t.WF) : (t.MapPictureResource (some p) s age rc).1.WF :=
  MapInv_wf hwf (MapInv_final t p s age rc hwf)

lemma MapPictureResource_spec (t : DpbSlots) (p s : Nat) (age : Int) (rc : RefCounts)
    (hwf : t.WF) (hs : s < t.m_dpbMaxSize) :
    ((t.MapPictureResource (some p) s age rc).1.slotAt s).getPictureResource = some p ∧
      ((t.MapPictureResource (some p) s age rc).1.slotAt s).getAge = age ∧
      ((t.MapPictureResource (some p) s age rc).1.slotAt s).m_reserved =
        (t.slotAt s).m_reserved ∧
      ((t.MapPictureResource (some p) s age rc).1.slotAt s).m_inUse = (t.slotAt s).m_inUse ∧
      (t.MapPictureResource (some p) s age rc).1.maskBit s = t.maskBit s ∧
      (∀ q, (t.MapPictureResource (some p) s age rc).2 q =
        rc q + (if q = p then 1 else 0)
          - (if (t.slotAt s).getPictureResource = some q then 1 else 0)
          - (if q = p then ((t.otherHolders (some p) s).length : Int) else 0)) ∧
      (∀ j, j < t.m_dpbMaxSize → t.otherHolds (some p) s j = true →
        (t.MapPictureResource (some p) s age rc).1.slotAt j =
            (t.FreeSlot (j : Int) rc).1.slotAt j ∧
          ((t.MapPictureResource (some p) s age rc).1.slotAt j).getPictureResource = none ∧
          ((t.MapPictureResource (some p) s age rc).1.slotAt j).isInUse = false ∧
          (t.MapPictureResource (some p) s age rc).1.maskBit j = false ∧
          j ∈ (t.MapPictureResource (some p) s age rc).1.m_dpbSlotsAvailable) ∧
      (t.MapPictureResource (some p) s age rc).1.m_dpbSlotsAvailable =
        t.m_dpbSlotsAvailable ++ t.otherHolders (some p) s ∧
      (∀ j, j ≠ s → t.otherHolds (some p) s j = false →
        (t.MapPictureResource (some p) s age rc).1.slotAt j = t.slotAt j) ∧
      (∀ j, ¬ (j < t.m_dpbMaxSize ∧ t.otherHolds (some p) s j = true) →
        (t.MapPictureResource (some p) s age rc).1.maskBit j = t.maskBit j) ∧
      (t.MapPictureResource (some p) s age rc).1.m_dpbMaxSize = t.m_dpbMaxSize := by
  have h := MapInv_final t p s age rc hwf
  have hss : (t.MapPictureResource (some p) s age rc).1.slotAt s =
      { t.slotAt s with m_picBuf := some p, m_pictureId := age } := by
    rw [h.slot_lo s hs]
    simp [DpbSlots.mappedSlot]
  have hohs : t.otherHolds (some p) s s = false := by simp [DpbSlots.otherHolds]
  refine ⟨by rw [hss]; rfl, by rw [hss]; rfl, by rw [hss], by rw [hss], ?_, ?_, ?_,
    h.queue, ?_, ?_, h.size⟩
  · rw [h.mask s, hohs]; simp
  · intro q
    have := h.refs q
    simp only [hs, true_and] at this
    exact this
  · intro j hj hoh
    have hjs : (t.MapPictureResource (some p) s age rc).1.slotAt j =
        { t.slotAt j with m_picBuf := none, m_reserved := false, m_inUse := false } := by
      rw [h.slot_lo j hj, mappedSlot_of_otherHolds age hoh]
    refine ⟨?_, by rw [hjs]; rfl, by rw [hjs]; rfl, ?_, ?_⟩
    · rw [hjs, FreeSlot_natCast _ _ _ (hwf.lt_32 hj)]
      exact (slotAt_setSlot_self t _ (hwf.lt_length hj)).symm
    · rw [h.mask j, hoh]; simp [hj]
    · rw [h.queue]
      exact List.mem_append_right _
        (List.mem_filter.mpr ⟨List.mem_range.mpr hj, hoh⟩)
  · intro j hjs hoh
    by_cases hj : j < t.m_dpbMaxSize
    · rw [h.slot_lo j hj, mappedSlot_of_not_otherHolds age hjs hoh]
    · exact h.slot_hi j (Nat.le_of_not_lt hj)
  · intro j hj
    rw [h.mask j]
    by_cases hjlt : j < t.m_dpbMaxSize
    · have : t.otherHolds (some p) s j = false := by
        cases hoh : t.otherHolds (some p) s j
        · rfl
        · exact absurd ⟨hjlt, hoh⟩ hj
      simp [this]
    · simp [hjlt]

/-- C6: on a well-formed table, with `p` not null and `s` below the capacity,
after `MapPictureResource(p, s, age)` slot `s` holds `p` with age `age` and
keeps its flags and mask bit; the count of `p` has gained the reference of
slot `s`, the picture slot `s` held has lost one, and each other slot that
held `p` has dropped its one reference; each such slot is left exactly as
`FreeSlot` leaves it (no picture, not in use, mask bit clear, index appended
to the free queue, ascending); every slot that is neither `s` nor held `p`
and every other mask bit is unchanged.  The proviso of the claim is `_huse`;
these facts hold without it. -/
theorem MapPictureResource_effect (t : DpbSlots) (p s : Nat) (age : Int) (rc : RefCounts)
    (hwf : t.WF) (hs : s < t.m_dpbMaxSize)
    (_huse : ∀ j, j < t.m_dpbMaxSize → t.otherHolds (some p) s j = true →
      t.FreeSlot_asserts (j : Int) = true) :
    ((t.MapPictureResource (some p) s age rc).1.slotAt s).getPictureResource = some p ∧
      ((t.MapPictureResource (some p) s age rc).1.slotAt s).getAge = age ∧
      ((t.MapPictureResource (some p) s age rc).1.slotAt s).m_reserved =
        (t.slotAt s).m_reserved ∧
      ((t.MapPictureResource (some p) s age rc).1.slotAt s).m_inUse = (t.slotAt s).m_inUse ∧
      (t.MapPictureResource (some p) s age rc).1.maskBit s = t.maskBit s ∧
      (∀ q, (t.MapPictureResource (some p) s age rc).2 q =
        rc q + (if q = p then 1 else 0)
          - (if (t.slotAt s).getPictureResource = some q then 1 else 0)
          - (if q = p then ((t.otherHolders (some p) s).length : Int) else 0)) ∧
      (∀ j, j < t.m_dpbMaxSize → t.otherHolds (some p) s j = true →
        (t.MapPictureResource (some p) s age rc).1.slotAt j =
            (t.FreeSlot (j : Int) rc).1.slotAt j ∧
          ((t.MapPictureResource (some p) s age rc).1.slotAt j).getPictureResource = none ∧
          ((t.MapPictureResource (some p) s age rc).1.slotAt j).isInUse = false ∧
          (t.MapPictureResource (some p) s age rc).1.maskBit j = false ∧
          j ∈ (t.MapPictureResource (some p) s age rc).1.m_dpbSlotsAvailable) ∧
      (t.MapPictureResource (some p) s age rc).1.m_dpbSlotsAvailable =
        t.m_dpbSlotsAvailable ++ t.otherHolders (some p) s ∧
      (∀ j, j ≠ s → t.otherHolds (some p) s j = false →
        (t.MapPictureResource (some p) s age rc).1.slotAt j = t.slotAt j) ∧
      (∀ j, ¬ (j < t.m_dpbMaxSize ∧ t.otherHolds (some p) s j = true) →
        (t.MapPictureResource (some p) s age rc).1.maskBit j = t.maskBit j) ∧
      (t.MapPictureResource (some p) s age rc).1.m_dpbMaxSize = t.m_dpbMaxSize :=
  MapPictureResource_spec t p s age rc hwf hs

/-- Witness of C6: in `busyTable4` slot 0 is allocated and holds picture 7;
mapping picture 7 to slot 1 frees slot 0 and leaves the count of 7 at one. -/
theorem MapPictureResource_effect_witness :
    busyTable4.1.WF ∧ busyTable4.1.otherHolders (some 7) 1 = [0] ∧
      busyTable4.1.FreeSlot_asserts 0 = true ∧
      ((busyTable4.1.MapPictureResource (some 7) 1 9 busyTable4.2).1.slotAt
        1).getPictureResource = some 7 ∧
      (busyTable4.1.MapPictureResource (some 7) 1 9 busyTable4.2).2 7 = 1 ∧
      (busyTable4.1.MapPictureResource (some 7) 1 9 busyTable4.2).1.m_dpbSlotsAvailable =
        [3, 0] :=
  have h := MapPictureResource_effect busyTable4.1 7 1 9 busyTable4.2 (by decide) (by decide)
    (by decide)
  ⟨by decide, by decide, by decide, h.1, by rw [h.2.2.2.2.2.1 7]; decide,
    by rw [h.2.2.2.2.2.2.2.1]; decide⟩

/-! ## GetSlotOfPictureResource -/

lemma holdsAt_iff (t : DpbSlots) (pPic : PicPtr) {i : Nat} (hi : i < 32) :
    t.holdsAt pPic i = true ↔ t.liveHolder pPic i := by
  unfold DpbSlots.holdsAt DpbSlots.liveHolder DpbSlots.maskBit
  rw [shl1_natCast hi, and_two_pow_ne_zero]
  simp only [Bool.and_eq_true, decide_eq_true_eq]
  constructor
  · rintro ⟨⟨h1, h2⟩, h3⟩
    exact ⟨h1, h2, h3.symm⟩
  · rintro ⟨h1, h2, h3⟩
    exact ⟨⟨h1, h2⟩, h3.symm⟩

lemma GetSlot_eq_find (t : DpbSlots) (pPic : PicPtr) (hwf : t.WF) :
    t.GetSlotOfPictureResource pPic =
      match (List.range t.m_dpbMaxSize).find? (t.holdsAt pPic) with
      | some i => (i : Int)
      | none => -1 := by
  have h := hwf.1
  unfold MAX_DPB_REF_AND_SETUP_SLOTS at h
  unfold DpbSlots.GetSlotOfPictureResource
  rw [toInt8_natCast (show t.m_dpbMaxSize < 128 by omega), Int.toNat_ofNat]

lemma GetSlot_eq_natCast_iff (t : DpbSlots) (pPic : PicPtr) (hwf : t.WF) (i : Nat) :
    t.GetSlotOfPictureResource pPic = (i : Int) ↔
      (i < t.m_dpbMaxSize ∧ t.liveHolder pPic i ∧ ∀ j, j < i → ¬ t.liveHolder pPic j) := by
  rw [GetSlot_eq_find t pPic hwf]
  cases hf : (List.range t.m_dpbMaxSize).find? (t.holdsAt pPic) with
  | none =>
    rw [List.find?_range_eq_none] at hf
    dsimp only
    constructor
    · intro h
      omega
    · rintro ⟨hi, hl, _⟩
      have := hf i hi
      rw [(holdsAt_iff t pPic (hwf.lt_32 hi)).mpr hl] at this
      exact absurd this (by decide)
  | some k =>
    rw [List.find?_range_eq_some] at hf
    obtain ⟨hk, hkr, hmin⟩ := hf
    have hkn : k < t.m_dpbMaxSize := List.mem_range.mp hkr
    have hkl : t.liveHolder pPic k := (holdsAt_iff t pPic (hwf.lt_32 hkn)).mp hk
    dsimp only
    have hkmin : ∀ j, j < k → ¬ t.liveHolder pPic j := by
      intro j hj hl
      have := hmin j hj
      rw [(holdsAt_iff t pPic (hwf.lt_32 (Nat.lt_trans hj hkn))).mpr hl] at this
      exact absurd this (by decide)
    constructor
    · intro h
      have hki : k = i := by omega
      subst hki
      exact ⟨hkn, hkl, hkmin⟩
    · rintro ⟨_, hl, himin⟩
      have hki : k = i := by
        rcases Nat.lt_trichotomy k i with h | h | h
        · exact absurd hkl (himin k h)
        · exact h
        · exact absurd hl (hkmin i h)
      rw [hki]

lemma GetSlot_eq_neg_one_iff (t : DpbSlots) (pPic : PicPtr) (hwf : t.WF) :
    t.GetSlotOfPictureResource pPic = -1 ↔
      ∀ i, i < t.m_dpbMaxSize → ¬ t.liveHolder pPic i := by
  rw [GetSlot_eq_find t pPic hwf]
  cases hf : (List.range t.m_dpbMaxSize).find? (t.holdsAt pPic) with
  | none =>
    rw [List.find?_range_eq_none] at hf
    dsimp only
    constructor
    · intro _ i hi hl
      have := hf i hi
      rw [(holdsAt_iff t pPic (hwf.lt_32 hi)).mpr hl] at this
      exact absurd this (by decide)
    · intro _
      rfl
  | some k =>
    rw [List.find?_range_eq_some] at hf
    obtain ⟨hk, hkr, _⟩ := hf
    have hkn : k < t.m_dpbMaxSize := List.mem_range.mp hkr
    dsimp only
    constructor
    · intro h
      omega
    · intro h
      exact absurd ((holdsAt_iff t pPic (hwf.lt_32 hkn)).mp hk) (h k hkn)

lemma GetSlot_after_map_free (t : DpbSlots) (p s : Nat) (age : Int) (rc : RefCounts)
    (hwf : t.WF) (hs : s < t.m_dpbMaxSize)
    (hfree : t.maskBit s = false ∨ (t.slotAt s).isInUse = false) :
    (t.MapPictureResource (some p) s age rc).1.GetSlotOfPictureResource (some p) = -1 := by
  have h := MapInv_final t p s age rc hwf
  rw [GetSlot_eq_neg_one_iff _ _ (MapInv_wf hwf h)]
  intro i hi hl
  rw [h.size] at hi
  obtain ⟨hbit, huse, hpic⟩ := hl
  by_cases his : i = s
  · subst his
    have hoh : t.otherHolds (some p) i i = false := by simp [DpbSlots.otherHolds]
    rw [h.mask i, hoh] at hbit
    rw [h.slot_lo i hi] at huse
    simp only [DpbSlots.mappedSlot, if_true, DpbSlot.isInUse] at huse
    rcases hfree with hf | hf
    · rw [hf] at hbit
      simp at hbit
    · simp only [DpbSlot.isInUse] at hf
      rw [hf] at huse
      exact absurd huse (by decide)
  · rw [h.slot_lo i hi] at hpic
    exact mappedSlot_ne_holds t p s age his hpic

/-- C8: on a well-formed table `GetSlotOfPictureResource(pPic)` returns the
smallest index below the capacity whose mask bit is set, whose slot reports
`isInUse()` and whose picture is `pPic`; it returns -1 exactly when there is
no such index, and it never returns anything else.  In particular, after
`MapPictureResource` has bound a picture to a slot that is not allocated, the
picture is reported as not found. -/
theorem GetSlotOfPictureResource_spec (t : DpbSlots) (pPic : PicPtr) (hwf : t.WF) :
    (∀ i : Nat, t.GetSlotOfPictureResource pPic = (i : Int) ↔
      (i < t.m_dpbMaxSize ∧ t.liveHolder pPic i ∧ ∀ j, j < i → ¬ t.liveHolder pPic j)) ∧
      (t.GetSlotOfPictureResource pPic = -1 ↔
        ∀ i, i < t.m_dpbMaxSize → ¬ t.liveHolder pPic i) ∧
      (t.GetSlotOfPictureResource pPic = -1 ∨
        ∃ i : Nat, i < t.m_dpbMaxSize ∧ t.GetSlotOfPictureResource pPic = (i : Int)) ∧
      (∀ (p s : Nat) (age : Int) (rc : RefCounts), s < t.m_dpbMaxSize →
        (t.maskBit s = false ∨ (t.slotAt s).isInUse = false) →
        (t.MapPictureResource (some p) s age rc).1.GetSlotOfPictureResource (some p) = -1) := by
  refine ⟨GetSlot_eq_natCast_iff t pPic hwf, GetSlot_eq_neg_one_iff t pPic hwf, ?_,
    fun p s age rc hs hfree => GetSlot_after_map_free t p s age rc hwf hs hfree⟩
  rw [GetSlot_eq_find t pPic hwf]
  cases hf : (List.range t.m_dpbMaxSize).find? (t.holdsAt pPic) with
  | none => left; rfl
  | some k =>
    right
    rw [List.find?_range_eq_some] at hf
    exact ⟨k, List.mem_range.mp hf.2.1, rfl⟩

/-- Witness of C8: in `busyTable4` picture 9 is found in slot 2, and a picture
mapped to the free slot 3 is not found. -/
theorem GetSlotOfPictureResource_spec_witness :
    busyTable4.1.WF ∧ busyTable4.1.GetSlotOfPictureResource (some 9) = 2 ∧
      (busyTable4.1.MapPictureResource (some 5) 3 0
        busyTable4.2).1.GetSlotOfPictureResource (some 5) = -1 :=
  have h := GetSlotOfPictureResource_spec busyTable4.1 (some 9) (by decide)
  ⟨by decide, (h.1 2).mpr (by decide), h.2.2.2 5 3 0 busyTable4.2 (by decide) (by decide)⟩

lemma MapPictureResource_unique (t : DpbSlots) (p s : Nat) (age : Int) (rc : RefCounts)
    (hwf : t.WF) {j : Nat} (hj : j < t.m_dpbMaxSize) (hjs : j ≠ s) :
    ((t.MapPictureResource (some p) s age rc).1.slotAt j).getPictureResource ≠ some p := by
  have h := MapInv_final t p s age rc hwf
  rw [h.slot_lo j hj]
  exact mappedSlot_ne_holds t p s age hjs

lemma length_filter_range_eq_one (f : Nat → Bool) (n a : Nat) (ha : a < n)
    (hf : ∀ j, j < n → (f j = true ↔ j = a)) : ((List.range n).filter f).length = 1 := by
  have h1 : (List.range n).filter f = (List.range n).filter (fun j => j == a) := by
    apply List.filter_congr
    intro j hj
    have := hf j (List.mem_range.mp hj)
    by_cases hja : j = a
    · subst hja
      simp [this.mpr rfl]
    · have hfj : f j = false := by
        cases hv : f j
        · rfl
        · exact absurd (this.mp hv) hja
      simp [hja, hfj]
  rw [h1, ← List.countP_eq_length_filter]
  have h2 : List.countP (fun j => j == a) (List.range n) = List.count a (List.range n) := rfl
  rw [h2]
  exact List.count_eq_one_of_mem (List.nodup_range n) (List.mem_range.mpr ha)

/-- C7: on a well-formed table, for allocated slots `A ≠ B` and a picture `p`
held by no slot, after `MapPictureResource(p, A)` followed at once by
`MapPictureResource(p, B)` slot `A` is not in use, holds no picture, has its
mask bit clear and its index in the free queue; slot `B` is in use and holds
`p`; no other slot holds `p`; `GetSlotOfPictureResource(p)` returns `B`; and
the table holds exactly one more reference on `p` than before. -/
theorem MapPictureResource_twice (t : DpbSlots) (p A B : Nat) (ageA ageB : Int) (rc : RefCounts)
    (hwf : t.WF) (hA : A < t.m_dpbMaxSize) (hB : B < t.m_dpbMaxSize) (hAB : A ≠ B)
    (_hAbit : t.maskBit A = true) (_hAuse : (t.slotAt A).isInUse = true)
    (hBbit : t.maskBit B = true) (hBuse : (t.slotAt B).isInUse = true)
    (hnone : ∀ j, j < t.m_dpbMaxSize → (t.slotAt j).getPictureResource ≠ some p) :
    ((t.mapTwice p A B ageA ageB rc).1.slotAt A).isInUse = false ∧
      ((t.mapTwice p A B ageA ageB rc).1.slotAt A).getPictureResource = none ∧
      (t.mapTwice p A B ageA ageB rc).1.maskBit A = false ∧
      A ∈ (t.mapTwice p A B ageA ageB rc).1.m_dpbSlotsAvailable ∧
      ((t.mapTwice p A B ageA ageB rc).1.slotAt B).getPictureResource = some p ∧
      ((t.mapTwice p A B ageA ageB rc).1.slotAt B).isInUse = true ∧
      (∀ j, j < t.m_dpbMaxSize → j ≠ B →
        ((t.mapTwice p A B ageA ageB rc).1.slotAt j).getPictureResource ≠ some p) ∧
      (t.mapTwice p A B ageA ageB rc).1.GetSlotOfPictureResource (some p) = (B : Int) ∧
      (t.mapTwice p A B ageA ageB rc).2 p = rc p + 1 := by
  -- the first call
  have hoh1 : ∀ j, j < t.m_dpbMaxSize → t.otherHolds (some p) A j = false := by
    intro j hj
    simp [DpbSlots.otherHolds, hnone j hj]
  have hnil : t.otherHolders (some p) A = [] := by
    unfold DpbSlots.otherHolders
    rw [List.filter_eq_nil_iff]
    intro j hj
    rw [hoh1 j (List.mem_range.mp hj)]
    simp
  obtain ⟨h1pic, _, _, _, _, h1rc, _, _, h1same, h1mask, h1size⟩ :=
    MapPictureResource_spec t p A ageA rc hwf hA
  have hwf1 := WF_MapPictureResource p A ageA rc hwf
  generalize hw1 : t.MapPictureResource (some p) A ageA rc = w1 at h1pic h1rc h1same h1mask h1size hwf1
  have hmt : t.mapTwice p A B ageA ageB rc = w1.1.MapPictureResource (some p) B ageB w1.2 := by
    simp only [DpbSlots.mapTwice, hw1]
  have h1B : w1.1.slotAt B = t.slotAt B := h1same B (Ne.symm hAB) (hoh1 B hB)
  have h1Bbit : w1.1.maskBit B = true := by
    rw [h1mask B (by rw [hoh1 B hB]; simp)]
    exact hBbit
  -- the second call
  have hA1 : A < w1.1.m_dpbMaxSize := by rw [h1size]; exact hA
  have hB1 : B < w1.1.m_dpbMaxSize := by rw [h1size]; exact hB
  have hoh2 : ∀ j, j < w1.1.m_dpbMaxSize → (w1.1.otherHolds (some p) B j = true ↔ j = A) := by
    intro j hj
    rw [h1size] at hj
    constructor
    · intro h
      by_contra hjA
      simp only [DpbSlots.otherHolds, Bool.and_eq_true, decide_eq_true_eq] at h
      rw [h1same j hjA (hoh1 j hj)] at h
      exact hnone j hj h.2
    · intro h
      subst h
      simp [DpbSlots.otherHolds, hAB, h1pic]
  obtain ⟨h2pic, _, h2res, h2use, h2bit, h2rc, h2freed, _, _, _, h2size⟩ :=
    MapPictureResource_spec w1.1 p B ageB w1.2 hwf1 hB1
  obtain ⟨_, hApic, hAuse, hAbit, hAmem⟩ := h2freed A hA1 ((hoh2 A hA1).mpr rfl)
  have hwf2 := WF_MapPictureResource p B ageB w1.2 hwf1
  have huniq : ∀ j, j < t.m_dpbMaxSize → j ≠ B →
      ((w1.1.MapPictureResource (some p) B ageB w1.2).1.slotAt j).getPictureResource
        ≠ some p := by
    intro j hj hjB
    exact MapPictureResource_unique w1.1 p B ageB w1.2 hwf1 (by rw [h1size]; exact hj) hjB
  have hBuse2 : ((w1.1.MapPictureResource (some p) B ageB w1.2).1.slotAt B).isInUse = true := by
    simp only [DpbSlot.isInUse] at hBuse ⊢
    rw [h2res, h2use, h1B]
    exact hBuse
  rw [hmt]
  refine ⟨hAuse, hApic, hAbit, hAmem, h2pic, hBuse2, huniq, ?_, ?_⟩
  · rw [GetSlot_eq_natCast_iff _ _ hwf2 B]
    refine ⟨by rw [h2size]; exact hB1, ⟨by rw [h2bit]; exact h1Bbit, hBuse2, h2pic⟩, ?_⟩
    intro j hj hl
    exact huniq j (by omega) (by omega) hl.2.2
  · have hlen : (w1.1.otherHolders (some p) B).length = 1 :=
      length_filter_range_eq_one _ _ A hA1 hoh2
    have hAp : ¬ (t.slotAt A).getPictureResource = some p := hnone A hA
    have hBp : ¬ (w1.1.slotAt B).getPictureResource = some p := by
      rw [h1B]; exact hnone B hB
    rw [h2rc p, h1rc p, hnil, hlen]
    simp only [if_true, hAp, hBp, if_false, List.length_nil]
    push_cast
    ring

/-- Witness of C7: picture 5 mapped to slot 1 and then to slot 2 of
`busyTable4`. -/
theorem MapPictureResource_twice_witness :
    busyTable4.1.WF ∧
      ((busyTable4.1.mapTwice 5 1 2 0 0 busyTable4.2).1.slotAt 1).isInUse = false ∧
      1 ∈ (busyTable4.1.mapTwice 5 1 2 0 0 busyTable4.2).1.m_dpbSlotsAvailable ∧
      (busyTable4.1.mapTwice 5 1 2 0 0 busyTable4.2).1.GetSlotOfPictureResource (some 5) = 2 :=
  have h := MapPictureResource_twice busyTable4.1 5 1 2 0 0 busyTable4.2 (by decide)
    (by decide) (by decide) (by decide) (by decide) (by decide) (by decide) (by decide)
    (by decide)
  ⟨by decide, h.1, h.2.2.2.1, h.2.2.2.2.2.2.2.1⟩

/-! ## Init with `reconfigure` -/

lemma foldl_invalidateAt_frame (l : List Nat) : ∀ (w : DpbSlots × RefCounts),
    (l.foldl DpbSlots.invalidateAt w).1.m_dpbMaxSize = w.1.m_dpbMaxSize ∧
      (l.foldl DpbSlots.invalidateAt w).1.m_slotInUseMask = w.1.m_slotInUseMask ∧
      (l.foldl DpbSlots.invalidateAt w).1.m_dpbSlotsAvailable = w.1.m_dpbSlotsAvailable ∧
      ∀ i, i ∉ l → (l.foldl DpbSlots.invalidateAt w).1.slotAt i = w.1.slotAt i := by
  induction l with
  | nil => intro w; exact ⟨rfl, rfl, rfl, fun _ _ => rfl⟩
  | cons a l ih =>
    intro w
    rw [List.foldl_cons]
    obtain ⟨h1, h2, h3, h4⟩ := ih (DpbSlots.invalidateAt w a)
    refine ⟨by rw [h1]; rfl, by rw [h2]; rfl, by rw [h3]; rfl, ?_⟩
    intro i hi
    rw [h4 i (fun hmem => hi (List.mem_cons_of_mem _ hmem))]
    exact slotAt_setSlot_ne _ _ (fun hai => hi (by rw [hai]; exact List.mem_cons_self _ _))

lemma getD_vecResize (v : List DpbSlot) (n i : Nat) (hin : i < n) (hiv : i < v.length) :
    (vecResize v n).getD i DpbSlot.zero = v.getD i DpbSlot.zero := by
  unfold vecResize
  rw [List.getD_eq_getElem?_getD, List.getD_eq_getElem?_getD,
    List.getElem?_append_left (by rw [List.length_take]; omega), List.getElem?_take_of_lt hin]

lemma Init_reconfigure_shrink_eq (t : DpbSlots) (n : Nat) (rc : RefCounts)
    (h : n < t.m_dpbMaxSize) : t.Init n true rc = ((t.m_dpbMaxSize : Int), t, rc) := by
  simp [DpbSlots.Init, h]

lemma Init_reconfigure_slot (t : DpbSlots) (n : Nat) (rc : RefCounts)
    (hlen : t.m_dpbMaxSize ≤ t.m_dpb.length) (i : Nat) (hi : i < t.m_dpbMaxSize) :
    i < (t.Init n true rc).2.1.m_dpbMaxSize ∧
      (t.Init n true rc).2.1.slotAt i = t.slotAt i ∧
      (t.Init n true rc).2.1.m_slotInUseMask = t.m_slotInUseMask := by
  by_cases h : n < t.m_dpbMaxSize
  · rw [Init_reconfigure_shrink_eq t n rc h]
    exact ⟨hi, rfl, rfl⟩
  · have hin : i < n := by omega
    have hnotmem : i ∉ List.range' t.m_dpbMaxSize (n - t.m_dpbMaxSize) := by
      intro hmem
      have := (List.mem_range'_1.mp hmem).1
      omega
    simp only [DpbSlots.Init, Bool.not_true, Bool.false_eq_true, if_false, Bool.true_and,
      decide_eq_true_eq, h, if_true]
    rw [foldl_push]
    obtain ⟨h1, h2, _, h4⟩ := foldl_invalidateAt_frame
      (List.range' t.m_dpbMaxSize (n - t.m_dpbMaxSize))
      ({ m_dpbMaxSize := n, m_slotInUseMask := t.m_slotInUseMask,
         m_dpb := vecResize t.m_dpb n, m_dpbSlotsAvailable := t.m_dpbSlotsAvailable }, rc)
    refine ⟨?_, ?_, ?_⟩
    · show i < (List.foldl DpbSlots.invalidateAt _ _).1.m_dpbMaxSize
      rw [h1]
      exact hin
    · show (List.foldl DpbSlots.invalidateAt _ _).1.slotAt i = t.slotAt i
      rw [h4 i hnotmem]
      exact getD_vecResize t.m_dpb n i hin (by omega)
    · show (List.foldl DpbSlots.invalidateAt _ _).1.m_slotInUseMask = t.m_slotInUseMask
      rw [h2]

/-- C9: a request to reconfigure a table of capacity `c` to a size `n < c` is
rejected: `Init(n, true)` returns `c` and hands back the very same table
(capacity, slots, mask, free queue) and the same reference counts. -/
theorem Init_reconfigure_shrink (t : DpbSlots) (n : Nat) (rc : RefCounts)
    (h : n < t.m_dpbMaxSize) :
    (t.Init n true rc).1 = (t.m_dpbMaxSize : Int) ∧ (t.Init n true rc).2.1 = t ∧
      (t.Init n true rc).2.2 = rc := by
  rw [Init_reconfigure_shrink_eq t n rc h]
  exact ⟨rfl, rfl, rfl⟩

/-- Witness of C9: shrinking `busyTable4` to two slots. -/
theorem Init_reconfigure_shrink_witness :
    2 < busyTable4.1.m_dpbMaxSize ∧ (busyTable4.1.Init 2 true busyTable4.2).1 = 4 ∧
      (busyTable4.1.Init 2 true busyTable4.2).2.1 = busyTable4.1 :=
  have h := Init_reconfigure_shrink busyTable4.1 2 busyTable4.2 (by decide)
  ⟨by decide, h.1, h.2.1⟩

/-- C10 as stated fails for `reconfigure = false`: slot 0 of `busyTable4` is in
use and holds picture 7, the size 4 is within the architectural maximum, and
after `Init(4, false)` slot 0 is not in use and holds no picture. -/
theorem Init_fresh_invalidates_in_use :
    4 ≤ MAX_DPB_REF_AND_SETUP_SLOTS ∧ busyTable4.1.WF ∧
      (busyTable4.1.slotAt 0).isInUse = true ∧
      (busyTable4.1.slotAt 0).getPictureResource = some 7 ∧
      ((busyTable4.1.Init 4 false busyTable4.2).2.1.slotAt 0).isInUse = false ∧
      ((busyTable4.1.Init 4 false busyTable4.2).2.1.slotAt 0).getPictureResource = none := by
  decide

/-- C10 (amended): `Init(newSize, true)` never invalidates an in-use slot.  On
a table whose vector has a slot for every index below the capacity, each slot
that is in use before the call is a slot of the table afterwards, is still in
use, is the same slot value (flags, picture, age), and the in-use mask is
unchanged, whatever the requested size. -/
theorem Init_reconfigure_keeps_in_use (t : DpbSlots) (n : Nat) (rc : RefCounts)
    (hlen : t.m_dpbMaxSize ≤ t.m_dpb.length) (i : Nat) (hi : i < t.m_dpbMaxSize)
    (huse : (t.slotAt i).isInUse = true) :
    i < (t.Init n true rc).2.1.m_dpbMaxSize ∧
      ((t.Init n true rc).2.1.slotAt i).isInUse = true ∧
      ((t.Init n true rc).2.1.slotAt i).getPictureResource = (t.slotAt i).getPictureResource ∧
      ((t.Init n true rc).2.1.slotAt i).getAge = (t.slotAt i).getAge ∧
      (t.Init n true rc).2.1.slotAt i = t.slotAt i ∧
      (t.Init n true rc).2.1.maskBit i = t.maskBit i ∧
      (t.Init n true rc).2.1.m_slotInUseMask = t.m_slotInUseMask := by
  obtain ⟨h1, h2, h3⟩ := Init_reconfigure_slot t n rc hlen i hi
  refine ⟨h1, by rw [h2]; exact huse, by rw [h2], by rw [h2], h2, ?_, h3⟩
  unfold DpbSlots.maskBit
  rw [h3]

/-- Witness of C10 (amended): growing `busyTable4` to six slots keeps slot 0. -/
theorem Init_reconfigure_keeps_in_use_witness :
    busyTable4.1.m_dpbMaxSize ≤ busyTable4.1.m_dpb.length ∧
      (busyTable4.1.slotAt 0).isInUse = true ∧
      (busyTable4.1.Init 6 true busyTable4.2).2.1.m_dpbMaxSize = 6 ∧
      ((busyTable4.1.Init 6 true busyTable4.2).2.1.slotAt 0).isInUse = true ∧
      ((busyTable4.1.Init 6 true busyTable4.2).2.1.slotAt 0).getPictureResource = some 7 :=
  have h := Init_reconfigure_keeps_in_use busyTable4.1 6 busyTable4.2 (by decide) 0
    (by decide) (by decide)
  ⟨by decide, by decide, by decide, h.2.1, by rw [h.2.2.1]; decide⟩

/-! ## DpbSlot -/

/-- C11: for every slot, `isInUse()` is `m_reserved || m_inUse` and
`isAvailable()` is its negation; `Invalidate()` returns the value `isInUse()`
had before the call, takes exactly one reference from the picture the slot
held and touches no other count (none at all when it held no picture), and
leaves the slot without a picture, with `isInUse() == false` and with its age
unchanged. -/
theorem DpbSlot_Invalidate_spec (s : DpbSlot) (rc : RefCounts) :
    s.isInUse = (s.m_reserved || s.m_inUse) ∧
      s.isAvailable = !s.isInUse ∧
      (s.Invalidate rc).1 = s.isInUse ∧
      (s.Invalidate rc).2.1.getPictureResource = none ∧
      (s.Invalidate rc).2.1.isInUse = false ∧
      (s.Invalidate rc).2.1.isAvailable = true ∧
      (s.Invalidate rc).2.1.getAge = s.getAge ∧
      (∀ p, s.getPictureResource = some p →
        (s.Invalidate rc).2.2 p = rc p - 1 ∧ ∀ q, q ≠ p → (s.Invalidate rc).2.2 q = rc q) ∧
      (s.getPictureResource = none → (s.Invalidate rc).2.2 = rc) := by
  refine ⟨rfl, rfl, rfl, rfl, rfl, rfl, rfl, ?_, ?_⟩
  · intro p hp
    have hp2 : s.m_picBuf = some p := hp
    simp only [DpbSlot.Invalidate, hp2, picRelease_apply]
    refine ⟨by simp, ?_⟩
    intro q hq
    simp [hq]
  · intro hp
    have hp2 : s.m_picBuf = none := hp
    simp only [DpbSlot.Invalidate, hp2]

/-- Witness of C11 on slot 0 of `busyTable4`, which is reserved and holds
picture 7. -/
theorem DpbSlot_Invalidate_spec_witness :
    (busyTable4.1.slotAt 0).getPictureResource = some 7 ∧
      ((busyTable4.1.slotAt 0).Invalidate busyTable4.2).1 = true ∧
      ((busyTable4.1.slotAt 0).Invalidate busyTable4.2).2.2 7 = busyTable4.2 7 - 1 :=
  have h := DpbSlot_Invalidate_spec (busyTable4.1.slotAt 0) busyTable4.2
  ⟨by decide, by rw [h.2.2.1]; decide, (h.2.2.2.2.2.2.2.1 7 (by decide)).1⟩

/-! ## VulkanVideoSession.IsCompatible -/

lemma IsCompatible_iff (s : VulkanVideoSession) (device videoQueueFamily : Nat)
    (pVideoProfile : VkVideoCoreProfile) (pictureFormat : Nat) (maxCodedExtent : VkExtent2D)
    (referencePicturesFormat maxDpbSlots maxActiveReferencePictures : Nat) :
    s.IsCompatible device videoQueueFamily pVideoProfile pictureFormat maxCodedExtent
        referencePicturesFormat maxDpbSlots maxActiveReferencePictures = true ↔
      (maxCodedExtent.width ≤ s.m_createInfo.maxCodedExtent.width ∧
        maxCodedExtent.height ≤ s.m_createInfo.maxCodedExtent.height ∧
        maxDpbSlots ≤ s.m_createInfo.maxDpbSlots ∧
        maxActiveReferencePictures ≤ s.m_createInfo.maxActiveReferencePictures ∧
        pVideoProfile = s.m_profile ∧ device = s.m_device ∧
        videoQueueFamily = s.m_createInfo.queueFamilyIndex ∧
        pictureFormat = s.m_createInfo.pictureFormat ∧
        referencePicturesFormat = s.m_createInfo.referencePictureFormat) := by
  unfold VulkanVideoSession.IsCompatible
  constructor
  · intro h
    split_ifs at h with h1 h2 h3 h4 h5 h6 h7 h8 h9
    exact ⟨by omega, by omega, by omega, by omega, not_not.mp h1, (not_not.mp h8).symm,
      (not_not.mp h9).symm, (not_not.mp h7).symm, (not_not.mp h6).symm⟩
  · rintro ⟨h1, h2, h3, h4, h5, h6, h7, h8, h9⟩
    rw [if_neg (not_not.mpr h5), if_neg (by omega), if_neg (by omega), if_neg (by omega),
      if_neg (by omega), if_neg (not_not.mpr h9.symm), if_neg (not_not.mpr h8.symm),
      if_neg (not_not.mpr h6.symm), if_neg (not_not.mpr h7.symm)]

/-- C12 as stated fails: `session1080p` has picture format 3; a request that
equals its creation parameters in everything but the picture format (4) meets
every condition of the claim, yet `IsCompatible` returns false. -/
theorem IsCompatible_false_on_format_mismatch :
    (1920 ≤ session1080p.m_createInfo.maxCodedExtent.width ∧
      1080 ≤ session1080p.m_createInfo.maxCodedExtent.height ∧
      17 ≤ session1080p.m_createInfo.maxDpbSlots ∧
      16 ≤ session1080p.m_createInfo.maxActiveReferencePictures ∧
      h264Baseline = session1080p.m_profile ∧ 1 = session1080p.m_device ∧
      2 = session1080p.m_createInfo.queueFamilyIndex) ∧
      session1080p.IsCompatible 1 2 h264Baseline 4 { width := 1920, height := 1080 } 3 17 16 =
        false := by
  decide

/-- C12 (amended): `IsCompatible` returns true if and only if the session's
maximal coded extent (width and height), DPB slot count and active reference
picture count are each at least the requested ones, and the requested profile,
device, queue family, picture format and reference picture format are equal
to the session's. -/
theorem IsCompatible_spec (s : VulkanVideoSession) (device videoQueueFamily : Nat)
    (pVideoProfile : VkVideoCoreProfile) (pictureFormat : Nat) (maxCodedExtent : VkExtent2D)
    (referencePicturesFormat maxDpbSlots maxActiveReferencePictures : Nat) :
    s.IsCompatible device videoQueueFamily pVideoProfile pictureFormat maxCodedExtent
        referencePicturesFormat maxDpbSlots maxActiveReferencePictures = true ↔
      (maxCodedExtent.width ≤ s.m_createInfo.maxCodedExtent.width ∧
        maxCodedExtent.height ≤ s.m_createInfo.maxCodedExtent.height ∧
        maxDpbSlots ≤ s.m_createInfo.maxDpbSlots ∧
        maxActiveReferencePictures ≤ s.m_createInfo.maxActiveReferencePictures ∧
        pVideoProfile = s.m_profile ∧ device = s.m_device ∧
        videoQueueFamily = s.m_createInfo.queueFamilyIndex ∧
        pictureFormat = s.m_createInfo.pictureFormat ∧
        referencePicturesFormat = s.m_createInfo.referencePictureFormat) :=
  IsCompatible_iff s device videoQueueFamily pVideoProfile pictureFormat maxCodedExtent
    referencePicturesFormat maxDpbSlots maxActiveReferencePictures

/-- Witness of C12 (amended): a request for 1280x720 with the parameters of
`session1080p` is compatible. -/
theorem IsCompatible_spec_witness :
    session1080p.IsCompatible 1 2 h264Baseline 3 { width := 1280, height := 720 } 3 17 16 =
      true :=
  (IsCompatible_spec session1080p 1 2 h264Baseline 3 { width := 1280, height := 720 } 3 17
    16).mpr (by decide)

/-- C13: `IsCompatible` is monotonic in the requested capacities: when it
returns true for a request, it returns true for every request with the same
device, queue family, profile and formats whose coded extent width, coded
extent height, DPB slot count and active reference picture count are each at
most the original ones. -/
theorem IsCompatible_monotonic (s : VulkanVideoSession) (device videoQueueFamily : Nat)
    (pVideoProfile : VkVideoCoreProfile) (pictureFormat : Nat)
    (maxCodedExtent maxCodedExtent2 : VkExtent2D)
    (referencePicturesFormat maxDpbSlots maxActiveReferencePictures : Nat)
    (maxDpbSlots2 maxActiveReferencePictures2 : Nat)
    (h : s.IsCompatible device videoQueueFamily pVideoProfile pictureFormat maxCodedExtent
      referencePicturesFormat maxDpbSlots maxActiveReferencePictures = true)
    (hw : maxCodedExtent2.width ≤ maxCodedExtent.width)
    (hh : maxCodedExtent2.height ≤ maxCodedExtent.height)
    (hd : maxDpbSlots2 ≤ maxDpbSlots)
    (hr : maxActiveReferencePictures2 ≤ maxActiveReferencePictures) :
    s.IsCompatible device videoQueueFamily pVideoProfile pictureFormat maxCodedExtent2
      referencePicturesFormat maxDpbSlots2 maxActiveReferencePictures2 = true := by
  rw [IsCompatible_iff] at h ⊢
  obtain ⟨h1, h2, h3, h4, h5⟩ := h
  exact ⟨by omega, by omega, by omega, by omega, h5⟩

/-- Witness of C13: from 1920x1080 with 17 slots and 16 references down to
640x480 with 4 slots and 2 references on `session1080p`. -/
theorem IsCompatible_monotonic_witness :
    session1080p.IsCompatible 1 2 h264Baseline 3 { width := 1920, height := 1080 } 3 17 16 =
        true ∧
      session1080p.IsCompatible 1 2 h264Baseline 3 { width := 640, height := 480 } 3 4 2 =
        true :=
  ⟨by decide,
    IsCompatible_monotonic session1080p 1 2 h264Baseline 3 { width := 1920, height := 1080 }
      { width := 640, height := 480 } 3 17 16 4 2 (by decide) (by decide) (by decide)
      (by decide) (by decide)⟩

/-- C14: a request whose profile, device, queue family, picture format and
reference picture format equal those the session was created with and whose
coded extent, DPB slot count and active reference picture count are each at
most the session's makes `IsCompatible` return true; in particular the request
that repeats the session's own parameters does. -/
theorem IsCompatible_of_subset (s : VulkanVideoSession) (maxCodedExtent : VkExtent2D)
    (maxDpbSlots maxActiveReferencePictures : Nat)
    (hw : maxCodedExtent.width ≤ s.m_createInfo.maxCodedExtent.width)
    (hh : maxCodedExtent.height ≤ s.m_createInfo.maxCodedExtent.height)
    (hd : maxDpbSlots ≤ s.m_createInfo.maxDpbSlots)
    (hr : maxActiveReferencePictures ≤ s.m_createInfo.maxActiveReferencePictures) :
    s.IsCompatible s.m_device s.m_createInfo.queueFamilyIndex s.m_profile
        s.m_createInfo.pictureFormat maxCodedExtent s.m_createInfo.referencePictureFormat
        maxDpbSlots maxActiveReferencePictures = true ∧
      s.IsCompatible s.m_device s.m_createInfo.queueFamilyIndex s.m_profile
        s.m_createInfo.pictureFormat s.m_createInfo.maxCodedExtent
        s.m_createInfo.referencePictureFormat s.m_createInfo.maxDpbSlots
        s.m_createInfo.maxActiveReferencePictures = true := by
  constructor
  · rw [IsCompatible_iff]
    exact ⟨hw, hh, hd, hr, rfl, rfl, rfl, rfl, rfl⟩
  · rw [IsCompatible_iff]
    exact ⟨Nat.le_refl _, Nat.le_refl _, Nat.le_refl _, Nat.le_refl _, rfl, rfl, rfl, rfl, rfl⟩

/-- Witness of C14: 1920x1080 H.264 baseline requested a second time on
`session1080p`. -/
theorem IsCompatible_of_subset_witness :
    session1080p.IsCompatible 1 2 h264Baseline 3 { width := 1920, height := 1080 } 3 17 16 =
      true :=
  (IsCompatible_of_subset session1080p { width := 1920, height := 1080 } 17 16 (by decide)
    (by decide) (by decide) (by decide)).1

/-! ## VulkanVideoSession reference count -/

lemma toInt32_of_range {x : Int} (h1 : -2147483648 ≤ x) (h2 : x < 2147483648) :
    toInt32 x = x := by
  unfold toInt32
  split <;> omega

lemma toInt32_toUInt32 (x : Int) : toInt32 ((toUInt32 (toInt32 x) : Nat) : Int) = toInt32 x := by
  unfold toInt32 toUInt32
  split <;> omega

lemma toUInt32_toInt32_eq_zero (x : Int) : toUInt32 (toInt32 x) = 0 ↔ toInt32 x = 0 := by
  unfold toInt32 toUInt32
  split <;> omega

lemma toInt32_sub_emod (x y : Int) :
    (toInt32 x - y) % 4294967296 = (x - y) % 4294967296 := by
  unfold toInt32
  split <;> omega

lemma toInt32_eq_zero_iff (x : Int) : toInt32 x = 0 ↔ x % 4294967296 = 0 := by
  unfold toInt32
  split <;> omega

lemma AddRef_count (s : VulkanVideoSession) :
    s.AddRef.2.m_refCount = toInt32 (s.m_refCount + 1) := rfl

lemma Release_count (s : VulkanVideoSession) :
    s.Release.2.1.m_refCount = toInt32 (s.m_refCount - 1) := rfl

lemma Release_result (s : VulkanVideoSession) :
    s.Release.1 = toInt32 (s.m_refCount - 1) := by
  simp only [VulkanVideoSession.Release]
  rw [toInt32_toUInt32]

lemma Release_deleted (s : VulkanVideoSession) :
    s.Release.2.2 = decide ((s.m_refCount - 1) % 4294967296 = 0) := by
  simp only [VulkanVideoSession.Release]
  apply decide_eq_decide.mpr
  rw [toUInt32_toInt32_eq_zero, toInt32_eq_zero_iff]

lemma addRefMany_count (n : Nat) : ∀ s : VulkanVideoSession,
    (s.addRefMany n).m_refCount % 4294967296 = (s.m_refCount + n) % 4294967296 := by
  induction n with
  | zero => intro s; simp [VulkanVideoSession.addRefMany]
  | succ n ih =>
    intro s
    rw [VulkanVideoSession.addRefMany, ih, AddRef_count]
    have := toInt32_sub_emod (s.m_refCount + 1) (-(n : Int))
    push_cast
    omega

lemma releaseMany_flags (k : Nat) : ∀ s : VulkanVideoSession,
    (s.releaseMany k).1 =
      List.map (fun (i : Nat) => decide ((s.m_refCount - ((i : Int) + 1)) % 4294967296 = 0))
        (List.range k) := by
  induction k with
  | zero => intro s; rfl
  | succ k ih =>
    intro s
    rw [VulkanVideoSession.releaseMany, ih, List.range_succ_eq_map, List.map_cons,
      List.map_map, Release_deleted, Release_count]
    have htail : List.map (fun (i : Nat) =>
          decide ((toInt32 (s.m_refCount - 1) - ((i : Int) + 1)) % 4294967296 = 0))
          (List.range k) =
        List.map ((fun (i : Nat) =>
          decide ((s.m_refCount - ((i : Int) + 1)) % 4294967296 = 0)) ∘ Nat.succ)
          (List.range k) := by
      apply List.map_congr_left
      intro i _
      apply decide_eq_decide.mpr
      have := toInt32_sub_emod (s.m_refCount - 1) ((i : Int) + 1)
      simp only [Function.comp, Nat.succ_eq_add_one]
      push_cast
      constructor <;> intro h <;> omega
    rw [htail]
    simp

lemma map_decide_last (n : Nat) :
    List.map (fun (i : Nat) => decide (i + 1 = n + 1)) (List.range (n + 1)) =
      List.replicate n false ++ [true] := by
  rw [List.range_succ, List.map_append]
  congr 1
  · rw [List.eq_replicate_iff]
    refine ⟨by simp, ?_⟩
    intro b hb
    obtain ⟨i, hi, rfl⟩ := List.mem_map.mp hb
    have := List.mem_range.mp hi
    simp
    omega
  · simp

/-- C15: `AddRef()` returns the count it leaves, which is the old count plus
one, and `Release()` returns the count it leaves, which is the old count minus
one (in `int32_t` arithmetic, and exactly so while the count stays in range);
`Release()` runs `delete this` if and only if the count it leaves is zero; and
`n >= 1` calls of `AddRef()` on a newly constructed session, whose count is 0,
followed by `n` calls of `Release()` destroy the session on the last
`Release()` and on none before, for every `n` that an `int32_t` can count. -/
theorem session_refcount_spec (s : VulkanVideoSession) (device : Nat)
    (pVideoProfile : VkVideoCoreProfile) (n : Nat) (hn1 : 1 ≤ n) (hn : n ≤ 2147483647) :
    s.AddRef.1 = s.AddRef.2.m_refCount ∧
      s.AddRef.2.m_refCount = toInt32 (s.m_refCount + 1) ∧
      (-2147483648 ≤ s.m_refCount → s.m_refCount < 2147483647 →
        s.AddRef.1 = s.m_refCount + 1) ∧
      s.Release.1 = s.Release.2.1.m_refCount ∧
      s.Release.2.1.m_refCount = toInt32 (s.m_refCount - 1) ∧
      (-2147483648 < s.m_refCount → s.m_refCount ≤ 2147483647 →
        s.Release.1 = s.m_refCount - 1) ∧
      (s.Release.2.2 = true ↔ s.Release.2.1.m_refCount = 0) ∧
      (VulkanVideoSession.ctor device pVideoProfile).m_refCount = 0 ∧
      (((VulkanVideoSession.ctor device pVideoProfile).addRefMany n).releaseMany n).1 =
        List.replicate (n - 1) false ++ [true] := by
  refine ⟨rfl, rfl, ?_, ?_, rfl, ?_, ?_, rfl, ?_⟩
  · intro h1 h2
    exact toInt32_of_range (by omega) (by omega)
  · rw [Release_result, Release_count]
  · intro h1 h2
    rw [Release_result]
    exact toInt32_of_range (by omega) (by omega)
  · rw [Release_deleted, Release_count, toInt32_eq_zero_iff]
    simp
  · obtain ⟨m, rfl⟩ : ∃ m, n = m + 1 := ⟨n - 1, by omega⟩
    rw [releaseMany_flags, Nat.add_sub_cancel, ← map_decide_last]
    apply List.map_congr_left
    intro i hi
    have hi2 := List.mem_range.mp hi
    apply decide_eq_decide.mpr
    have hc := addRefMany_count (m + 1) (VulkanVideoSession.ctor device pVideoProfile)
    have h0 : (VulkanVideoSession.ctor device pVideoProfile).m_refCount = 0 := rfl
    rw [h0] at hc
    push_cast at hc ⊢
    constructor <;> intro h <;> omega

/-- Witness of C15: three `AddRef()` and three `Release()` on a new session. -/
theorem session_refcount_spec_witness :
    (((VulkanVideoSession.ctor 1 h264Baseline).addRefMany 3).releaseMany 3).1 =
      [false, false, true] :=
  (session_refcount_spec session1080p 1 h264Baseline 3 (by decide) (by omega)).2.2.2.2.2.2.2.2

/-! ## The picture-parameter reset trigger -/

lemma triggerMany_frame (k : Nat) (d : VideoBaseDecoder)
    (h0 : d.m_pictureParameterUpdateCount = 0) (hk : k ≤ 2147483647) :
    (d.triggerMany k).m_pictureParameterUpdateCount = (k : Int) ∧
      (d.triggerMany k).m_resetPictureParametersFrameTriggerHack =
        d.m_resetPictureParametersFrameTriggerHack := by
  induction k with
  | zero => exact ⟨h0, rfl⟩
  | succ k ih =>
    obtain ⟨h1, h2⟩ := ih (by omega)
    simp only [VideoBaseDecoder.triggerMany,
      VideoBaseDecoder.triggerPictureParameterSequenceCount, h1, h2]
    have hc : toInt32 ((k : Int) + 1) = ((k + 1 : Nat) : Int) := by
      rw [toInt32_of_range (by omega) (by omega)]
      push_cast
      rfl
    rw [hc]
    split <;> exact ⟨rfl, rfl⟩

/-- C16: starting from update count 0 with reset trigger `N`, for every `k`
that an `int` can count the `k`-th call of
`triggerPictureParameterSequenceCount()` leaves the update count at `k` and
the trigger at `N`; it sets the current picture-parameters object to null
when `N > 0` and `k = N`, and leaves it as it was before that call in every
other case, in particular always when `N = 0`. -/
theorem trigger_count_spec (d : VideoBaseDecoder) (j : Nat)
    (h0 : d.m_pictureParameterUpdateCount = 0) (hj : j + 1 ≤ 2147483647) :
    (d.triggerMany (j + 1)).m_pictureParameterUpdateCount = ((j + 1 : Nat) : Int) ∧
      (d.triggerMany (j + 1)).m_resetPictureParametersFrameTriggerHack =
        d.m_resetPictureParametersFrameTriggerHack ∧
      ((0 < d.m_resetPictureParametersFrameTriggerHack ∧
          j + 1 = d.m_resetPictureParametersFrameTriggerHack) →
        (d.triggerMany (j + 1)).m_currentPictureParameters = none) ∧
      (¬ (0 < d.m_resetPictureParametersFrameTriggerHack ∧
          j + 1 = d.m_resetPictureParametersFrameTriggerHack) →
        (d.triggerMany (j + 1)).m_currentPictureParameters =
          (d.triggerMany j).m_currentPictureParameters) ∧
      (d.m_resetPictureParametersFrameTriggerHack = 0 →
        (d.triggerMany (j + 1)).m_currentPictureParameters =
          (d.triggerMany j).m_currentPictureParameters) := by
  obtain ⟨h1, h2⟩ := triggerMany_frame j d h0 (by omega)
  obtain ⟨h3, h4⟩ := triggerMany_frame (j + 1) d h0 hj
  have hc : toInt32 ((j : Int) + 1) = ((j + 1 : Nat) : Int) := by
    rw [toInt32_of_range (by omega) (by omega)]
    push_cast
    rfl
  have hs : toSizeT ((j + 1 : Nat) : Int) = j + 1 := by
    unfold toSizeT
    omega
  have hstep : (d.triggerMany (j + 1)).m_currentPictureParameters =
      if 0 < d.m_resetPictureParametersFrameTriggerHack ∧
          j + 1 = d.m_resetPictureParametersFrameTriggerHack then none
      else (d.triggerMany j).m_currentPictureParameters := by
    simp only [VideoBaseDecoder.triggerMany,
      VideoBaseDecoder.triggerPictureParameterSequenceCount, h1, h2, hc, hs, gt_iff_lt]
    split <;> rfl
  refine ⟨h3, h4, ?_, ?_, ?_⟩
  · intro h
    rw [hstep, if_pos h]
  · intro h
    rw [hstep, if_neg h]
  · intro h
    rw [hstep, if_neg (by omega)]

/-- Witness of C16: with trigger 3 the third call discards object 42 and the
second does not. -/
theorem trigger_count_spec_witness :
    (decoderTrigger3.triggerMany 2).m_currentPictureParameters = some 42 ∧
      (decoderTrigger3.triggerMany 3).m_pictureParameterUpdateCount = 3 ∧
      (decoderTrigger3.triggerMany 3).m_currentPictureParameters = none :=
  have h := trigger_count_spec decoderTrigger3 2 (by decide) (by omega)
  ⟨by decide, h.1, h.2.2.1 (by decide)⟩

/-! ## NvVkDecodeFrameData.resize -/

lemma resize_first (n : Nat) (drv : CommandPoolDriver) (hc : drv.createResult = 0)
    (ha : drv.allocateResult = 0) :
    ∃ d1 : NvVkDecodeFrameData, NvVkDecodeFrameData.ctor.resize n drv = .ok (n, d1) ∧
      d1.size = n ∧ d1.m_videoCommandPool = drv.pool := by
  unfold NvVkDecodeFrameData.resize
  simp only [NvVkDecodeFrameData.ctor, hc, ha, if_true, ne_eq, not_true_eq_false, if_false]
  exact ⟨_, rfl, by simp [NvVkDecodeFrameData.size], rfl⟩

lemma resize_later (d : NvVkDecodeFrameData) (k : Nat) (drv : CommandPoolDriver)
    (hp : d.m_videoCommandPool ≠ 0) : d.resize k drv = .ok (d.size, d) := by
  simp only [NvVkDecodeFrameData.resize, if_neg hp, NvVkDecodeFrameData.size]

lemma resizeSeq_later (reqs : List (Nat × CommandPoolDriver)) (d : NvVkDecodeFrameData)
    (hp : d.m_videoCommandPool ≠ 0) :
    d.resizeSeq reqs = .ok (List.replicate reqs.length d.size, d) := by
  induction reqs with
  | nil => rfl
  | cons r rest ih =>
    obtain ⟨k, drv⟩ := r
    simp only [NvVkDecodeFrameData.resizeSeq, resize_later d k drv hp, ih, List.length_cons,
      List.replicate_succ]

lemma resize_asserts_later (d : NvVkDecodeFrameData) (n : Nat) (hp : d.m_videoCommandPool ≠ 0) :
    d.resize_asserts n = true ↔ n ≤ d.size := by
  simp [NvVkDecodeFrameData.resize_asserts, hp, NvVkDecodeFrameData.size]

/-- C17 as stated fails: on `framePool4`, the pool left by a first
`resize(4)`, the shrinking call `resize(2)` satisfies the assertion
`maxDecodeFramesCount <= allocatedCommandBuffers` (it is not tripped) and
returns 4 with the pool unchanged. -/
theorem resize_shrink_does_not_assert :
    NvVkDecodeFrameData.ctor.resize 4 goodDriver = .ok (4, framePool4) ∧
      framePool4.resize_asserts 2 = true ∧
      framePool4.resize 2 goodDriver = .ok (4, framePool4) := by
  refine ⟨?_, by decide, ?_⟩
  · simp [NvVkDecodeFrameData.resize, NvVkDecodeFrameData.ctor, goodDriver, framePool4,
      toUInt32, List.range_succ]
  · simp [NvVkDecodeFrameData.resize, framePool4]

/-- C17 (amended): `resize` asserts on growth.  When the first `resize(m)` on
a new pool has succeeded and left a non-null command pool with `m` contexts, a
later `resize(n)` trips the assertion if and only if `n > m`; a call with
`n <= m`, a shrink included, does not trip it, returns `m` and leaves the pool
as it is. -/
theorem resize_asserts_on_growth (m n : Nat) (drv drv2 : CommandPoolDriver)
    (d1 : NvVkDecodeFrameData) (_hm : 1 ≤ m)
    (hfirst : NvVkDecodeFrameData.ctor.resize m drv = .ok (m, d1))
    (hpool : d1.m_videoCommandPool ≠ 0) :
    d1.size = m ∧ (d1.resize_asserts n = false ↔ m < n) ∧
      (n ≤ m → d1.resize_asserts n = true ∧ d1.resize n drv2 = .ok (m, d1)) := by
  have hsize : d1.size = m := by
    by_cases hc : drv.createResult = 0
    · by_cases ha : drv.allocateResult = 0
      · obtain ⟨d, h1, h2, _⟩ := resize_first m drv hc ha
        rw [h1] at hfirst
        injection hfirst with h
        injection h with _ h
        rw [← h]
        exact h2
      · simp [NvVkDecodeFrameData.resize, NvVkDecodeFrameData.ctor, hc, ha] at hfirst
    · simp [NvVkDecodeFrameData.resize, NvVkDecodeFrameData.ctor, hc] at hfirst
  have hiff := resize_asserts_later d1 n hpool
  rw [hsize] at hiff
  refine ⟨hsize, ?_, ?_⟩
  · constructor
    · intro h
      by_contra hc
      rw [hiff.mpr (by omega)] at h
      exact Bool.noConfusion h
    · intro h
      cases hv : d1.resize_asserts n
      · rfl
      · have := hiff.mp hv
        omega
  · intro h
    refine ⟨hiff.mpr h, ?_⟩
    rw [resize_later d1 n drv2 hpool, hsize]

/-- Witness of C17 (amended): after a first `resize(4)`, `resize(5)` trips the
assertion. -/
theorem resize_asserts_on_growth_witness :
    NvVkDecodeFrameData.ctor.resize 4 goodDriver = .ok (4, framePool4) ∧
      framePool4.resize_asserts 5 = false :=
  have h0 : NvVkDecodeFrameData.ctor.resize 4 goodDriver = .ok (4, framePool4) := by
    simp [NvVkDecodeFrameData.resize, NvVkDecodeFrameData.ctor, goodDriver, framePool4,
      toUInt32, List.range_succ]
  have h := resize_asserts_on_growth 4 5 goodDriver goodDriver framePool4 (by decide) h0
    (by decide)
  ⟨h0, h.2.1.mpr (by decide)⟩

/-- C18: for `n >= 1`, when the driver calls succeed and hand out a non-null
pool, the first `resize(n)` on a new `NvVkDecodeFrameData` returns `n` and
leaves exactly `n` command-recording contexts; every later `resize(k)`,
whatever `k` and whatever the driver would answer, returns `n` and leaves the
pool as it is, so `size()` stays `n`. -/
theorem resize_fixed_after_first (n : Nat) (drv : CommandPoolDriver) (_hn : 1 ≤ n)
    (hc : drv.createResult = 0) (ha : drv.allocateResult = 0) (hp : drv.pool ≠ 0) :
    ∃ d1 : NvVkDecodeFrameData,
      NvVkDecodeFrameData.ctor.size = 0 ∧
      NvVkDecodeFrameData.ctor.resize n drv = .ok (n, d1) ∧ d1.size = n ∧
      (∀ (k : Nat) (drv2 : CommandPoolDriver), d1.resize k drv2 = .ok (n, d1)) ∧
      (∀ reqs : List (Nat × CommandPoolDriver),
        d1.resizeSeq reqs = .ok (List.replicate reqs.length n, d1)) := by
  obtain ⟨d1, h1, h2, h3⟩ := resize_first n drv hc ha
  have hpool : d1.m_videoCommandPool ≠ 0 := by rw [h3]; exact hp
  refine ⟨d1, rfl, h1, h2, ?_, ?_⟩
  · intro k drv2
    rw [resize_later d1 k drv2 hpool, h2]
  · intro reqs
    rw [resizeSeq_later reqs d1 hpool, h2]

/-- Witness of C18: a first `resize(4)` answered by `goodDriver`. -/
theorem resize_fixed_after_first_witness :
    ∃ d1 : NvVkDecodeFrameData,
      NvVkDecodeFrameData.ctor.size = 0 ∧
      NvVkDecodeFrameData.ctor.resize 4 goodDriver = .ok (4, d1) ∧ d1.size = 4 ∧
      (∀ (k : Nat) (drv2 : CommandPoolDriver), d1.resize k drv2 = .ok (4, d1)) ∧
      (∀ reqs : List (Nat × CommandPoolDriver),
        d1.resizeSeq reqs = .ok (List.replicate reqs.length 4, d1)) :=
  resize_fixed_after_first 4 goodDriver (by decide) (by decide) (by decide) (by decide)

/-! ## ID bitsets of VkParserVideoPictureParameters -/

/-- C19: adding the ID `x` of kind `k`, with `x` below the bound of the kind
(16 for VPS, 32 for SPS, 256 for PPS), makes the query of kind `k` answer true
for `x`, leaves the answers of the queries of the other kinds as they were for
every ID, and leaves the answers of kind `k` for the other IDs as they were; a
newly constructed object answers false to every query. -/
theorem parameter_ids_spec (o : VkParserVideoPictureParameters) (k : ParameterSetKind)
    (x : Nat) (_hx : x < k.maxIds) :
    (o.addParameterSetId k x).hasId k x = true ∧
      (∀ (k2 : ParameterSetKind) (y : Nat), k2 ≠ k →
        (o.addParameterSetId k x).hasId k2 y = o.hasId k2 y) ∧
      (∀ y : Nat, y ≠ x → (o.addParameterSetId k x).hasId k y = o.hasId k y) ∧
      (∀ (k2 : ParameterSetKind) (y : Nat),
        VkParserVideoPictureParameters.ctor.hasId k2 y = false) := by
  refine ⟨?_, ?_, ?_, ?_⟩
  · cases k <;>
      simp [VkParserVideoPictureParameters.addParameterSetId,
        VkParserVideoPictureParameters.hasId, VkParserVideoPictureParameters.HasVpsId,
        VkParserVideoPictureParameters.HasSpsId, VkParserVideoPictureParameters.HasPpsId,
        testBit_lor_two_pow]
  · intro k2 y hk
    cases k <;> cases k2 <;>
      first
      | exact absurd rfl hk
      | rfl
  · intro y hy
    cases k <;>
      simp [VkParserVideoPictureParameters.addParameterSetId,
        VkParserVideoPictureParameters.hasId, VkParserVideoPictureParameters.HasVpsId,
        VkParserVideoPictureParameters.HasSpsId, VkParserVideoPictureParameters.HasPpsId,
        testBit_lor_two_pow, Ne.symm hy]
  · intro k2 y
    cases k2 <;>
      simp [VkParserVideoPictureParameters.ctor, VkParserVideoPictureParameters.hasId,
        VkParserVideoPictureParameters.HasVpsId, VkParserVideoPictureParameters.HasSpsId,
        VkParserVideoPictureParameters.HasPpsId]

/-- Witness of C19: SPS ID 5 added to a new object. -/
theorem parameter_ids_spec_witness :
    (VkParserVideoPictureParameters.ctor.addParameterSetId .sps 5).HasSpsId 5 = true ∧
      (VkParserVideoPictureParameters.ctor.addParameterSetId .sps 5).HasPpsId 5 = false :=
  have h := parameter_ids_spec VkParserVideoPictureParameters.ctor .sps 5 (by decide)
  ⟨h.1, by rw [show (VkParserVideoPictureParameters.ctor.addParameterSetId .sps 5).HasPpsId 5 =
      (VkParserVideoPictureParameters.ctor.addParameterSetId .sps 5).hasId .pps 5 from rfl,
      h.2.1 .pps 5 (by decide)]; exact h.2.2.2 .pps 5⟩

/-! ## matchWildcards -/

lemma skipCommon_spec (p : List Char) : ∀ s : List Char,
    ∃ l, p = l ++ (skipCommon p s).1 ∧ s = l ++ (skipCommon p s).2 ∧
      (∀ c next d rest, (skipCommon p s).1 = c :: next → (skipCommon p s).2 = d :: rest →
        c ≠ d) := by
  induction p with
  | nil =>
    intro s
    refine ⟨[], ?_, ?_, ?_⟩
    · cases s <;> simp [skipCommon]
    · cases s <;> simp [skipCommon]
    · intro c next d rest h
      cases s <;> simp [skipCommon] at h
  | cons c p ih =>
    intro s
    cases s with
    | nil =>
      refine ⟨[], by simp [skipCommon], by simp [skipCommon], ?_⟩
      intro c2 next d rest _ h
      simp [skipCommon] at h
    | cons d s =>
      by_cases hcd : c = d
      · subst hcd
        obtain ⟨l, h1, h2, h3⟩ := ih s
        refine ⟨c :: l, ?_, ?_, ?_⟩
        · simp only [skipCommon, if_true, List.cons_append]
          rw [← h1]
        · simp only [skipCommon, if_true, List.cons_append]
          rw [← h2]
        · simp only [skipCommon, if_true]
          exact h3
      · refine ⟨[], by simp [skipCommon, hcd], by simp [skipCommon, hcd], ?_⟩
        intro c2 next d2 rest h1 h2
        simp only [skipCommon, if_neg hcd, List.cons.injEq] at h1 h2
        rw [← h1.1, ← h2.1]
        exact hcd

lemma skipCommon_length (p s : List Char) : (skipCommon p s).1.length ≤ p.length := by
  obtain ⟨l, h1, _, _⟩ := skipCommon_spec p s
  have := congrArg List.length h1
  rw [List.length_append] at this
  omega

lemma matchWildcardsAux_succ (fuel : Nat) (p s : List Char) (a : Bool) :
    matchWildcardsAux (fuel + 1) p s a =
      match skipCommon p s with
      | ([], path) => path.isEmpty
      | (c :: patternNext, path) =>
        if c = '*' then
          (match patternNext with
            | [] => false
            | n :: _ =>
              (pathPositions path).any (fun rest =>
                decide (rest.head? = some n) &&
                  matchWildcardsAux fuel patternNext rest a)) ||
            matchWildcardsAux fuel patternNext [] a
        else if path.isEmpty && a then true
        else false := by
  rw [matchWildcardsAux]

lemma matchWildcardsAux_fuel (f1 : Nat) : ∀ (f2 : Nat) (p s : List Char) (a : Bool),
    p.length < f1 → p.length < f2 →
      matchWildcardsAux f1 p s a = matchWildcardsAux f2 p s a := by
  induction f1 with
  | zero => intro f2 p s a h; omega
  | succ f1 ih =>
    intro f2 p s a h1 h2
    obtain ⟨g2, rfl⟩ : ∃ g2, f2 = g2 + 1 := ⟨f2 - 1, by omega⟩
    rw [matchWildcardsAux_succ, matchWildcardsAux_succ]
    have hlen := skipCommon_length p s
    generalize skipCommon p s = r at hlen
    obtain ⟨pat, path⟩ := r
    cases pat with
    | nil => rfl
    | cons c next =>
      have hn1 : next.length < f1 := by simp at hlen; omega
      have hn2 : next.length < g2 := by simp at hlen; omega
      have hfun : (fun rest => matchWildcardsAux f1 next rest a) =
          (fun rest => matchWildcardsAux g2 next rest a) := by
        funext rest
        exact ih g2 next rest a hn1 hn2
      simp only [ih g2 next [] a hn1 hn2]
      cases next with
      | nil => rfl
      | cons n r =>
        simp only
        rw [show (fun rest => decide (rest.head? = some n) &&
              matchWildcardsAux f1 (n :: r) rest a) =
            (fun rest => decide (rest.head? = some n) &&
              matchWildcardsAux g2 (n :: r) rest a) from by
          funext rest
          rw [ih g2 (n :: r) rest a hn1 hn2]]

lemma matchWildcards_of_nil (p s path : List Char) (a : Bool)
    (h : skipCommon p s = ([], path)) : matchWildcards p s a = path.isEmpty := by
  unfold matchWildcards
  rw [matchWildcardsAux_succ, h]

lemma matchWildcards_nil_nil (a : Bool) : matchWildcards [] [] a = true := by
  rfl

lemma matchWildcards_of_lit (p s next path : List Char) (c : Char) (a : Bool)
    (h : skipCommon p s = (c :: next, path)) (hc : c ≠ '*') :
    matchWildcards p s a = (path.isEmpty && a) := by
  unfold matchWildcards
  rw [matchWildcardsAux_succ, h]
  simp only [if_neg hc]
  cases path.isEmpty && a <;> rfl

lemma matchWildcards_of_star_end (p s path : List Char) (a : Bool)
    (h : skipCommon p s = (['*'], path)) : matchWildcards p s a = true := by
  have hlen := skipCommon_length p s
  rw [h] at hlen
  simp only [List.length_singleton] at hlen
  unfold matchWildcards
  rw [matchWildcardsAux_succ, h]
  simp only [if_true, Bool.false_or]
  rw [matchWildcardsAux_fuel p.length 1 [] [] a (by simpa using hlen) (by simp)]
  rfl

lemma matchWildcards_of_star (p s r path : List Char) (n : Char) (a : Bool)
    (h : skipCommon p s = ('*' :: n :: r, path)) :
    matchWildcards p s a =
      ((pathPositions path).any (fun rest =>
          decide (rest.head? = some n) && matchWildcards (n :: r) rest a) ||
        matchWildcards (n :: r) [] a) := by
  have hlen := skipCommon_length p s
  rw [h] at hlen
  simp only [List.length_cons] at hlen
  unfold matchWildcards
  rw [matchWildcardsAux_succ, h]
  simp only [if_true]
  have hf : ∀ rest, matchWildcardsAux p.length (n :: r) rest a =
      matchWildcardsAux ((n :: r).length + 1) (n :: r) rest a := by
    intro rest
    exact matchWildcardsAux_fuel _ _ _ _ _ (by simp; omega) (by simp)
  rw [hf []]
  congr 2
  funext rest
  rw [hf rest]
lemma StarSubst_nil_iff (s : List Char) : StarSubst [] s ↔ s = [] := by
  constructor
  · intro h
    cases h
    rfl
  · intro h
    rw [h]
    exact StarSubst.nil

lemma StarSubst_lit_iff {c : Char} (hc : c ≠ '*') (p s : List Char) :
    StarSubst (c :: p) s ↔ ∃ s2, s = c :: s2 ∧ StarSubst p s2 := by
  constructor
  · intro h
    cases h with
    | lit _ h2 => exact ⟨_, rfl, h2⟩
    | star u h2 => exact absurd rfl hc
  · rintro ⟨s2, rfl, h⟩
    exact StarSubst.lit hc h

lemma StarSubst_star_iff (p s : List Char) :
    StarSubst ('*' :: p) s ↔ ∃ u t, s = u ++ t ∧ StarSubst p t := by
  constructor
  · intro h
    cases h with
    | lit hc _ => exact absurd rfl hc
    | star u h2 => exact ⟨u, _, rfl, h2⟩
  · rintro ⟨u, t, rfl, h⟩
    exact StarSubst.star u h

lemma StarSubst_append_left (l : List Char) (hl : '*' ∉ l) (p s : List Char) :
    StarSubst (l ++ p) (l ++ s) ↔ StarSubst p s := by
  induction l with
  | nil => simp
  | cons c l ih =>
    have hc : c ≠ '*' := fun h => hl (by rw [h]; exact List.mem_cons_self _ _)
    have hl2 : '*' ∉ l := fun h => hl (List.mem_cons_of_mem _ h)
    rw [List.cons_append, List.cons_append, StarSubst_lit_iff hc]
    constructor
    · rintro ⟨s2, h1, h2⟩
      rw [List.cons.injEq] at h1
      rw [← h1.2] at h2
      exact (ih hl2).mp h2
    · intro h
      exact ⟨_, rfl, (ih hl2).mpr h⟩

lemma mem_pathPositions (s t : List Char) :
    t ∈ pathPositions s ↔ t ≠ [] ∧ ∃ u, s = u ++ t := by
  induction s with
  | nil =>
    simp only [pathPositions, List.not_mem_nil, false_iff, not_and, not_exists]
    intro ht u hu
    have := congrArg List.length hu
    simp only [List.length_nil, List.length_append] at this
    exact ht (List.length_eq_zero.mp (by omega))
  | cons d s ih =>
    simp only [pathPositions, List.mem_cons, ih]
    constructor
    · rintro (h | ⟨h1, u, h2⟩)
      · rw [h]
        exact ⟨by simp, [], rfl⟩
      · exact ⟨h1, d :: u, by rw [h2]; rfl⟩
    · rintro ⟨h1, u, h2⟩
      cases u with
      | nil => left; simpa using h2.symm
      | cons e u =>
        right
        rw [List.cons_append, List.cons.injEq] at h2
        exact ⟨h1, u, h2.2⟩

lemma noAdjacentStars_iff (p : List Char) :
    noAdjacentStars p = true ↔ p.Chain' (fun a b => ¬ (a = '*' ∧ b = '*')) := by
  induction p with
  | nil => simp [noAdjacentStars]
  | cons a p ih =>
    cases p with
    | nil => simp [noAdjacentStars]
    | cons b rest =>
      rw [List.chain'_cons, ← ih]
      simp only [noAdjacentStars, Bool.and_eq_true, Bool.not_eq_true', Bool.and_eq_false_imp,
        decide_eq_true_eq, decide_eq_false_iff_not, not_and]

lemma matchWildcards_iff_aux (n : Nat) : ∀ (p s : List Char), p.length ≤ n →
    p.Chain' (fun a b => ¬ (a = '*' ∧ b = '*')) → '*' ∉ s →
    (matchWildcards p s false = true ↔ StarSubst p s) := by
  induction n with
  | zero =>
    intro p s hlen _ _
    have hp : p = [] := List.length_eq_zero.mp (by omega)
    subst hp
    have hsk : skipCommon [] s = ([], s) := by cases s <;> rfl
    rw [matchWildcards_of_nil [] s s false hsk, StarSubst_nil_iff]
    cases s <;> simp
  | succ n ih =>
    intro p s hlen hadj hs
    obtain ⟨l, h1, h2, h3⟩ := skipCommon_spec p s
    have hlen2 := skipCommon_length p s
    generalize hsk : skipCommon p s = r at h1 h2 h3 hlen2
    obtain ⟨pat, path⟩ := r
    simp only at h1 h2 h3 hlen2
    have hl : '*' ∉ l := fun h => hs (by rw [h2]; exact List.mem_append_left _ h)
    have hpath : '*' ∉ path := fun h => hs (by rw [h2]; exact List.mem_append_right _ h)
    have hadj2 : pat.Chain' (fun a b => ¬ (a = '*' ∧ b = '*')) := by
      rw [h1] at hadj
      exact hadj.right_of_append
    have hcancel : StarSubst p s ↔ StarSubst pat path := by
      rw [h1, h2]
      exact StarSubst_append_left l hl pat path
    rw [hcancel]
    cases pat with
    | nil =>
      rw [matchWildcards_of_nil p s path false hsk, StarSubst_nil_iff]
      cases path <;> simp
    | cons c next =>
      by_cases hc : c = '*'
      · subst hc
        cases next with
        | nil =>
          rw [matchWildcards_of_star_end p s path false hsk]
          simp only [true_iff]
          have := StarSubst.star path StarSubst.nil
          simpa using this
        | cons m r =>
          have hm : m ≠ '*' := by
            rw [List.chain'_cons] at hadj2
            intro h
            exact hadj2.1 ⟨rfl, h⟩
          have hadj3 : (m :: r).Chain' (fun a b => ¬ (a = '*' ∧ b = '*')) := hadj2.tail
          have hlen3 : (m :: r).length ≤ n := by
            simp only [List.length_cons] at hlen2 ⊢
            omega
          rw [matchWildcards_of_star p s r path m false hsk, StarSubst_star_iff]
          have hempty : matchWildcards (m :: r) [] false = false := by
            cases hv : matchWildcards (m :: r) [] false
            · rfl
            · have := (ih (m :: r) [] hlen3 hadj3 (by simp)).mp hv
              obtain ⟨s2, h4, _⟩ := (StarSubst_lit_iff hm r []).mp this
              exact absurd h4 (by simp)
          rw [hempty, Bool.or_false, List.any_eq_true]
          constructor
          · rintro ⟨t, ht, hmt⟩
            obtain ⟨_, u, hu⟩ := (mem_pathPositions path t).mp ht
            simp only [Bool.and_eq_true, decide_eq_true_eq] at hmt
            have hts : '*' ∉ t := fun h => hpath (by rw [hu]; exact List.mem_append_right _ h)
            exact ⟨u, t, hu, (ih (m :: r) t hlen3 hadj3 hts).mp hmt.2⟩
          · rintro ⟨u, t, hu, hsub⟩
            have hts : '*' ∉ t := fun h => hpath (by rw [hu]; exact List.mem_append_right _ h)
            obtain ⟨t2, ht2, _⟩ := (StarSubst_lit_iff hm r t).mp hsub
            refine ⟨t, (mem_pathPositions path t).mpr ⟨by rw [ht2]; simp, u, hu⟩, ?_⟩
            simp only [Bool.and_eq_true, decide_eq_true_eq]
            exact ⟨by rw [ht2]; rfl, (ih (m :: r) t hlen3 hadj3 hts).mpr hsub⟩
      · rw [matchWildcards_of_lit p s next path c false hsk hc, StarSubst_lit_iff hc]
        simp only [Bool.and_false, Bool.false_eq_true, false_iff, not_exists, not_and]
        intro s2 hs2
        exact absurd rfl (h3 c next c s2 rfl hs2)

lemma matchWildcards_iff (p s : List Char) (hadj : noAdjacentStars p = true) (hs : '*' ∉ s) :
    matchWildcards p s false = true ↔ StarSubst p s :=
  matchWildcards_iff_aux p.length p s (Nat.le_refl _) ((noAdjacentStars_iff p).mp hadj) hs

lemma matchWildcards_literal (p s : List Char) (hp : '*' ∉ p) :
    matchWildcards p s false = true ↔ s = p := by
  obtain ⟨l, h1, h2, h3⟩ := skipCommon_spec p s
  generalize hsk : skipCommon p s = r at h1 h2 h3
  obtain ⟨pat, path⟩ := r
  simp only at h1 h2 h3
  cases pat with
  | nil =>
    rw [matchWildcards_of_nil p s path false hsk, h1, h2]
    cases path <;> simp
  | cons c next =>
    have hc : c ≠ '*' := by
      intro h
      apply hp
      rw [h1, h]
      exact List.mem_append_right _ (List.mem_cons_self _ _)
    rw [matchWildcards_of_lit p s next path c false hsk hc]
    simp only [Bool.and_false, Bool.false_eq_true, false_iff]
    intro heq
    rw [h1, h2] at heq
    have h4 := List.append_cancel_left heq
    exact h3 c next c next rfl h4 rfl

/-- C20: for a pattern without two adjacent `*` and a path without `*`,
`matchWildcards(pattern, path, false)` is true if and only if the path is the
pattern with each `*` replaced by some, possibly empty, string; a pattern
without `*` matches exactly the path equal to it (whatever the path); and
`CasePaths::matches(name, false)` over such patterns is true if and only if at
least one of the patterns matches the name in this sense. -/
theorem matchWildcards_spec (pattern path : List Char) (hadj : noAdjacentStars pattern = true)
    (hpath : '*' ∉ path) :
    (matchWildcards pattern path false = true ↔ StarSubst pattern path) ∧
      (∀ (literal anyPath : List Char), '*' ∉ literal →
        (matchWildcards literal anyPath false = true ↔ anyPath = literal)) ∧
      (∀ cp : CasePaths, (∀ q ∈ cp.m_casePatterns, noAdjacentStars q = true) →
        (cp.matches path false = true ↔ ∃ q ∈ cp.m_casePatterns, StarSubst q path)) := by
  refine ⟨matchWildcards_iff pattern path hadj hpath,
    fun literal anyPath h => matchWildcards_literal literal anyPath h, ?_⟩
  intro cp hcp
  unfold CasePaths.matches
  rw [List.any_eq_true]
  constructor
  · rintro ⟨q, hq, hm⟩
    exact ⟨q, hq, (matchWildcards_iff q path (hcp q hq) hpath).mp hm⟩
  · rintro ⟨q, hq, hm⟩
    exact ⟨q, hq, (matchWildcards_iff q path (hcp q hq) hpath).mpr hm⟩

/-- Witness of C20: the pattern `dEQP-GLES2.info.*` of the help text and the
case name `dEQP-GLES2.info.version`. -/
theorem matchWildcards_spec_witness :
    noAdjacentStars "dEQP-GLES2.info.*".toList = true ∧
      '*' ∉ "dEQP-GLES2.info.version".toList ∧
      StarSubst "dEQP-GLES2.info.*".toList "dEQP-GLES2.info.version".toList :=
  ⟨by decide, by decide,
    (matchWildcards_spec "dEQP-GLES2.info.*".toList "dEQP-GLES2.info.version".toList
      (by decide) (by decide)).1.mp (by decide)⟩

/-! ## Case fraction -/

lemma checkCaseFraction_pair (f : CaseListFilter) (N M i : Int) (name : List Char)
    (hf : f.m_caseFraction = [N, M]) (hm : f.m_caseFractionMandatoryTests = none) :
    f.checkCaseFraction i name = decide (Int.tmod i M = N) := by
  simp [CaseListFilter.checkCaseFraction, hf, hm]

/-- C21: for a filter whose case fraction is `(N, M)` with `0 <= N < M` and
which has no mandatory-case list, `checkCaseFraction(i, name)` is true if and
only if `i mod M = N`, for every `i >= 0` and every name; so for a fixed `M`
the index `i` is selected by the fraction `(K, M)` exactly for the one `K` in
`[0, M)` that is `i mod M`; and a filter without a fraction selects every
index. -/
theorem checkCaseFraction_spec (f : CaseListFilter) (N M i : Int) (name : List Char)
    (hf : f.m_caseFraction = [N, M]) (hm : f.m_caseFractionMandatoryTests = none)
    (hN : 0 ≤ N) (hNM : N < M) (hi : 0 ≤ i) :
    (f.checkCaseFraction i name = true ↔ i % M = N) ∧
      (0 ≤ i % M ∧ i % M < M) ∧
      (∀ K : Int, 0 ≤ K → K < M →
        (({ f with m_caseFraction := [K, M] } : CaseListFilter).checkCaseFraction i name = true ↔
          K = i % M)) ∧
      (∀ (g : CaseListFilter) (j : Int), g.m_caseFraction = [] →
        g.checkCaseFraction j name = true) := by
  have hM : 0 < M := by omega
  have ht : Int.tmod i M = i % M := Int.tmod_eq_emod hi (by omega)
  refine ⟨?_, ⟨Int.emod_nonneg i (by omega), Int.emod_lt_of_pos i hM⟩, ?_, ?_⟩
  · rw [checkCaseFraction_pair f N M i name hf hm, ht]
    simp
  · intro K _ _
    have hg : ({ f with m_caseFraction := [K, M] } : CaseListFilter).checkCaseFraction i name =
        decide (Int.tmod i M = K) := checkCaseFraction_pair _ K M i name rfl hm
    rw [hg, ht]
    simp only [decide_eq_true_eq]
    exact eq_comm
  · intro g j hg
    simp [CaseListFilter.checkCaseFraction, hg]

/-- Witness of C21: the fraction (1, 3) selects index 7 and not index 8. -/
theorem checkCaseFraction_spec_witness :
    (({ m_caseTree := none, m_casePaths := none, m_caseFraction := [1, 3],
        m_caseFractionMandatoryTests := none } : CaseListFilter).checkCaseFraction 7 [] = true ↔
      (7 : Int) % 3 = 1) :=
  (checkCaseFraction_spec
    { m_caseTree := none, m_casePaths := none, m_caseFraction := [1, 3],
      m_caseFractionMandatoryTests := none } 1 3 7 [] rfl rfl (by decide) (by decide)
    (by decide)).1

lemma ctorCaseFraction_error_iff (l : List Int) :
    (∃ e, CaseListFilter.ctorCaseFraction false l = .error e) ↔
      ((l.length ≠ 0 ∧ l.length ≠ 2) ∨
        (l.length = 2 ∧ (l.getD 0 0 < 0 ∨ l.getD 1 0 ≤ 0 ∨ l.getD 0 0 ≥ l.getD 1 0))) := by
  simp only [CaseListFilter.ctorCaseFraction, Bool.not_false, if_true]
  by_cases h1 : l.length = 2 ∧ (l.getD 0 0 < 0 ∨ l.getD 1 0 ≤ 0 ∨ l.getD 0 0 ≥ l.getD 1 0)
  · rw [if_pos h1]
    constructor
    · intro _
      exact Or.inr h1
    · intro _
      exact ⟨_, rfl⟩
  · rw [if_neg h1]
    by_cases h2 : l.length ≠ 0 ∧ l.length ≠ 2
    · rw [if_pos h2]
      constructor
      · intro _
        exact Or.inl h2
      · intro _
        exact ⟨_, rfl⟩
    · rw [if_neg h2]
      constructor
      · rintro ⟨e, he⟩
        exact Except.noConfusion he
      · rintro (h | h)
        · exact absurd h h2
        · exact absurd h h1

lemma ctorCaseFraction_ok (subProcess : Bool) (l m : List Int)
    (h : CaseListFilter.ctorCaseFraction subProcess l = .ok m) :
    (m.length = 0 ∨ (m.length = 2 ∧ 0 ≤ m.getD 0 0 ∧ m.getD 0 0 < m.getD 1 0)) ∧
      m = (if subProcess then [] else l) := by
  cases subProcess
  · simp only [CaseListFilter.ctorCaseFraction, Bool.not_false, if_true] at h
    by_cases h1 : l.length = 2 ∧ (l.getD 0 0 < 0 ∨ l.getD 1 0 ≤ 0 ∨ l.getD 0 0 ≥ l.getD 1 0)
    · rw [if_pos h1] at h
      exact Except.noConfusion h
    · rw [if_neg h1] at h
      by_cases h2 : l.length ≠ 0 ∧ l.length ≠ 2
      · rw [if_pos h2] at h
        exact Except.noConfusion h
      · rw [if_neg h2] at h
        injection h with h
        subst h
        refine ⟨?_, by simp⟩
        by_cases h3 : l.length = 2
        · right
          refine ⟨h3, ?_⟩
          have h4 := not_and.mp h1 h3
          omega
        · left
          by_contra h4
          exact h2 ⟨h4, h3⟩
  · have h5 : CaseListFilter.ctorCaseFraction true l = .ok [] := by
      simp [CaseListFilter.ctorCaseFraction]
    rw [h5] at h
    injection h with h
    subst h
    exact ⟨Or.inl rfl, by simp⟩

lemma ctorCaseFraction_error_iff_invalid (l : List Int) :
    (∃ e, CaseListFilter.ctorCaseFraction false l = .error e) ↔ invalidCaseFraction l :=
  ctorCaseFraction_error_iff l

lemma ctorMandatoryTests_no_file (env : FilterEnv) (cmdLine : CommandLine)
    (tree : Option CaseTreeNode) (fraction : List Int)
    (h : cmdLine.CaseFractionMandatoryTests = []) :
    CaseListFilter.ctorMandatoryTests env cmdLine tree fraction = .ok (none, tree) := by
  unfold CaseListFilter.ctorMandatoryTests
  rw [h]
  simp

lemma ctor_of_source_error (murmur : List Char → Nat) (isValid : Char → Bool) (env : FilterEnv)
    (cmdLine : CommandLine) (e : String)
    (h1 : CaseListFilter.ctorCaseSource murmur isValid env cmdLine = .error e) :
    CaseListFilter.ctor murmur isValid env cmdLine = .error e := by
  unfold CaseListFilter.ctor
  rw [h1]

lemma ctor_of_fraction_error (murmur : List Char → Nat) (isValid : Char → Bool)
    (env : FilterEnv) (cmdLine : CommandLine) (r : Option CaseTreeNode × Option CasePaths)
    (e : String) (h1 : CaseListFilter.ctorCaseSource murmur isValid env cmdLine = .ok r)
    (h2 : CaseListFilter.ctorCaseFraction cmdLine.SubProcess cmdLine.CaseFraction = .error e) :
    CaseListFilter.ctor murmur isValid env cmdLine = .error e := by
  unfold CaseListFilter.ctor
  rw [h1]
  dsimp only
  rw [h2]

lemma ctor_of_mandatory_error (murmur : List Char → Nat) (isValid : Char → Bool)
    (env : FilterEnv) (cmdLine : CommandLine) (r : Option CaseTreeNode × Option CasePaths)
    (fraction : List Int) (e : String)
    (h1 : CaseListFilter.ctorCaseSource murmur isValid env cmdLine = .ok r)
    (h2 : CaseListFilter.ctorCaseFraction cmdLine.SubProcess cmdLine.CaseFraction =
      .ok fraction)
    (h3 : CaseListFilter.ctorMandatoryTests env cmdLine r.1 fraction = .error e) :
    CaseListFilter.ctor murmur isValid env cmdLine = .error e := by
  unfold CaseListFilter.ctor
  rw [h1]
  dsimp only
  rw [h2]
  dsimp only
  rw [h3]

lemma ctor_of_ok (murmur : List Char → Nat) (isValid : Char → Bool)
    (env : FilterEnv) (cmdLine : CommandLine) (r : Option CaseTreeNode × Option CasePaths)
    (fraction : List Int) (r3 : Option CasePaths × Option CaseTreeNode)
    (h1 : CaseListFilter.ctorCaseSource murmur isValid env cmdLine = .ok r)
    (h2 : CaseListFilter.ctorCaseFraction cmdLine.SubProcess cmdLine.CaseFraction =
      .ok fraction)
    (h3 : CaseListFilter.ctorMandatoryTests env cmdLine r.1 fraction = .ok r3) :
    CaseListFilter.ctor murmur isValid env cmdLine =
      .ok { m_caseTree := r3.2, m_casePaths := r.2, m_caseFraction := fraction,
            m_caseFractionMandatoryTests := r3.1 } := by
  unfold CaseListFilter.ctor
  rw [h1]
  dsimp only
  rw [h2]
  dsimp only
  rw [h3]

lemma ctor_error_iff (murmur : List Char → Nat) (isValid : Char → Bool) (env : FilterEnv)
    (cmdLine : CommandLine) :
    (∃ e, CaseListFilter.ctor murmur isValid env cmdLine = .error e) ↔
      ((∃ e, CaseListFilter.ctorCaseSource murmur isValid env cmdLine = .error e) ∨
        (∃ e, CaseListFilter.ctorCaseFraction cmdLine.SubProcess cmdLine.CaseFraction =
          .error e) ∨
        (∃ tree paths fraction e,
          CaseListFilter.ctorCaseSource murmur isValid env cmdLine = .ok (tree, paths) ∧
          CaseListFilter.ctorCaseFraction cmdLine.SubProcess cmdLine.CaseFraction =
            .ok fraction ∧
          CaseListFilter.ctorMandatoryTests env cmdLine tree fraction = .error e)) := by
  obtain ⟨r1, h1⟩ : ∃ r1, CaseListFilter.ctorCaseSource murmur isValid env cmdLine = r1 :=
    ⟨_, rfl⟩
  obtain ⟨r2, h2⟩ : ∃ r2,
    CaseListFilter.ctorCaseFraction cmdLine.SubProcess cmdLine.CaseFraction = r2 := ⟨_, rfl⟩
  cases r1 with
  | error e1 =>
    constructor
    · intro _
      exact Or.inl ⟨e1, h1⟩
    · intro _
      exact ⟨e1, ctor_of_source_error murmur isValid env cmdLine e1 h1⟩
  | ok r =>
    cases r2 with
    | error e2 =>
      constructor
      · intro _
        exact Or.inr (Or.inl ⟨e2, h2⟩)
      · intro _
        exact ⟨e2, ctor_of_fraction_error murmur isValid env cmdLine r e2 h1 h2⟩
    | ok fraction =>
      obtain ⟨r3, h3⟩ : ∃ r3,
        CaseListFilter.ctorMandatoryTests env cmdLine r.1 fraction = r3 := ⟨_, rfl⟩
      cases r3 with
      | error e3 =>
        constructor
        · intro _
          exact Or.inr (Or.inr ⟨r.1, r.2, fraction, e3, h1, h2, h3⟩)
        · intro _
          exact ⟨e3, ctor_of_mandatory_error murmur isValid env cmdLine r fraction e3 h1 h2 h3⟩
      | ok r3 =>
        have hok := ctor_of_ok murmur isValid env cmdLine r fraction r3 h1 h2 h3
        constructor
        · rintro ⟨e, he⟩
          rw [hok] at he
          exact Except.noConfusion he
        · rintro (⟨e, he⟩ | ⟨e, he⟩ | ⟨t, p, f, e, ht, hf, he⟩)
          · rw [h1] at he
            exact Except.noConfusion he
          · rw [h2] at he
            exact Except.noConfusion he
          · rw [h1] at ht
            rw [h2] at hf
            injection ht with ht
            injection hf with hf
            subst hf
            have ht1 : r.1 = t := congrArg Prod.fst ht
            rw [← ht1, h3] at he
            exact Except.noConfusion he

lemma ctor_ok_fraction (murmur : List Char → Nat) (isValid : Char → Bool) (env : FilterEnv)
    (cmdLine : CommandLine) (f : CaseListFilter)
    (h : CaseListFilter.ctor murmur isValid env cmdLine = .ok f) :
    CaseListFilter.ctorCaseFraction cmdLine.SubProcess cmdLine.CaseFraction =
      .ok f.m_caseFraction := by
  obtain ⟨r1, h1⟩ : ∃ r1, CaseListFilter.ctorCaseSource murmur isValid env cmdLine = r1 :=
    ⟨_, rfl⟩
  obtain ⟨r2, h2⟩ : ∃ r2,
    CaseListFilter.ctorCaseFraction cmdLine.SubProcess cmdLine.CaseFraction = r2 := ⟨_, rfl⟩
  cases r1 with
  | error e1 =>
    rw [ctor_of_source_error murmur isValid env cmdLine e1 h1] at h
    exact Except.noConfusion h
  | ok r =>
    cases r2 with
    | error e2 =>
      rw [ctor_of_fraction_error murmur isValid env cmdLine r e2 h1 h2] at h
      exact Except.noConfusion h
    | ok fraction =>
      obtain ⟨r3, h3⟩ : ∃ r3,
        CaseListFilter.ctorMandatoryTests env cmdLine r.1 fraction = r3 := ⟨_, rfl⟩
      cases r3 with
      | error e3 =>
        rw [ctor_of_mandatory_error murmur isValid env cmdLine r fraction e3 h1 h2 h3] at h
        exact Except.noConfusion h
      | ok r3 =>
        rw [ctor_of_ok murmur isValid env cmdLine r fraction r3 h1 h2 h3] at h
        injection h with h
        rw [h2, ← h]

/-- Counterexample to C22 as stated: the command line
`--deqp-caselist={} --deqp-fraction=0,2` is not in sub-process mode and its
fraction `(0, 2)` is valid, yet the constructor throws, because the case list
does not parse (`Empty node name`). -/
theorem CaseListFilter_ctor_throws_with_valid_fraction :
    emptyTrieCommandLine.SubProcess = false ∧
      ¬ invalidCaseFraction emptyTrieCommandLine.CaseFraction ∧
      CaseListFilter.ctor exampleHash exampleNameChar exampleEnv emptyTrieCommandLine =
        .error "Empty node name" :=
  ⟨rfl, by decide, rfl⟩

/-- C22, amended: outside sub-process mode the constructor of `CaseListFilter`
throws if and only if reading the case list or case paths throws, or the
fraction list has a length other than 0 or 2, or has length 2 with first
element `N < 0`, second element `M <= 0`, or `N >= M`, or reading the file of
mandatory tests throws; so when the case source is read without an exception
and no file of mandatory tests is named, it throws if and only if the fraction
list is invalid in that sense; and in either mode, for every filter whose
construction succeeded `checkCaseFraction` never takes a remainder by zero. -/
theorem CaseListFilter_ctor_spec (murmur : List Char → Nat)
    (isValidTestCaseNameChar : Char → Bool) (env : FilterEnv) (cmdLine : CommandLine) :
    (cmdLine.SubProcess = false →
      ((∃ e, CaseListFilter.ctor murmur isValidTestCaseNameChar env cmdLine = .error e) ↔
        ((∃ e, CaseListFilter.ctorCaseSource murmur isValidTestCaseNameChar env cmdLine =
            .error e) ∨
          invalidCaseFraction cmdLine.CaseFraction ∨
          (∃ tree paths e,
            CaseListFilter.ctorCaseSource murmur isValidTestCaseNameChar env cmdLine =
              .ok (tree, paths) ∧
            CaseListFilter.ctorMandatoryTests env cmdLine tree cmdLine.CaseFraction =
              .error e)))) ∧
      (cmdLine.SubProcess = false →
        (∀ e, CaseListFilter.ctorCaseSource murmur isValidTestCaseNameChar env cmdLine ≠
          .error e) →
        cmdLine.CaseFractionMandatoryTests = [] →
        ((∃ e, CaseListFilter.ctor murmur isValidTestCaseNameChar env cmdLine = .error e) ↔
          invalidCaseFraction cmdLine.CaseFraction)) ∧
      (∀ f, CaseListFilter.ctor murmur isValidTestCaseNameChar env cmdLine = .ok f →
        f.remainderByZero = false ∧
          f.m_caseFraction = (if cmdLine.SubProcess then [] else cmdLine.CaseFraction)) := by
  have hmain := ctor_error_iff murmur isValidTestCaseNameChar env cmdLine
  refine ⟨?_, ?_, ?_⟩
  · intro hsub
    rw [hmain, hsub, ctorCaseFraction_error_iff_invalid]
    constructor
    · rintro (h | h | ⟨tree, paths, fraction, e, h1, h2, h3⟩)
      · exact Or.inl h
      · exact Or.inr (Or.inl h)
      · have hf := (ctorCaseFraction_ok false cmdLine.CaseFraction fraction h2).2
        simp only [Bool.false_eq_true, if_false] at hf
        subst hf
        exact Or.inr (Or.inr ⟨tree, paths, e, h1, h3⟩)
    · rintro (h | h | ⟨tree, paths, e, h1, h3⟩)
      · exact Or.inl h
      · exact Or.inr (Or.inl h)
      · by_cases hinv : invalidCaseFraction cmdLine.CaseFraction
        · exact Or.inr (Or.inl hinv)
        · have hok : CaseListFilter.ctorCaseFraction false cmdLine.CaseFraction =
              .ok cmdLine.CaseFraction := by
            cases hc : CaseListFilter.ctorCaseFraction false cmdLine.CaseFraction with
            | error e2 =>
              exact absurd ((ctorCaseFraction_error_iff_invalid _).mp ⟨e2, hc⟩) hinv
            | ok fraction =>
              have hf := (ctorCaseFraction_ok false cmdLine.CaseFraction fraction hc).2
              simp only [Bool.false_eq_true, if_false] at hf
              rw [hf]
          exact Or.inr (Or.inr ⟨tree, paths, cmdLine.CaseFraction, e, h1, hok, h3⟩)
  · intro hsub hsrc hfile
    rw [hmain, hsub, ctorCaseFraction_error_iff_invalid]
    constructor
    · rintro (⟨e, h⟩ | h | ⟨tree, paths, fraction, e, _, _, h3⟩)
      · exact absurd h (hsrc e)
      · exact h
      · rw [ctorMandatoryTests_no_file env cmdLine tree fraction hfile] at h3
        exact Except.noConfusion h3
    · intro h
      exact Or.inr (Or.inl h)
  · intro f hf
    have hfrac := ctor_ok_fraction murmur isValidTestCaseNameChar env cmdLine f hf
    obtain ⟨h1, h2⟩ := ctorCaseFraction_ok cmdLine.SubProcess cmdLine.CaseFraction
      f.m_caseFraction hfrac
    refine ⟨?_, ?_⟩
    · unfold CaseListFilter.remainderByZero
      rcases h1 with h1 | ⟨h1, h3, h4⟩
      · simp [h1]
      · have h5 : f.m_caseFraction.getD 1 0 ≠ 0 := by omega
        rw [decide_eq_false h5, Bool.and_false]
    · exact h2

/-- Witness of C22: the command line `--deqp-caselist={a{b,c}}
--deqp-fraction=1,3` names no file of mandatory tests and its case list
parses, so the constructor does not throw, and the filter keeps the fraction
`(1, 3)`. -/
theorem CaseListFilter_ctor_spec_witness :
    ¬ (∃ e, CaseListFilter.ctor exampleHash exampleNameChar exampleEnv smallTrieCommandLine =
        .error e) ∧
      (∀ f, CaseListFilter.ctor exampleHash exampleNameChar exampleEnv smallTrieCommandLine =
          .ok f → f.remainderByZero = false ∧ f.m_caseFraction = [1, 3]) :=
  have h := CaseListFilter_ctor_spec exampleHash exampleNameChar exampleEnv smallTrieCommandLine
  ⟨fun he => absurd ((h.2.1 rfl (by
      intro e he2
      have hok : ∃ r, CaseListFilter.ctorCaseSource exampleHash exampleNameChar exampleEnv
          smallTrieCommandLine = .ok r := ⟨_, rfl⟩
      obtain ⟨r, hr⟩ := hok
      rw [hr] at he2
      exact Except.noConfusion he2) rfl).mp he) (by decide),
    fun f hf => h.2.2 f hf⟩

/-! ## IsCompatible and the formats -/

/-- C24: when the requested picture format or the requested reference picture
format differs from the one the session was created with, `IsCompatible`
returns false, whatever the other arguments are. -/
theorem IsCompatible_format_mismatch (s : VulkanVideoSession) (device videoQueueFamily : Nat)
    (pVideoProfile : VkVideoCoreProfile) (pictureFormat : Nat) (maxCodedExtent : VkExtent2D)
    (referencePicturesFormat maxDpbSlots maxActiveReferencePictures : Nat)
    (h : pictureFormat ≠ s.m_createInfo.pictureFormat ∨
      referencePicturesFormat ≠ s.m_createInfo.referencePictureFormat) :
    s.IsCompatible device videoQueueFamily pVideoProfile pictureFormat maxCodedExtent
      referencePicturesFormat maxDpbSlots maxActiveReferencePictures = false := by
  cases hv : s.IsCompatible device videoQueueFamily pVideoProfile pictureFormat maxCodedExtent
      referencePicturesFormat maxDpbSlots maxActiveReferencePictures
  · rfl
  · rw [IsCompatible_iff] at hv
    rcases h with h | h
    · exact absurd hv.2.2.2.2.2.2.2.1 h
    · exact absurd hv.2.2.2.2.2.2.2.2 h

/-- Witness of C24: `session1080p` has formats 3 and 3; a smaller request with
reference picture format 4 is refused. -/
theorem IsCompatible_format_mismatch_witness :
    session1080p.IsCompatible 1 2 h264Baseline 3 { width := 640, height := 480 } 4 1 1 =
      false :=
  IsCompatible_format_mismatch session1080p 1 2 h264Baseline 3 { width := 640, height := 480 }
    4 1 1 (Or.inr (by decide))

/-! ## GetCurrentFrameData -/

/-- C27: when `slotId` is less than the size of the frame-data pool,
`GetCurrentFrameData(slotId, frameDataSlot)` returns `slotId` (as an
`int32_t`, which is `slotId` itself below `2^31`) and leaves
`frameDataSlot.slot = slotId` and `frameDataSlot.commandBuffer` equal to the
command buffer of the pool at index `slotId`; otherwise it returns -1 and
leaves `frameDataSlot` as it was. -/
theorem GetCurrentFrameData_spec (d : VideoBaseDecoder) (slotId : Nat)
    (frameDataSlot : NvVkDecodeFrameDataSlot) :
    (slotId < d.m_decodeFramesData.size →
      (d.GetCurrentFrameData slotId frameDataSlot).1 = toInt32 (slotId : Int) ∧
        (slotId < 2147483648 →
          (d.GetCurrentFrameData slotId frameDataSlot).1 = (slotId : Int)) ∧
        (d.GetCurrentFrameData slotId frameDataSlot).2.slot = slotId ∧
        (d.GetCurrentFrameData slotId frameDataSlot).2.commandBuffer =
          d.m_decodeFramesData.GetCommandBuffer slotId ∧
        d.m_decodeFramesData.m_commandBuffers[slotId]? =
          some (d.GetCurrentFrameData slotId frameDataSlot).2.commandBuffer) ∧
      (¬ slotId < d.m_decodeFramesData.size →
        (d.GetCurrentFrameData slotId frameDataSlot).1 = -1 ∧
          (d.GetCurrentFrameData slotId frameDataSlot).2 = frameDataSlot) := by
  constructor
  · intro h
    have he : d.GetCurrentFrameData slotId frameDataSlot =
        (toInt32 (slotId : Int),
          { slot := slotId, commandBuffer := d.m_decodeFramesData.GetCommandBuffer slotId }) := by
      unfold VideoBaseDecoder.GetCurrentFrameData
      rw [if_pos h]
    rw [he]
    dsimp only
    refine ⟨rfl, ?_, rfl, rfl, ?_⟩
    · intro h2
      exact toInt32_of_range (by omega) (by omega)
    · have h3 : slotId < d.m_decodeFramesData.m_commandBuffers.length := h
      simp [NvVkDecodeFrameData.GetCommandBuffer, List.getD_eq_getElem?_getD,
        List.getElem?_eq_getElem h3]
  · intro h
    have he : d.GetCurrentFrameData slotId frameDataSlot = (-1, frameDataSlot) := by
      unfold VideoBaseDecoder.GetCurrentFrameData
      rw [if_neg h]
    rw [he]
    exact ⟨rfl, rfl⟩

/-- Witness of C27 on `decoderTrigger3`, whose pool has four command
buffers. -/
theorem GetCurrentFrameData_spec_witness :
    (decoderTrigger3.GetCurrentFrameData 2 { slot := 0, commandBuffer := 0 }).1 = 2 ∧
      (decoderTrigger3.GetCurrentFrameData 2 { slot := 0, commandBuffer := 0 }).2 =
        { slot := 2, commandBuffer := 102 } ∧
      (decoderTrigger3.GetCurrentFrameData 4 { slot := 0, commandBuffer := 0 }).1 = -1 :=
  have h := GetCurrentFrameData_spec decoderTrigger3 2 { slot := 0, commandBuffer := 0 }
  have h4 := GetCurrentFrameData_spec decoderTrigger3 4 { slot := 0, commandBuffer := 0 }
  ⟨((h.1 (by decide)).2.1 (by omega)), by decide, (h4.2 (by decide)).1⟩

/-! ## Prefixes of a matched path -/

lemma skipCommon_nil_right (p : List Char) : skipCommon p [] = (p, []) := by
  cases p <;> rfl

lemma skipCommon_cons_ne (c d : Char) (p s : List Char) (h : c ≠ d) :
    skipCommon (c :: p) (d :: s) = (c :: p, d :: s) := by
  simp [skipCommon, h]

lemma skipCommon_cons_self (c : Char) (p s : List Char) :
    skipCommon (c :: p) (c :: s) = skipCommon p s := by
  simp [skipCommon]

lemma matchWildcards_congr (p s q u : List Char) (a : Bool)
    (h : skipCommon p s = skipCommon q u) : matchWildcards p s a = matchWildcards q u a := by
  generalize hr : skipCommon q u = r at h
  obtain ⟨pat, path⟩ := r
  cases pat with
  | nil => rw [matchWildcards_of_nil p s path a h, matchWildcards_of_nil q u path a hr]
  | cons c next =>
    by_cases hc : c = '*'
    · subst hc
      cases next with
      | nil => rw [matchWildcards_of_star_end p s path a h, matchWildcards_of_star_end q u path a hr]
      | cons n r => rw [matchWildcards_of_star p s r path n a h, matchWildcards_of_star q u r path n a hr]
    · rw [matchWildcards_of_lit p s next path c a h hc, matchWildcards_of_lit q u next path c a hr hc]

lemma matchWildcards_cons_self (c : Char) (p s : List Char) (a : Bool) :
    matchWildcards (c :: p) (c :: s) a = matchWildcards p s a :=
  matchWildcards_congr _ _ _ _ a (skipCommon_cons_self c p s)

lemma matchWildcards_empty_path (p : List Char) : matchWildcards p [] true = true := by
  induction p with
  | nil => rfl
  | cons c next ih =>
    have hsk := skipCommon_nil_right (c :: next)
    by_cases hc : c = '*'
    · subst hc
      cases next with
      | nil => exact matchWildcards_of_star_end _ _ _ _ hsk
      | cons n r =>
        rw [matchWildcards_of_star _ _ r [] n true hsk, ih]
        simp
    · rw [matchWildcards_of_lit _ _ next [] c true hsk hc]
      rfl

lemma matchWildcards_of_prefix_aux (p : List Char) : ∀ (s t : List Char), t <+: s →
    matchWildcards p s false = true → matchWildcards p t true = true := by
  induction p with
  | nil =>
    intro s t hts h
    have hsk : skipCommon [] s = ([], s) := by cases s <;> rfl
    rw [matchWildcards_of_nil [] s s false hsk] at h
    have hs : s = [] := List.isEmpty_iff.mp h
    subst hs
    rw [List.prefix_nil.mp hts]
    rfl
  | cons c p ih =>
    intro s t hts h
    cases t with
    | nil => exact matchWildcards_empty_path _
    | cons d t =>
      cases s with
      | nil => simp at hts
      | cons e s =>
        obtain ⟨hde, hts2⟩ := List.cons_prefix_cons.mp hts
        subst hde
        by_cases hcd : c = d
        · subst hcd
          rw [matchWildcards_cons_self] at h ⊢
          exact ih s t hts2 h
        · by_cases hc : c = '*'
          · subst hc
            cases p with
            | nil => exact matchWildcards_of_star_end _ _ _ _ (skipCommon_cons_ne _ _ _ _ hcd)
            | cons n r =>
              rw [matchWildcards_of_star _ _ r (d :: t) n true (skipCommon_cons_ne _ _ _ _ hcd),
                matchWildcards_empty_path]
              simp
          · rw [matchWildcards_of_lit _ _ p (d :: s) c false (skipCommon_cons_ne _ _ _ _ hcd)
              hc] at h
            simp at h

lemma CasePaths_matches_of_prefix_ok (cp : CasePaths) (s t : List Char) (hts : t <+: s)
    (h : cp.matches s false = true) : cp.matches t true = true := by
  unfold CasePaths.matches at h ⊢
  rw [List.any_eq_true] at h ⊢
  obtain ⟨p, hp, hm⟩ := h
  exact ⟨p, hp, matchWildcards_of_prefix_aux p s t hts hm⟩

/-- C28: for every pattern `p` and all strings `s` and `t` with `t` a prefix of
`s`, if `matchWildcards(p, s, allowPrefix = false)` is true then
`matchWildcards(p, t, allowPrefix = true)` is true; hence a `CaseListFilter`
in case-path mode that accepts a test case through `checkTestCaseName` accepts
every prefix of its name, so every ancestor group path, through
`checkTestGroupName`. -/
theorem matchWildcards_prefix_closed (p s t : List Char) (hts : t <+: s)
    (h : matchWildcards p s false = true) :
    matchWildcards p t true = true ∧
      (∀ (murmur : List Char → Nat) (f : CaseListFilter) (cp : CasePaths),
        f.m_casePaths = some cp → f.checkTestCaseName murmur s = true →
          f.checkTestGroupName murmur t = true) := by
  refine ⟨matchWildcards_of_prefix_aux p s t hts h, ?_⟩
  intro murmur f cp hcp hcase
  unfold CaseListFilter.checkTestCaseName at hcase
  unfold CaseListFilter.checkTestGroupName
  rw [hcp] at hcase ⊢
  dsimp only at hcase ⊢
  cases hm : f.m_caseFractionMandatoryTests with
  | none =>
    rw [hm] at hcase
    exact CasePaths_matches_of_prefix_ok cp s t hts hcase
  | some mandatory =>
    rw [hm] at hcase
    dsimp only at hcase ⊢
    cases h1 : cp.matches s false with
    | true =>
      rw [CasePaths_matches_of_prefix_ok cp s t hts h1]
      rfl
    | false =>
      rw [h1] at hcase
      have h2 : mandatory.matches s false = true := by simpa using hcase
      have h3 := CasePaths_matches_of_prefix_ok mandatory s t hts h2
      cases cp.matches t true <;> simp [h3]

/-- Witness of C28: the pattern `a*c` matches the path `abc` and, as a prefix,
the path `ab`. -/
theorem matchWildcards_prefix_closed_witness :
    matchWildcards ['a', '*', 'c'] ['a', 'b'] true = true :=
  (matchWildcards_prefix_closed ['a', '*', 'c'] ['a', 'b', 'c'] ['a', 'b'] (by decide) (by decide)).1

/-! ## Init without reconfiguration -/

lemma slotAt_of_length_le (t : DpbSlots) (i : Nat) (h : t.m_dpb.length ≤ i) :
    t.slotAt i = DpbSlot.zero := by
  simp [DpbSlots.slotAt, List.getD_eq_getElem?_getD, List.getElem?_eq_none h]

lemma invalidateAt_slot_self (w : DpbSlots × RefCounts) (a : Nat) :
    (DpbSlots.invalidateAt w a).1.slotAt a =
      { w.1.slotAt a with m_picBuf := none, m_reserved := false, m_inUse := false } := by
  by_cases h : a < w.1.m_dpb.length
  · exact slotAt_setSlot_self _ _ h
  · have hz := slotAt_of_length_le w.1 a (Nat.le_of_not_lt h)
    have h2 : (DpbSlots.invalidateAt w a).1.m_dpb.length ≤ a := by
      simp only [DpbSlots.invalidateAt, DpbSlots.setSlot, List.length_set]
      omega
    rw [slotAt_of_length_le _ a h2, hz]
    rfl

lemma invalidateAt_slot_ne (w : DpbSlots × RefCounts) {a j : Nat} (h : a ≠ j) :
    (DpbSlots.invalidateAt w a).1.slotAt j = w.1.slotAt j :=
  slotAt_setSlot_ne _ _ h

lemma invalidateAt_length (w : DpbSlots × RefCounts) (a : Nat) :
    (DpbSlots.invalidateAt w a).1.m_dpb.length = w.1.m_dpb.length := by
  simp [DpbSlots.invalidateAt, DpbSlots.setSlot]

lemma invalidateAt_refs (w : DpbSlots × RefCounts) (a q : Nat) :
    (DpbSlots.invalidateAt w a).2 q =
      w.2 q - (if (w.1.slotAt a).m_picBuf = some q then 1 else 0) := by
  unfold DpbSlots.invalidateAt DpbSlot.Invalidate
  dsimp only
  cases hp : (w.1.slotAt a).m_picBuf with
  | none => simp
  | some p =>
    dsimp only
    rw [picRelease_apply]
    by_cases hqp : q = p
    · subst hqp
      simp
    · have : ¬ p = q := fun h => hqp h.symm
      simp [hqp, this]

lemma foldl_invalidateAt_spec (l : List Nat) : l.Nodup → ∀ (w : DpbSlots × RefCounts),
    (∀ i ∈ l, (l.foldl DpbSlots.invalidateAt w).1.slotAt i =
        { w.1.slotAt i with m_picBuf := none, m_reserved := false, m_inUse := false }) ∧
      (l.foldl DpbSlots.invalidateAt w).1.m_dpb.length = w.1.m_dpb.length ∧
      ∀ q, (l.foldl DpbSlots.invalidateAt w).2 q =
        w.2 q - ((l.filter (fun i => decide ((w.1.slotAt i).m_picBuf = some q))).length : Int) := by
  induction l with
  | nil =>
    intro _ w
    refine ⟨fun i hi => absurd hi (List.not_mem_nil i), rfl, fun q => by simp⟩
  | cons a l ih =>
    intro hnd w
    obtain ⟨hal, hnd2⟩ := List.nodup_cons.mp hnd
    rw [List.foldl_cons]
    obtain ⟨h1, h2, h3⟩ := ih hnd2 (DpbSlots.invalidateAt w a)
    obtain ⟨_, _, _, hfr⟩ := foldl_invalidateAt_frame l (DpbSlots.invalidateAt w a)
    refine ⟨?_, ?_, ?_⟩
    · intro i hi
      rcases List.mem_cons.mp hi with hia | hil
      · subst hia
        rw [hfr i hal, invalidateAt_slot_self]
      · have hne : a ≠ i := fun h => hal (h ▸ hil)
        rw [h1 i hil, invalidateAt_slot_ne w hne]
    · rw [h2, invalidateAt_length]
    · intro q
      rw [h3 q, invalidateAt_refs]
      have hcongr : l.filter (fun i =>
          decide (((DpbSlots.invalidateAt w a).1.slotAt i).m_picBuf = some q)) =
          l.filter (fun i => decide ((w.1.slotAt i).m_picBuf = some q)) := by
        apply List.filter_congr
        intro i hi
        have hne : a ≠ i := fun h => hal (h ▸ hi)
        rw [invalidateAt_slot_ne w hne]
      rw [hcongr, List.filter_cons]
      by_cases hp : (w.1.slotAt a).m_picBuf = some q
      · simp only [hp, decide_True, if_true, List.length_cons]
        push_cast
        ring
      · simp only [hp, decide_False, if_false]
        simp

lemma Deinit_spec (t : DpbSlots) (rc : RefCounts)
    (hpast : ∀ i, t.m_dpbMaxSize ≤ i → (t.slotAt i).getPictureResource = none) :
    (t.Deinit rc).1.m_dpbMaxSize = 0 ∧ (t.Deinit rc).1.m_slotInUseMask = 0 ∧
      (t.Deinit rc).1.m_dpbSlotsAvailable = [] ∧
      (∀ i, ((t.Deinit rc).1.slotAt i).m_picBuf = none) ∧
      (∀ q, (t.Deinit rc).2 q = rc q - (t.holders q : Int)) := by
  obtain ⟨h1, _, h3⟩ := foldl_invalidateAt_spec (List.range t.m_dpbMaxSize)
    (List.nodup_range _) (t, rc)
  obtain ⟨_, _, _, hfr⟩ := foldl_invalidateAt_frame (List.range t.m_dpbMaxSize) (t, rc)
  refine ⟨rfl, rfl, rfl, ?_, ?_⟩
  · intro i
    show (((List.range t.m_dpbMaxSize).foldl DpbSlots.invalidateAt (t, rc)).1.slotAt i).m_picBuf =
      none
    by_cases hi : i < t.m_dpbMaxSize
    · rw [h1 i (List.mem_range.mpr hi)]
    · rw [hfr i (fun hmem => hi (List.mem_range.mp hmem))]
      exact hpast i (Nat.le_of_not_lt hi)
  · intro q
    exact h3 q

lemma slotAt_vecResize_picBuf (t : DpbSlots) (n : Nat)
    (h : ∀ i, (t.slotAt i).m_picBuf = none) (i : Nat) :
    ((vecResize t.m_dpb n).getD i DpbSlot.zero).m_picBuf = none := by
  by_cases hi : i < n ∧ i < t.m_dpb.length
  · rw [getD_vecResize t.m_dpb n i hi.1 hi.2]
    exact h i
  · have hz : (vecResize t.m_dpb n).getD i DpbSlot.zero = DpbSlot.zero := by
      unfold vecResize
      rw [List.getD_eq_getElem?_getD]
      by_cases h1 : i < (List.take n t.m_dpb).length
      · rw [List.length_take] at h1
        exact absurd ⟨by omega, by omega⟩ hi
      · rw [List.getElem?_append_right (Nat.le_of_not_lt h1)]
        rw [List.getElem?_replicate]
        split_ifs <;> rfl
    rw [hz]
    rfl

lemma length_vecResize (v : List DpbSlot) (n : Nat) : (vecResize v n).length = n := by
  unfold vecResize
  rw [List.length_append, List.length_take, List.length_replicate]
  omega

lemma Init_fresh_eq (t : DpbSlots) (n : Nat) (rc : RefCounts) :
    ∃ w0 : DpbSlots × RefCounts, w0.1.m_dpbMaxSize = n ∧
      w0.1.m_slotInUseMask = (t.Deinit rc).1.m_slotInUseMask ∧
      w0.1.m_dpb = vecResize (t.Deinit rc).1.m_dpb n ∧ w0.2 = (t.Deinit rc).2 ∧
      t.Init n false rc =
        ((n : Int),
          { ((List.range n).foldl DpbSlots.invalidateAt w0).1 with
            m_dpbSlotsAvailable := List.range n },
          ((List.range n).foldl DpbSlots.invalidateAt w0).2) := by
  let t1 : DpbSlots := { (t.Deinit rc).1 with m_dpbMaxSize := n }
  let t2 : DpbSlots := { t1 with m_dpb := vecResize t1.m_dpb n }
  refine ⟨(t2, (t.Deinit rc).2), rfl, rfl, rfl, rfl, ?_⟩
  obtain ⟨hs, hm, hq, _⟩ := foldl_invalidateAt_frame (List.range n) (t2, (t.Deinit rc).2)
  have hs2 : ((List.range n).foldl DpbSlots.invalidateAt (t2, (t.Deinit rc).2)).1.m_dpbMaxSize =
      n := hs
  have hq2 : ((List.range n).foldl DpbSlots.invalidateAt
      (t2, (t.Deinit rc).2)).1.m_dpbSlotsAvailable = [] := hq
  have hinit : t.Init n false rc =
      ((((List.range' 0 (((List.range' 0 (n - 0)).foldl DpbSlots.invalidateAt
            (t2, (t.Deinit rc).2)).1.m_dpbMaxSize - 0)).foldl
          (fun (t : DpbSlots) dpbIndx =>
            { t with m_dpbSlotsAvailable := t.m_dpbSlotsAvailable ++ [dpbIndx] })
          ((List.range' 0 (n - 0)).foldl DpbSlots.invalidateAt (t2, (t.Deinit rc).2)).1).m_dpbMaxSize :
          Int),
        (List.range' 0 (((List.range' 0 (n - 0)).foldl DpbSlots.invalidateAt
            (t2, (t.Deinit rc).2)).1.m_dpbMaxSize - 0)).foldl
          (fun (t : DpbSlots) dpbIndx =>
            { t with m_dpbSlotsAvailable := t.m_dpbSlotsAvailable ++ [dpbIndx] })
          ((List.range' 0 (n - 0)).foldl DpbSlots.invalidateAt (t2, (t.Deinit rc).2)).1,
        ((List.range' 0 (n - 0)).foldl DpbSlots.invalidateAt (t2, (t.Deinit rc).2)).2) := by
    simp only [DpbSlots.Init, Bool.not_false, if_true, Bool.false_and, Bool.false_eq_true,
      if_false, t2, t1]
  rw [hinit]
  simp only [Nat.sub_zero, ← List.range_eq_range']
  rw [foldl_push, hs2, hq2]
  simp

lemma Init_fresh_aux (t : DpbSlots) (n : Nat) (rc : RefCounts)
    (hn : n ≤ MAX_DPB_REF_AND_SETUP_SLOTS)
    (hpast : ∀ i, t.m_dpbMaxSize ≤ i → (t.slotAt i).getPictureResource = none) :
    (t.Init n false rc).1 = (n : Int) ∧
      (t.Init n false rc).2.1.m_dpbMaxSize = n ∧
      (t.Init n false rc).2.1.m_slotInUseMask = 0 ∧
      (t.Init n false rc).2.1.m_dpb.length = n ∧
      (∀ i, i < n → ((t.Init n false rc).2.1.slotAt i).isInUse = false ∧
        ((t.Init n false rc).2.1.slotAt i).getPictureResource = none) ∧
      (t.Init n false rc).2.1.m_dpbSlotsAvailable = List.range n ∧
      (∀ q, (t.Init n false rc).2.2 q = rc q - (t.holders q : Int)) ∧
      (t.Init n false rc).2.1.WF := by
  obtain ⟨d1, d2, d3, d4, d5⟩ := Deinit_spec t rc hpast
  obtain ⟨w0, hw0size, hw0m, hw0dpb, hw0rc, heq⟩ := Init_fresh_eq t n rc
  rw [heq]
  have hw0pic : ∀ i, (w0.1.slotAt i).m_picBuf = none := by
    intro i
    unfold DpbSlots.slotAt
    rw [hw0dpb]
    exact slotAt_vecResize_picBuf (t.Deinit rc).1 n d4 i
  have hw0len : w0.1.m_dpb.length = n := by
    rw [hw0dpb]
    exact length_vecResize _ n
  have hw0mask : w0.1.m_slotInUseMask = 0 := hw0m.trans d2
  obtain ⟨h1, h2, h3⟩ := foldl_invalidateAt_spec (List.range n) (List.nodup_range n) w0
  obtain ⟨f1, f2, _, _⟩ := foldl_invalidateAt_frame (List.range n) w0
  have hslot : ∀ i, i < n →
      ({ ((List.range n).foldl DpbSlots.invalidateAt w0).1 with
          m_dpbSlotsAvailable := List.range n } : DpbSlots).slotAt i =
        { w0.1.slotAt i with m_picBuf := none, m_reserved := false, m_inUse := false } :=
    fun i hi => h1 i (List.mem_range.mpr hi)
  refine ⟨rfl, ?_, ?_, ?_, ?_, rfl, ?_, ?_⟩
  · exact f1.trans hw0size
  · exact f2.trans hw0mask
  · exact h2.trans hw0len
  · intro i hi
    rw [hslot i hi]
    exact ⟨rfl, rfl⟩
  · intro q
    show ((List.range n).foldl DpbSlots.invalidateAt w0).2 q = _
    rw [h3 q, hw0rc, d5 q]
    have hnil : (List.range n).filter (fun i => decide ((w0.1.slotAt i).m_picBuf = some q)) =
        [] := by
      rw [List.filter_eq_nil_iff]
      intro i _
      simp [hw0pic i]
    rw [hnil]
    simp
  · refine ⟨?_, ?_, ?_, ?_⟩
    · show ((List.range n).foldl DpbSlots.invalidateAt w0).1.m_dpbMaxSize ≤ _
      rw [f1, hw0size]
      exact hn
    · show ((List.range n).foldl DpbSlots.invalidateAt w0).1.m_dpbMaxSize ≤
        ((List.range n).foldl DpbSlots.invalidateAt w0).1.m_dpb.length
      rw [f1, hw0size, h2, hw0len]
    · intro q hq
      show q < ((List.range n).foldl DpbSlots.invalidateAt w0).1.m_dpbMaxSize
      rw [f1, hw0size]
      exact List.mem_range.mp hq
    · show ((List.range n).foldl DpbSlots.invalidateAt w0).1.m_slotInUseMask < 2 ^ 32
      rw [f2, hw0mask]
      norm_num

/-- C25: for every table in which no vector slot at or past the capacity
holds a picture (every method of the class keeps this) and every `n` within
the architectural maximum, `Init(n, reconfigure = false)`, which is what the
constructor runs on the empty table, returns `n`, takes from the count of
every picture one reference for each slot that held it, and leaves capacity
`n`, in-use mask 0, every slot below `n` not in use and without picture, and
the free queue `0, 1, ..., n-1` in ascending order. -/
theorem Init_fresh_spec (t : DpbSlots) (n : Nat) (rc : RefCounts)
    (hn : n ≤ MAX_DPB_REF_AND_SETUP_SLOTS)
    (hpast : ∀ i, t.m_dpbMaxSize ≤ i → (t.slotAt i).getPictureResource = none) :
    (t.Init n false rc).1 = (n : Int) ∧
      (t.Init n false rc).2.1.m_dpbMaxSize = n ∧
      (t.Init n false rc).2.1.m_slotInUseMask = 0 ∧
      (t.Init n false rc).2.1.m_dpb.length = n ∧
      (∀ i, i < n → ((t.Init n false rc).2.1.slotAt i).isInUse = false ∧
        ((t.Init n false rc).2.1.slotAt i).getPictureResource = none) ∧
      (t.Init n false rc).2.1.m_dpbSlotsAvailable = List.range n ∧
      (∀ q, (t.Init n false rc).2.2 q = rc q - (t.holders q : Int)) ∧
      (t.Init n false rc).2.1.WF ∧
      DpbSlots.ctor n rc =
        (({ m_dpbMaxSize := 0, m_slotInUseMask := 0, m_dpb := [],
            m_dpbSlotsAvailable := [] } : DpbSlots).Init n false rc).2 := by
  obtain ⟨h1, h2, h3, h4, h5, h6, h7, h8⟩ := Init_fresh_aux t n rc hn hpast
  exact ⟨h1, h2, h3, h4, h5, h6, h7, h8, rfl⟩

/-- Witness of C25 on `busyTable4`, where slot 0 holds picture 7 with one
reference: `Init(2, false)` returns 2, queues 0 and 1 and leaves no reference
on picture 7. -/
theorem Init_fresh_spec_witness :
    (busyTable4.1.Init 2 false busyTable4.2).1 = 2 ∧
      (busyTable4.1.Init 2 false busyTable4.2).2.1.m_dpbSlotsAvailable = [0, 1] ∧
      (busyTable4.1.Init 2 false busyTable4.2).2.2 7 = busyTable4.2 7 - 1 :=
  have hlen : busyTable4.1.m_dpb.length ≤ busyTable4.1.m_dpbMaxSize := by decide
  have h := Init_fresh_spec busyTable4.1 2 busyTable4.2 (by decide)
    (fun i hi => by rw [slotAt_of_length_le busyTable4.1 i (Nat.le_trans hlen hi)]; rfl)
  ⟨h.1, h.2.2.2.2.2.1, h.2.2.2.2.2.2.1 7⟩

/-! ## Reference counts at every step of `MapPictureResource` -/

lemma length_filter_range_le (f : Nat → Bool) {k n : Nat} (h : k ≤ n) :
    ((List.range k).filter f).length ≤ ((List.range n).filter f).length :=
  ((List.range_sublist.mpr h).filter f).length_le

lemma length_filter_range_split (P : Nat → Bool) (s n : Nat) :
    ((List.range n).filter P).length =
      ((List.range n).filter (fun j => decide (j ≠ s) && P j)).length +
        (if s < n ∧ P s = true then 1 else 0) := by
  induction n with
  | zero => simp
  | succ n ih =>
    rw [filter_range_succ, filter_range_succ, List.length_append, List.length_append, ih]
    by_cases hns : n = s
    · subst hns
      by_cases hp : P n = true
      · simp [hp]
      · simp [hp]
    · have h1 : (s < n + 1 ∧ P s = true) ↔ (s < n ∧ P s = true) := by
        constructor <;> rintro ⟨a, b⟩ <;> exact ⟨by omega, b⟩
      simp only [h1]
      by_cases hp : P n = true
      · simp [hp, hns]
        omega
      · simp [hp, hns]

lemma holders_eq (t : DpbSlots) (p s : Nat) (hs : s < t.m_dpbMaxSize) :
    t.holders p = (t.otherHolders (some p) s).length +
      (if (t.slotAt s).getPictureResource = some p then 1 else 0) := by
  unfold DpbSlots.holders DpbSlots.otherHolders
  rw [length_filter_range_split _ s]
  have h1 : (fun j => decide (j ≠ s) &&
      decide ((t.slotAt j).getPictureResource = some p)) = t.otherHolds (some p) s := by
    funext j
    rfl
  rw [h1]
  simp [hs]

lemma otherHolds_filter_nil (t : DpbSlots) (p s k : Nat) (hk : k ≤ s)
    (h : ∀ j, j < s → (t.slotAt j).getPictureResource ≠ some p) :
    (List.range k).filter (t.otherHolds (some p) s) = [] := by
  rw [List.filter_eq_nil_iff]
  intro j hj
  have hjs : j < s := Nat.lt_of_lt_of_le (List.mem_range.mp hj) hk
  simp [DpbSlots.otherHolds, h j hjs]

lemma mapStepCounts_ge (t : DpbSlots) (p s : Nat) (age : Int) (rc : RefCounts) (hwf : t.WF)
    (hs : s < t.m_dpbMaxSize)
    (h : ((t.otherHolders (some p) s).length : Int) < rc p ∨
      ((∀ j, j < s → (t.slotAt j).getPictureResource ≠ some p) ∧ 1 ≤ rc p ∧
        (t.holders p : Int) ≤ rc p))
    (k : Nat) (hk : k < t.m_dpbMaxSize) (c : RefCounts)
    (hc : c ∈ DpbSlots.mapStepCounts (some p) s age
      ((List.range k).foldl (DpbSlots.mapStep (some p) s age) (t, rc)) k) : 1 ≤ c p := by
  have hinv := @MapInv_foldl t p s age rc hwf k (by omega)
  have hinv2 := @MapInv_foldl t p s age rc hwf (k + 1) (by omega)
  rw [List.range_succ, List.foldl_append] at hinv2
  simp only [List.foldl_cons, List.foldl_nil] at hinv2
  generalize (List.range k).foldl (DpbSlots.mapStep (some p) s age) (t, rc) = w at hc hinv hinv2
  have hFk := length_filter_range_le (t.otherHolds (some p) s) (Nat.le_of_lt hk)
  have hFk1 := length_filter_range_le (t.otherHolds (some p) s) (show k + 1 ≤ t.m_dpbMaxSize by omega)
  have hhold := holders_eq t p s hs
  unfold DpbSlots.otherHolders at hhold h
  simp only [DpbSlot.getPictureResource] at hhold h
  have hr1 := hinv.refs p
  have hr2 := hinv2.refs p
  simp only [and_true, if_true] at hr1 hr2
  have hafter : 1 ≤ (DpbSlots.mapStep (some p) s age w k).2 p := by
    rw [hr2]
    rcases h with h | ⟨hlow, hpos, hcount⟩
    · split_ifs <;> omega
    · by_cases hsk : s < k + 1
      · simp only [hsk, if_true, true_and]
        split_ifs at hhold ⊢ <;> omega
      · have hnil := otherHolds_filter_nil t p s (k + 1) (by omega) hlow
        rw [hnil]
        simp only [hsk, false_and, if_false, List.length_nil]
        omega
  unfold DpbSlots.mapStepCounts at hc
  by_cases hks : k = s
  · rw [if_pos hks] at hc
    simp only [List.mem_cons, List.mem_singleton, List.not_mem_nil, or_false] at hc
    rcases hc with hc | hc
    · rw [hc, picAddRef_apply, hr1]
      have hns : ¬ s < k := by omega
      rcases h with h | ⟨hlow, hpos, _⟩
      · simp only [if_true, hns, false_and, if_false]
        omega
      · have hnil := otherHolds_filter_nil t p s k (by omega) hlow
        rw [hnil]
        simp only [if_true, hns, false_and, if_false, List.length_nil]
        omega
    · rw [hc]
      exact hafter
  · rw [if_neg hks] at hc
    simp only [List.mem_singleton] at hc
    rw [hc]
    exact hafter

lemma MapPictureResource_counts_ge (t : DpbSlots) (p s : Nat) (age : Int) (rc : RefCounts)
    (hwf : t.WF) (hs : s < t.m_dpbMaxSize)
    (h : ((t.otherHolders (some p) s).length : Int) < rc p ∨
      ((∀ j, j < s → (t.slotAt j).getPictureResource ≠ some p) ∧ 1 ≤ rc p ∧
        (t.holders p : Int) ≤ rc p))
    (c : RefCounts) (hc : c ∈ t.MapPictureResource_counts (some p) s age rc) : 1 ≤ c p := by
  unfold DpbSlots.MapPictureResource_counts at hc
  rcases List.mem_cons.mp hc with hc | hc
  · rw [hc]
    rcases h with h | ⟨_, hpos, _⟩
    · omega
    · exact hpos
  · obtain ⟨k, hk, hck⟩ := List.mem_flatMap.mp hc
    exact mapStepCounts_ge t p s age rc hwf hs h k (List.mem_range.mp hk) c hck

lemma MapPictureResource_holders (t : DpbSlots) (p s : Nat) (age : Int) (rc : RefCounts)
    (hwf : t.WF) (hs : s < t.m_dpbMaxSize) :
    (t.MapPictureResource (some p) s age rc).1.holders p = 1 := by
  have hinv := MapInv_final t p s age rc hwf
  unfold DpbSlots.holders
  rw [hinv.size]
  apply length_filter_range_eq_one _ _ s hs
  intro j hj
  rw [hinv.slot_lo j hj]
  simp only [decide_eq_true_eq, DpbSlot.getPictureResource]
  constructor
  · intro hh
    by_contra hjs
    exact mappedSlot_ne_holds t p s age hjs hh
  · intro hjs
    subst hjs
    simp [DpbSlots.mappedSlot]

lemma mapStepCounts_getLast (pPic : PicPtr) (s : Nat) (age : Int) (w : DpbSlots × RefCounts)
    (k : Nat) :
    ∃ l, DpbSlots.mapStepCounts pPic s age w k = l ++ [(DpbSlots.mapStep pPic s age w k).2] := by
  unfold DpbSlots.mapStepCounts
  by_cases h : k = s
  · rw [if_pos h]
    exact ⟨[_], rfl⟩
  · rw [if_neg h]
    exact ⟨[], rfl⟩

lemma MapPictureResource_counts_getLast (t : DpbSlots) (pPic : PicPtr) (s : Nat) (age : Int)
    (rc : RefCounts) (hs : s < t.m_dpbMaxSize) :
    (t.MapPictureResource_counts pPic s age rc).getLast? =
      some (t.MapPictureResource pPic s age rc).2 := by
  unfold DpbSlots.MapPictureResource_counts DpbSlots.MapPictureResource
  obtain ⟨m, hm⟩ : ∃ m, t.m_dpbMaxSize = m + 1 := ⟨t.m_dpbMaxSize - 1, by omega⟩
  rw [hm, List.range_succ, List.flatMap_append, List.foldl_append]
  simp only [List.flatMap_cons, List.flatMap_nil, List.append_nil, List.foldl_cons,
    List.foldl_nil]
  obtain ⟨l, hl⟩ := mapStepCounts_getLast pPic s age
    ((List.range m).foldl (DpbSlots.mapStep pPic s age) (t, rc)) m
  rw [hl, ← List.append_assoc, ← List.cons_append, List.getLast?_append]
  rfl

/-- Counterexample to C26 as stated: in `soleOwnerTable` the allocated slot 0
holds picture 7 and has the only reference on it; during
`MapPictureResource(7, 1)` the count of picture 7 goes 1, 0, 1, 1: the turn
for slot 0 releases the picture to zero before the turn for slot 1 takes the
new reference. -/
theorem MapPictureResource_count_reaches_zero :
    soleOwnerTable.1.WF ∧ soleOwnerTable.1.liveHolder (some 7) 0 ∧
      1 < soleOwnerTable.1.m_dpbMaxSize ∧ soleOwnerTable.2 7 = 1 ∧
      (soleOwnerTable.1.MapPictureResource_counts (some 7) 1 0 soleOwnerTable.2).map
        (fun c => c 7) = [1, 0, 1, 1] := by
  refine ⟨by decide, by decide, by decide, by decide, by decide⟩

/-- C26, amended: for every well-formed table, every picture `p` and every
target slot `s` below the capacity, provided the count of `p` exceeds the
number of slots other than `s` that hold `p` (somebody besides those slots
has a reference, as a caller that owns the picture does), or no slot below
`s` holds `p` and the count is positive and at least the number of slots that
hold `p`, the count of `p` is at least 1 after every `AddRef` and `Release`
of `MapPictureResource(p, s)`; and on return, with or without the proviso,
slot `s` holds `p` and is the only slot that does. -/
theorem MapPictureResource_count_positive (t : DpbSlots) (p s : Nat) (age : Int)
    (rc : RefCounts) (hwf : t.WF) (hs : s < t.m_dpbMaxSize) :
    ((((t.otherHolders (some p) s).length : Int) < rc p ∨
        ((∀ j, j < s → (t.slotAt j).getPictureResource ≠ some p) ∧ 1 ≤ rc p ∧
          (t.holders p : Int) ≤ rc p)) →
      ∀ c ∈ t.MapPictureResource_counts (some p) s age rc, 1 ≤ c p) ∧
      (t.MapPictureResource_counts (some p) s age rc).getLast? =
        some (t.MapPictureResource (some p) s age rc).2 ∧
      ((t.MapPictureResource (some p) s age rc).1.slotAt s).getPictureResource = some p ∧
      (∀ j, j < t.m_dpbMaxSize → j ≠ s →
        ((t.MapPictureResource (some p) s age rc).1.slotAt j).getPictureResource ≠ some p) ∧
      (t.MapPictureResource (some p) s age rc).1.holders p = 1 := by
  refine ⟨fun h c hc => MapPictureResource_counts_ge t p s age rc hwf hs h c hc, ?_,
    (MapPictureResource_spec t p s age rc hwf hs).1,
    fun j hj hjs => MapPictureResource_unique t p s age rc hwf hj hjs,
    MapPictureResource_holders t p s age rc hwf hs⟩
  exact MapPictureResource_counts_getLast t (some p) s age rc hs

/-- Witness of C26 on `busyTable4`, where slot 0 holds picture 7 and the
caller has a second reference: mapping picture 7 to slot 1 keeps its count
positive throughout. -/
theorem MapPictureResource_count_positive_witness :
    (∀ c ∈ busyTable4.1.MapPictureResource_counts (some 7) 1 9 (picAddRef busyTable4.2 7),
      1 ≤ c 7) ∧
      (busyTable4.1.MapPictureResource (some 7) 1 9 (picAddRef busyTable4.2 7)).1.holders 7 = 1 :=
  have h := MapPictureResource_count_positive busyTable4.1 7 1 9 (picAddRef busyTable4.2 7)
    (by decide) (by decide)
  ⟨h.1 (Or.inl (by decide)), h.2.2.2.2⟩

/-! ## The parser of case tries -/

lemma nodeNameOk_iff (isValid : Char → Bool) (name : List Char) :
    nodeNameOk isValid name = true ↔
      name ≠ [] ∧ ∀ c ∈ name, isValid c = true ∧ c ≠ '{' ∧ c ≠ ',' ∧ c ≠ '}' ∧ c ≠ '.' ∧
        c ≠ Char.ofNat 0 := by
  unfold nodeNameOk
  simp only [Bool.and_eq_true, Bool.not_eq_true', List.isEmpty_eq_false, List.all_eq_true,
    decide_eq_true_eq, ne_eq]
  constructor
  · rintro ⟨h1, h2⟩
    refine ⟨h1, fun c hc => ?_⟩
    obtain ⟨⟨⟨⟨⟨a, b⟩, c1⟩, d⟩, e⟩, f⟩ := h2 c hc
    exact ⟨a, b, c1, d, e, f⟩
  · rintro ⟨h1, h2⟩
    refine ⟨h1, fun c hc => ?_⟩
    obtain ⟨a, b, c1, d, e, f⟩ := h2 c hc
    exact ⟨⟨⟨⟨⟨a, b⟩, c1⟩, d⟩, e⟩, f⟩

lemma parseCaseTrieLoop_name (murmur : List Char → Nat) (isValid : Char → Bool)
    (name : List Char) :
    ∀ (stack : List CaseTreeNode) (cur : List Char) (e : Bool) (map : HashCollisionMap)
      (rest : List Char),
      (∀ c ∈ name, isValid c = true ∧ c ≠ '{' ∧ c ≠ ',' ∧ c ≠ '}' ∧ c ≠ '.' ∧
        c ≠ Char.ofNat 0) →
      parseCaseTrieLoop murmur isValid
          { nodeStack := stack, curName := cur, expectNode := e,
            hashCollisionDetectionMap := map } (name ++ rest) =
        parseCaseTrieLoop murmur isValid
          { nodeStack := stack, curName := cur ++ name, expectNode := e,
            hashCollisionDetectionMap := map } rest := by
  induction name with
  | nil => intro stack cur e map rest _; simp
  | cons c name ih =>
    intro stack cur e map rest h
    obtain ⟨hv, h1, h2, h3, _, h0⟩ := h c (List.mem_cons_self _ _)
    rw [List.cons_append, parseCaseTrieLoop]
    rw [if_neg h0, if_neg (by simp [h1, h2, h3]), if_pos hv]
    rw [ih _ _ _ _ _ (fun d hd => h d (List.mem_cons_of_mem _ hd))]
    simp

lemma hashTestNodeName_ok (murmur : List Char → Nat) (S : List (List Char))
    (hinj : hashDistinctOn murmur S) (name : List Char) (hn : name ∈ S)
    (map : HashCollisionMap) (hmap : ∀ e ∈ map, e.1 = murmur e.2 ∧ e.2 ∈ S) :
    ∃ map2 : HashCollisionMap, (∀ e ∈ map2, e.1 = murmur e.2 ∧ e.2 ∈ S) ∧
      hashTestNodeName murmur name (some map) = .ok (murmur name, some map2) := by
  unfold hashTestNodeName
  dsimp only
  cases hf : map.find? (fun e => decide (e.1 = murmur name)) with
  | none =>
    refine ⟨map ++ [(murmur name, name)], ?_, rfl⟩
    intro e he
    rcases List.mem_append.mp he with he | he
    · exact hmap e he
    · rw [List.mem_singleton.mp he]
      exact ⟨rfl, hn⟩
  | some e =>
    have hmem := List.mem_of_find?_eq_some hf
    have hp := List.find?_some hf
    simp only [decide_eq_true_eq] at hp
    obtain ⟨h1, h2⟩ := hmap e hmem
    have heq : e.2 = name := hinj e.2 h2 name hn (by rw [← h1, hp])
    refine ⟨map, hmap, ?_⟩
    simp [heq]

lemma parseCaseTrieLoop_close (murmur : List Char → Nat) (isValid : Char → Bool)
    (node : CaseTreeNode) (stack : List CaseTreeNode) (map : HashCollisionMap)
    (tail : List Char) :
    parseCaseTrieLoop murmur isValid
        { nodeStack := node :: stack, curName := [], expectNode := false,
          hashCollisionDetectionMap := map } ('}' :: tail) =
      match stack with
      | [] => .ok (node, consumeTrailingNewLine tail)
      | parent :: below =>
        parseCaseTrieLoop murmur isValid
          { nodeStack := parent.addChild node :: below, curName := [], expectNode := false,
            hashCollisionDetectionMap := map } tail := by
  rw [parseCaseTrieLoop]
  cases stack with
  | nil => simp [popNode]
  | cons parent below => simp [popNode]

lemma parseCaseTrieLoop_comma (murmur : List Char → Nat) (isValid : Char → Bool)
    (stack : List CaseTreeNode) (map : HashCollisionMap) (tail : List Char) :
    parseCaseTrieLoop murmur isValid
        { nodeStack := stack, curName := [], expectNode := false,
          hashCollisionDetectionMap := map } (',' :: tail) =
      parseCaseTrieLoop murmur isValid
        { nodeStack := stack, curName := [], expectNode := true,
          hashCollisionDetectionMap := map } tail := by
  rw [parseCaseTrieLoop]
  simp

lemma parseCaseTrieLoop_leaf_close (murmur : List Char → Nat) (isValid : Char → Bool)
    (name : List Char) (hne : name ≠ []) (fr : CaseTreeNode) (stack : List CaseTreeNode)
    (map map2 : HashCollisionMap) (tail : List Char)
    (hh : hashTestNodeName murmur name (some map) = .ok (murmur name, some map2)) :
    parseCaseTrieLoop murmur isValid
        { nodeStack := fr :: stack, curName := name, expectNode := true,
          hashCollisionDetectionMap := map } ('}' :: tail) =
      parseCaseTrieLoop murmur isValid
        { nodeStack := fr.addChild (.mk (murmur name) []) :: stack, curName := [],
          expectNode := false, hashCollisionDetectionMap := map2 } ('}' :: tail) := by
  rw [parseCaseTrieLoop_close]
  rw [parseCaseTrieLoop]
  have hemp : name.isEmpty = false := by cases name <;> simp at hne ⊢
  cases stack with
  | nil => simp [popNode, hh, hemp]
  | cons parent below => simp [popNode, hh, hemp]

lemma parseCaseTrieLoop_leaf_comma (murmur : List Char → Nat) (isValid : Char → Bool)
    (name : List Char) (hne : name ≠ []) (fr : CaseTreeNode) (stack : List CaseTreeNode)
    (map map2 : HashCollisionMap) (tail : List Char)
    (hh : hashTestNodeName murmur name (some map) = .ok (murmur name, some map2)) :
    parseCaseTrieLoop murmur isValid
        { nodeStack := fr :: stack, curName := name, expectNode := true,
          hashCollisionDetectionMap := map } (',' :: tail) =
      parseCaseTrieLoop murmur isValid
        { nodeStack := fr.addChild (.mk (murmur name) []) :: stack, curName := [],
          expectNode := true, hashCollisionDetectionMap := map2 } tail := by
  rw [parseCaseTrieLoop]
  have hemp : name.isEmpty = false := by cases name <;> simp at hne ⊢
  simp [hh, hemp]

lemma parseCaseTrieLoop_open (murmur : List Char → Nat) (isValid : Char → Bool)
    (name : List Char) (hne : name ≠ []) (stack : List CaseTreeNode)
    (map map2 : HashCollisionMap) (tail : List Char)
    (hh : hashTestNodeName murmur name (some map) = .ok (murmur name, some map2)) :
    parseCaseTrieLoop murmur isValid
        { nodeStack := stack, curName := name, expectNode := true,
          hashCollisionDetectionMap := map } ('{' :: tail) =
      parseCaseTrieLoop murmur isValid
        { nodeStack := .mk (murmur name) [] :: stack, curName := [],
          expectNode := true, hashCollisionDetectionMap := map2 } tail := by
  rw [parseCaseTrieLoop]
  have hemp : name.isEmpty = false := by cases name <;> simp at hne ⊢
  simp [hh, hemp]
lemma foldl_addChild (l : List CaseTreeNode) : ∀ (h : Nat) (cs : List CaseTreeNode),
    l.foldl CaseTreeNode.addChild (.mk h cs) = .mk h (cs ++ l) := by
  induction l with
  | nil => intro h cs; simp
  | cons a l ih =>
    intro h cs
    rw [List.foldl_cons]
    simp only [CaseTreeNode.addChild, CaseTreeNode.getHash, CaseTreeNode.m_children]
    rw [ih]
    simp

lemma namesOkList_cons (isValid : Char → Bool) (t : NameTrie) (ts : List NameTrie) :
    NameTrie.namesOkList isValid (t :: ts) = true ↔
      NameTrie.namesOk isValid t = true ∧ NameTrie.namesOkList isValid ts = true := by
  rw [NameTrie.namesOkList, Bool.and_eq_true]

lemma namesOk_mk (isValid : Char → Bool) (name : List Char) (cs : List NameTrie) :
    NameTrie.namesOk isValid (.mk name cs) = true ↔
      nodeNameOk isValid name = true ∧ NameTrie.namesOkList isValid cs = true := by
  rw [NameTrie.namesOk, Bool.and_eq_true]

lemma allNamesList_cons (t : NameTrie) (ts : List NameTrie) :
    NameTrie.allNamesList (t :: ts) = NameTrie.allNames t ++ NameTrie.allNamesList ts := by
  rw [NameTrie.allNamesList]

lemma allNames_mk (name : List Char) (cs : List NameTrie) :
    NameTrie.allNames (.mk name cs) = name :: NameTrie.allNamesList cs := by
  rw [NameTrie.allNames]

lemma toNodes_cons (murmur : List Char → Nat) (t : NameTrie) (ts : List NameTrie) :
    NameTrie.toNodes murmur (t :: ts) = NameTrie.toNode murmur t :: NameTrie.toNodes murmur ts := by
  rw [NameTrie.toNodes]

lemma toNodes_nil (murmur : List Char → Nat) : NameTrie.toNodes murmur [] = [] := by
  rw [NameTrie.toNodes]

lemma toNode_mk (murmur : List Char → Nat) (name : List Char) (cs : List NameTrie) :
    NameTrie.toNode murmur (.mk name cs) = .mk (murmur name) (NameTrie.toNodes murmur cs) := by
  rw [NameTrie.toNode]

lemma text_leaf (name : List Char) : NameTrie.text (.mk name []) = name := by
  rw [NameTrie.text]

lemma text_group (name : List Char) (c : NameTrie) (cs : List NameTrie) :
    NameTrie.text (.mk name (c :: cs)) =
      name ++ '{' :: (NameTrie.text c ++ NameTrie.textRest cs) := by
  rw [NameTrie.text]

lemma textRest_nil : NameTrie.textRest [] = ['}'] := by
  rw [NameTrie.textRest]

lemma textRest_cons (t : NameTrie) (ts : List NameTrie) :
    NameTrie.textRest (t :: ts) = ',' :: (NameTrie.text t ++ NameTrie.textRest ts) := by
  rw [NameTrie.textRest]

lemma parseCaseTrieLoop_children (murmur : List Char → Nat) (isValid : Char → Bool)
    (S : List (List Char)) (hinj : hashDistinctOn murmur S) :
    ∀ (n : Nat) (ts : List NameTrie), sizeOf ts ≤ n →
      NameTrie.namesOkList isValid ts = true → (∀ x ∈ NameTrie.allNamesList ts, x ∈ S) →
      (∀ (fr : CaseTreeNode) (stack : List CaseTreeNode) (map : HashCollisionMap)
          (tail : List Char), (∀ e ∈ map, e.1 = murmur e.2 ∧ e.2 ∈ S) →
          ∃ map2 : HashCollisionMap, (∀ e ∈ map2, e.1 = murmur e.2 ∧ e.2 ∈ S) ∧
            parseCaseTrieLoop murmur isValid
                { nodeStack := fr :: stack, curName := [], expectNode := false,
                  hashCollisionDetectionMap := map } (NameTrie.textRest ts ++ tail) =
              parseCaseTrieLoop murmur isValid
                { nodeStack := (NameTrie.toNodes murmur ts).foldl CaseTreeNode.addChild fr ::
                    stack,
                  curName := [], expectNode := false, hashCollisionDetectionMap := map2 }
                ('}' :: tail)) ∧
        (∀ (t : NameTrie) (ts2 : List NameTrie), ts = t :: ts2 →
          ∀ (fr : CaseTreeNode) (stack : List CaseTreeNode) (map : HashCollisionMap)
            (tail : List Char), (∀ e ∈ map, e.1 = murmur e.2 ∧ e.2 ∈ S) →
            ∃ map2 : HashCollisionMap, (∀ e ∈ map2, e.1 = murmur e.2 ∧ e.2 ∈ S) ∧
              parseCaseTrieLoop murmur isValid
                  { nodeStack := fr :: stack, curName := [], expectNode := true,
                    hashCollisionDetectionMap := map }
                  (NameTrie.text t ++ (NameTrie.textRest ts2 ++ tail)) =
                parseCaseTrieLoop murmur isValid
                  { nodeStack := (NameTrie.toNodes murmur ts).foldl CaseTreeNode.addChild fr ::
                      stack,
                    curName := [], expectNode := false, hashCollisionDetectionMap := map2 }
                  ('}' :: tail)) := by
  intro n
  induction n with
  | zero =>
    intro ts hsz
    cases ts <;> simp at hsz
  | succ n ih =>
    intro ts hsz hok hS
    have hQ : ∀ (t : NameTrie) (ts2 : List NameTrie), ts = t :: ts2 →
        ∀ (fr : CaseTreeNode) (stack : List CaseTreeNode) (map : HashCollisionMap)
          (tail : List Char), (∀ e ∈ map, e.1 = murmur e.2 ∧ e.2 ∈ S) →
          ∃ map2 : HashCollisionMap, (∀ e ∈ map2, e.1 = murmur e.2 ∧ e.2 ∈ S) ∧
            parseCaseTrieLoop murmur isValid
                { nodeStack := fr :: stack, curName := [], expectNode := true,
                  hashCollisionDetectionMap := map }
                (NameTrie.text t ++ (NameTrie.textRest ts2 ++ tail)) =
              parseCaseTrieLoop murmur isValid
                { nodeStack := (NameTrie.toNodes murmur ts).foldl CaseTreeNode.addChild fr ::
                    stack,
                  curName := [], expectNode := false, hashCollisionDetectionMap := map2 }
                ('}' :: tail) := by
      intro t ts2 hts fr stack map tail hmap
      subst hts
      obtain ⟨name, cs⟩ := t
      rw [namesOkList_cons, namesOk_mk] at hok
      obtain ⟨⟨hname, hcs⟩, hts2⟩ := hok
      obtain ⟨hne, hchars⟩ := (nodeNameOk_iff isValid name).mp hname
      rw [allNamesList_cons, allNames_mk] at hS
      have hnS : name ∈ S := hS name (by simp)
      have hcsS : ∀ x ∈ NameTrie.allNamesList cs, x ∈ S := fun x hx => hS x (by simp [hx])
      have hts2S : ∀ x ∈ NameTrie.allNamesList ts2, x ∈ S := fun x hx => hS x (by simp [hx])
      obtain ⟨map1, hmap1, hh⟩ := hashTestNodeName_ok murmur S hinj name hnS map hmap
      simp only [List.cons.sizeOf_spec, NameTrie.mk.sizeOf_spec] at hsz
      rw [toNodes_cons, toNode_mk, List.foldl_cons]
      cases cs with
      | nil =>
        rw [text_leaf, parseCaseTrieLoop_name murmur isValid name _ _ _ _ _ hchars,
          List.nil_append, toNodes_nil]
        cases ts2 with
        | nil =>
          refine ⟨map1, hmap1, ?_⟩
          rw [textRest_nil, List.singleton_append, toNodes_nil, List.foldl_nil]
          exact parseCaseTrieLoop_leaf_close murmur isValid name hne fr stack map map1 tail hh
        | cons t2 ts3 =>
          rw [textRest_cons, List.cons_append, List.append_assoc,
            parseCaseTrieLoop_leaf_comma murmur isValid name hne fr stack map map1 _ hh]
          have hsz2 : sizeOf (t2 :: ts3) ≤ n := by
            simp only [List.cons.sizeOf_spec] at hsz ⊢
            omega
          exact (ih (t2 :: ts3) hsz2 hts2 hts2S).2 t2 ts3 rfl _ stack map1 tail hmap1
      | cons c cs2 =>
        rw [text_group, List.append_assoc, List.cons_append, List.append_assoc,
          parseCaseTrieLoop_name murmur isValid name _ _ _ _ _ hchars, List.nil_append,
          parseCaseTrieLoop_open murmur isValid name hne _ map map1 _ hh]
        have hsz1 : sizeOf (c :: cs2) ≤ n := by
          simp only [List.cons.sizeOf_spec] at hsz ⊢
          omega
        obtain ⟨map2, hmap2, h2⟩ := (ih (c :: cs2) hsz1 hcs hcsS).2 c cs2 rfl
          (.mk (murmur name) []) (fr :: stack) map1 (NameTrie.textRest ts2 ++ tail) hmap1
        rw [h2, parseCaseTrieLoop_close, foldl_addChild, List.nil_append]
        have hsz2 : sizeOf ts2 ≤ n := by omega
        exact (ih ts2 hsz2 hts2 hts2S).1 _ stack map2 tail hmap2
    refine ⟨?_, hQ⟩
    intro fr stack map tail hmap
    cases ts with
    | nil =>
      refine ⟨map, hmap, ?_⟩
      rw [textRest_nil, toNodes_nil]
      rfl
    | cons t ts2 =>
      rw [textRest_cons, List.cons_append, List.append_assoc, parseCaseTrieLoop_comma]
      exact hQ t ts2 rfl fr stack map tail hmap

lemma parseCaseTrie_ok (murmur : List Char → Nat) (isValid : Char → Bool)
    (roots : List NameTrie) (tail : List Char) (hne : roots ≠ [])
    (hok : NameTrie.namesOkList isValid roots = true)
    (hinj : hashDistinctOn murmur ([] :: NameTrie.allNamesList roots)) :
    parseCaseTrie murmur isValid (.mk (murmur []) []) (caseTrieText roots ++ tail)
        [(murmur [], [])] =
      .ok (.mk (murmur []) (NameTrie.toNodes murmur roots), consumeTrailingNewLine tail) := by
  cases roots with
  | nil => exact absurd rfl hne
  | cons t ts =>
    obtain ⟨map2, _, h⟩ := (parseCaseTrieLoop_children murmur isValid
      ([] :: NameTrie.allNamesList (t :: ts)) hinj (sizeOf (t :: ts)) (t :: ts) (Nat.le_refl _)
      hok (fun x hx => List.mem_cons_of_mem _ hx)).2 t ts rfl (.mk (murmur []) []) []
      [(murmur [], [])] tail (by
        intro e he
        rw [List.mem_singleton.mp he]
        exact ⟨rfl, List.mem_cons_self _ _⟩)
    unfold caseTrieText parseCaseTrie
    rw [List.cons_append, List.append_assoc]
    simp only []
    rw [h, parseCaseTrieLoop_close, foldl_addChild, List.nil_append]
/-! ## Lookup in the case tree -/

lemma findChildNdxFrom_spec (hash : Nat) (l : List CaseTreeNode) : ∀ k : Nat,
    (findChildNdxFrom hash l k = -1 ∧ l.find? (fun c => decide (c.getHash = hash)) = none) ∨
      (∃ i : Nat, findChildNdxFrom hash l k = ((k + i : Nat) : Int) ∧
        l[i]? = l.find? (fun c => decide (c.getHash = hash)) ∧ i < l.length) := by
  induction l with
  | nil => intro k; exact Or.inl ⟨rfl, rfl⟩
  | cons c l ih =>
    intro k
    by_cases hc : c.getHash = hash
    · right
      refine ⟨0, ?_, ?_, by simp⟩
      · simp [findChildNdxFrom, hc]
      · simp [hc]
    · rcases ih (k + 1) with ⟨h1, h2⟩ | ⟨i, h1, h2, h3⟩
      · left
        refine ⟨?_, ?_⟩
        · simp only [findChildNdxFrom, if_neg hc]
          exact h1
        · simp [hc, h2]
      · right
        refine ⟨i + 1, ?_, ?_, by simp [h3]⟩
        · simp only [findChildNdxFrom, if_neg hc]
          rw [h1]
          congr 1
          omega
        · simp [hc, h2]

lemma getChild_eq_find (h hash : Nat) (l : List CaseTreeNode) :
    (CaseTreeNode.mk h l).getChild hash = l.find? (fun c => decide (c.getHash = hash)) := by
  unfold CaseTreeNode.getChild CaseTreeNode.findChildNdx
  simp only [CaseTreeNode.m_children]
  rcases findChildNdxFrom_spec hash l 0 with ⟨h1, h2⟩ | ⟨i, h1, h2, _⟩
  · rw [h1, h2]
    rfl
  · rw [h1, ← h2]
    have hne : ¬ (((0 + i : Nat) : Int) = -1) := by omega
    rw [if_neg hne]
    simp

lemma getHash_toNode (murmur : List Char → Nat) (t : NameTrie) :
    (NameTrie.toNode murmur t).getHash = murmur t.name := by
  obtain ⟨name, cs⟩ := t
  rw [toNode_mk]
  rfl

lemma m_children_toNode (murmur : List Char → Nat) (t : NameTrie) :
    NameTrie.toNode murmur t = .mk (murmur t.name) (NameTrie.toNodes murmur t.children) := by
  obtain ⟨name, cs⟩ := t
  rw [toNode_mk]
  rfl

lemma find_toNodes (murmur : List Char → Nat) (comp : List Char) (ts : List NameTrie)
    (hinj : ∀ t ∈ ts, murmur t.name = murmur comp → t.name = comp) :
    (NameTrie.toNodes murmur ts).find? (fun c => decide (c.getHash = murmur comp)) =
      (ts.find? (fun t => decide (t.name = comp))).map (NameTrie.toNode murmur) := by
  induction ts with
  | nil => rw [toNodes_nil]; rfl
  | cons t ts ih =>
    rw [toNodes_cons, List.find?_cons, List.find?_cons, getHash_toNode]
    by_cases hn : t.name = comp
    · simp [hn]
    · have hm : ¬ murmur t.name = murmur comp :=
        fun h => hn (hinj t (List.mem_cons_self _ _) h)
      simp only [hn, hm, decide_False]
      exact ih (fun u hu => hinj u (List.mem_cons_of_mem _ hu))

lemma splitDots_ne_nil (path : List Char) : splitDots path ≠ [] := by
  induction path with
  | nil => simp [splitDots]
  | cons c path ih =>
    unfold splitDots
    split_ifs
    · simp
    · cases h : splitDots path with
      | nil => simp
      | cons a b => simp

lemma splitDots_eq (path : List Char) :
    splitDots path = path.take (getCurrentComponentLen path) ::
      (match path.drop (getCurrentComponentLen path) with
        | [] => []
        | _ :: rest => splitDots rest) := by
  induction path with
  | nil => rfl
  | cons c path ih =>
    by_cases hc : c = '.'
    · simp [splitDots, getCurrentComponentLen, hc]
    · simp only [splitDots, getCurrentComponentLen, if_neg hc, List.take_succ_cons,
        List.drop_succ_cons]
      rw [ih]

lemma walkNames_cons (ts : List NameTrie) (n : List Char) (comps : List (List Char)) :
    walkNames ts (n :: comps) =
      match ts.find? (fun t => decide (t.name = n)) with
      | none => none
      | some t => if comps = [] then some t else walkNames t.children comps := by
  cases comps with
  | nil =>
    rw [walkNames]
    cases ts.find? (fun t => decide (t.name = n)) <;> simp
  | cons m rest =>
    rw [walkNames]
    cases ts.find? (fun t => decide (t.name = n)) <;> simp

lemma allNamesList_of_mem (t : NameTrie) (ts : List NameTrie) (h : t ∈ ts) :
    t.name ∈ NameTrie.allNamesList ts ∧
      ∀ x ∈ NameTrie.allNamesList t.children, x ∈ NameTrie.allNamesList ts := by
  induction ts with
  | nil => exact absurd h (List.not_mem_nil t)
  | cons a ts ih =>
    rw [allNamesList_cons]
    rcases List.mem_cons.mp h with h | h
    · subst h
      obtain ⟨name, cs⟩ := t
      rw [allNames_mk]
      refine ⟨by simp [NameTrie.name], fun x hx => ?_⟩
      have hx2 : x ∈ NameTrie.allNamesList cs := hx
      simp [hx2]
    · obtain ⟨h1, h2⟩ := ih h
      exact ⟨List.mem_append_right _ h1, fun x hx => List.mem_append_right _ (h2 x hx)⟩

lemma findNodeAux_eq (murmur : List Char → Nat) : ∀ (fuel : Nat) (path : List Char)
    (ts : List NameTrie) (h : Nat), path.length < fuel →
    (∀ a ∈ NameTrie.allNamesList ts, ∀ c ∈ splitDots path, murmur a = murmur c → a = c) →
    findNodeAux murmur fuel (.mk h (NameTrie.toNodes murmur ts)) path =
      (walkNames ts (splitDots path)).map (NameTrie.toNode murmur) := by
  intro fuel
  induction fuel with
  | zero => intro path ts h hlt; omega
  | succ fuel ih =>
    intro path ts h hlt hinj
    have hsplit := splitDots_eq path
    have hcomp : path.take (getCurrentComponentLen path) ∈ splitDots path := by
      rw [hsplit]
      exact List.mem_cons_self _ _
    rw [findNodeAux]
    rw [getChild_eq_find, find_toNodes murmur _ ts
      (fun t ht hm => hinj t.name (allNamesList_of_mem t ts ht).1 _ hcomp hm)]
    rw [hsplit, walkNames_cons]
    cases hfind : ts.find? (fun t => decide (t.name = path.take (getCurrentComponentLen path)))
      with
    | none => rfl
    | some t =>
      have htmem : t ∈ ts := List.mem_of_find?_eq_some hfind
      simp only [Option.map_some']
      cases hdrop : path.drop (getCurrentComponentLen path) with
      | nil => simp
      | cons d rest =>
        have hlen : rest.length < fuel := by
          have h1 := congrArg List.length hdrop
          rw [List.length_drop, List.length_cons] at h1
          omega
        have hsub : ∀ c ∈ splitDots rest, c ∈ splitDots path := by
          intro c hc
          rw [hsplit, hdrop]
          exact List.mem_cons_of_mem _ hc
        simp only [splitDots_ne_nil rest, if_false]
        rw [m_children_toNode]
        exact ih rest t.children (murmur t.name) hlen
          (fun a ha c hc => hinj a ((allNamesList_of_mem t ts htmem).2 a ha) c (hsub c hc))

lemma findNode_eq (murmur : List Char → Nat) (path : List Char) (ts : List NameTrie) (h : Nat)
    (hinj : ∀ a ∈ NameTrie.allNamesList ts, ∀ c ∈ splitDots path, murmur a = murmur c → a = c) :
    findNode murmur (.mk h (NameTrie.toNodes murmur ts)) path =
      (walkNames ts (splitDots path)).map (NameTrie.toNode murmur) :=
  findNodeAux_eq murmur (path.length + 1) path ts h (Nat.lt_succ_self _) hinj

/-! ## Spelling a node of the trie -/

lemma Spells_of_walkNames (comps : List (List Char)) : ∀ (ts : List NameTrie) (u : NameTrie),
    walkNames ts comps = some u → Spells ts comps u := by
  induction comps with
  | nil => intro ts u h; simp [walkNames] at h
  | cons n comps ih =>
    intro ts u h
    rw [walkNames_cons] at h
    cases hfind : ts.find? (fun t => decide (t.name = n)) with
    | none => rw [hfind] at h; simp at h
    | some t =>
      rw [hfind] at h
      have htmem : t ∈ ts := List.mem_of_find?_eq_some hfind
      have htn : t.name = n := by simpa using List.find?_some hfind
      subst htn
      by_cases hc : comps = []
      · subst hc
        simp only [if_true, Option.some.injEq] at h
        subst h
        exact Spells.last htmem
      · simp only [hc, if_false] at h
        exact Spells.step htmem (ih t.children u h)

lemma siblingsDistinctList_cons (t : NameTrie) (ts : List NameTrie) :
    NameTrie.siblingsDistinctList (t :: ts) = true ↔
      t.name ∉ ts.map NameTrie.name ∧ NameTrie.siblingsDistinctList t.children = true ∧
        NameTrie.siblingsDistinctList ts = true := by
  obtain ⟨name, cs⟩ := t
  rw [NameTrie.siblingsDistinctList, NameTrie.siblingsDistinct]
  simp [NameTrie.name, NameTrie.children, and_assoc]

lemma find_of_siblingsDistinct (ts : List NameTrie) (t : NameTrie) (ht : t ∈ ts)
    (hd : NameTrie.siblingsDistinctList ts = true) :
    ts.find? (fun x => decide (x.name = t.name)) = some t ∧
      NameTrie.siblingsDistinctList t.children = true := by
  induction ts with
  | nil => exact absurd ht (List.not_mem_nil t)
  | cons a ts ih =>
    obtain ⟨h1, h2, h3⟩ := (siblingsDistinctList_cons a ts).mp hd
    rcases List.mem_cons.mp ht with h | h
    · subst h
      exact ⟨by simp, h2⟩
    · have hne : ¬ a.name = t.name := by
        intro heq
        exact h1 (heq ▸ List.mem_map_of_mem NameTrie.name h)
      rw [List.find?_cons]
      simp only [hne, decide_False]
      exact ih h h3

lemma Spells_ne_nil {ts : List NameTrie} {comps : List (List Char)} {u : NameTrie}
    (h : Spells ts comps u) : comps ≠ [] := by
  cases h <;> simp

lemma walkNames_of_Spells {ts : List NameTrie} {comps : List (List Char)} {u : NameTrie}
    (h : Spells ts comps u) :
    NameTrie.siblingsDistinctList ts = true → walkNames ts comps = some u := by
  induction h with
  | last ht =>
    intro hd
    rw [walkNames_cons, (find_of_siblingsDistinct _ _ ht hd).1]
    simp
  | step ht hrest ih =>
    intro hd
    obtain ⟨h1, h2⟩ := find_of_siblingsDistinct _ _ ht hd
    rw [walkNames_cons, h1]
    simp only [Spells_ne_nil hrest, if_false]
    exact ih h2

lemma hasChildren_toNode (murmur : List Char → Nat) (u : NameTrie) :
    (NameTrie.toNode murmur u).hasChildren = true ↔ u.children ≠ [] := by
  obtain ⟨name, cs⟩ := u
  rw [toNode_mk]
  cases cs with
  | nil => simp [CaseTreeNode.hasChildren, CaseTreeNode.m_children, toNodes_nil, NameTrie.children]
  | cons c cs =>
    simp [CaseTreeNode.hasChildren, CaseTreeNode.m_children, toNodes_cons, NameTrie.children]

lemma checkTestNames_iff (murmur : List Char → Nat) (roots : List NameTrie) (path : List Char)
    (h : Nat) (hdist : NameTrie.siblingsDistinctList roots = true)
    (hinj : ∀ a ∈ NameTrie.allNamesList roots, ∀ c ∈ splitDots path,
      murmur a = murmur c → a = c) :
    (checkTestCaseName murmur (.mk h (NameTrie.toNodes murmur roots)) path = true ↔
        ∃ u, Spells roots (splitDots path) u ∧ u.children = []) ∧
      (checkTestGroupName murmur (.mk h (NameTrie.toNodes murmur roots)) path = true ↔
        ∃ u, Spells roots (splitDots path) u ∧ u.children ≠ []) := by
  unfold checkTestCaseName checkTestGroupName
  rw [findNode_eq murmur path roots h hinj]
  cases hw : walkNames roots (splitDots path) with
  | none =>
    simp only [Option.map_none', Bool.false_eq_true, false_iff, not_exists, not_and]
    constructor
    · intro u hu
      rw [walkNames_of_Spells hu hdist] at hw
      exact absurd hw (by simp)
    · intro u hu
      rw [walkNames_of_Spells hu hdist] at hw
      exact absurd hw (by simp)
  | some v =>
    have hv := Spells_of_walkNames _ _ _ hw
    have huniq : ∀ u, Spells roots (splitDots path) u → u = v := by
      intro u hu
      have := walkNames_of_Spells hu hdist
      rw [hw] at this
      exact (Option.some.inj this).symm
    simp only [Option.map_some']
    constructor
    · constructor
      · intro hc
        refine ⟨v, hv, ?_⟩
        by_contra hne
        rw [(hasChildren_toNode murmur v).mpr hne] at hc
        simp at hc
      · rintro ⟨u, hu, hch⟩
        rw [huniq u hu] at hch
        cases hh : (NameTrie.toNode murmur v).hasChildren with
        | false => rfl
        | true => exact absurd hch ((hasChildren_toNode murmur v).mp hh)
    · constructor
      · intro hc
        exact ⟨v, hv, (hasChildren_toNode murmur v).mp hc⟩
      · rintro ⟨u, hu, hch⟩
        rw [huniq u hu] at hch
        exact (hasChildren_toNode murmur v).mpr hch
/-- Counterexample to C23 as stated: the text `{a{b},a{c}}` is nested braces
with comma-separated, non-empty names of valid characters, the hash is
distinct on all names involved and `parseCaseTrie` succeeds on it; the path
`a.c` spells the leaf `c` below the second node `a`, but `findNode` only looks
below the first child with the hash of `a`, so `checkTestCaseName` rejects
`a.c`. -/
theorem parseCaseTrie_duplicate_sibling :
    caseTrieText duplicateTrie = ['{', 'a', '{', 'b', '}', ',', 'a', '{', 'c', '}', '}'] ∧
      NameTrie.namesOkList exampleNameChar duplicateTrie = true ∧
      hashDistinctOn exampleHash
        ([] :: NameTrie.allNamesList duplicateTrie ++ splitDots ['a', '.', 'c']) ∧
      parseCaseTrie exampleHash exampleNameChar (.mk (exampleHash []) [])
          (caseTrieText duplicateTrie) [(exampleHash [], [])] =
        .ok (.mk (exampleHash []) (NameTrie.toNodes exampleHash duplicateTrie), []) ∧
      Spells duplicateTrie (splitDots ['a', '.', 'c']) (.mk ['c'] []) ∧
      (NameTrie.mk ['c'] []).children = [] ∧
      checkTestCaseName exampleHash
        (.mk (exampleHash []) (NameTrie.toNodes exampleHash duplicateTrie)) ['a', '.', 'c'] =
        false := by
  refine ⟨by decide, by decide, by decide, by rfl, ?_, rfl, by decide⟩
  exact @Spells.step duplicateTrie (.mk ['a'] [.mk ['c'] []]) (.mk ['c'] []) [['c']]
    (by simp [duplicateTrie])
    (@Spells.last [.mk ['c'] []] (.mk ['c'] []) (by simp))

/-- C23, amended: for every case trie text made of nested braces with
comma-separated, non-empty node names of valid name characters in which the
children of every node, and the top-level nodes, have pairwise distinct
names, and for every dotted path, provided the hash is distinct on the empty
root name, the node names and the components of the path: `parseCaseTrie`
called as `parseCaseList` calls it succeeds and builds the tree of the hashes,
consuming the text and a trailing new line; the path is accepted by
`checkTestCaseName` iff it spells a leaf of the trie and by
`checkTestGroupName` iff it spells an inner node; and it is not accepted by
both. -/
theorem parseCaseTrie_spec (murmur : List Char → Nat) (isValidTestCaseNameChar : Char → Bool)
    (roots : List NameTrie) (tail path : List Char) (hne : roots ≠ [])
    (hok : NameTrie.namesOkList isValidTestCaseNameChar roots = true)
    (hdist : NameTrie.siblingsDistinctList roots = true)
    (hinj : hashDistinctOn murmur ([] :: NameTrie.allNamesList roots ++ splitDots path)) :
    parseCaseTrie murmur isValidTestCaseNameChar (.mk (murmur []) [])
        (caseTrieText roots ++ tail) [(murmur [], [])] =
      .ok (.mk (murmur []) (NameTrie.toNodes murmur roots), consumeTrailingNewLine tail) ∧
      (checkTestCaseName murmur (.mk (murmur []) (NameTrie.toNodes murmur roots)) path = true ↔
        ∃ u, Spells roots (splitDots path) u ∧ u.children = []) ∧
      (checkTestGroupName murmur (.mk (murmur []) (NameTrie.toNodes murmur roots)) path = true ↔
        ∃ u, Spells roots (splitDots path) u ∧ u.children ≠ []) ∧
      ¬ (checkTestCaseName murmur (.mk (murmur []) (NameTrie.toNodes murmur roots)) path = true ∧
        checkTestGroupName murmur (.mk (murmur []) (NameTrie.toNodes murmur roots)) path =
          true) := by
  have hinj1 : hashDistinctOn murmur ([] :: NameTrie.allNamesList roots) := by
    intro a ha b hb hab
    exact hinj a (by
      rcases List.mem_cons.mp ha with h | h
      · rw [h]; simp
      · simp [h]) b (by
      rcases List.mem_cons.mp hb with h | h
      · rw [h]; simp
      · simp [h]) hab
  have hinj2 : ∀ a ∈ NameTrie.allNamesList roots, ∀ c ∈ splitDots path,
      murmur a = murmur c → a = c := by
    intro a ha c hc hac
    exact hinj a (by simp [ha]) c (by simp [hc]) hac
  obtain ⟨h1, h2⟩ := checkTestNames_iff murmur roots path (murmur []) hdist hinj2
  refine ⟨parseCaseTrie_ok murmur isValidTestCaseNameChar roots tail hne hok hinj1, h1, h2, ?_⟩
  rintro ⟨hc, hg⟩
  obtain ⟨u, hu, hul⟩ := h1.mp hc
  obtain ⟨v, hv, hvl⟩ := h2.mp hg
  have e1 := walkNames_of_Spells hu hdist
  have e2 := walkNames_of_Spells hv hdist
  rw [e1] at e2
  exact hvl (Option.some.inj e2 ▸ hul)

/-- Witness of C23 on the documented example
`{dEQP-GLES2{info{version,renderer}}}`: the text parses, the path
`dEQP-GLES2.info.version` is accepted as a test case and `dEQP-GLES2.info` as
a test group. -/
theorem parseCaseTrie_spec_witness :
    parseCaseTrie exampleHash exampleNameChar (.mk (exampleHash []) [])
        (caseTrieText exampleTrie ++ ['\n']) [(exampleHash [], [])] =
      .ok (.mk (exampleHash []) (NameTrie.toNodes exampleHash exampleTrie), []) ∧
      (checkTestCaseName exampleHash
          (.mk (exampleHash []) (NameTrie.toNodes exampleHash exampleTrie))
          "dEQP-GLES2.info.version".toList = true ↔
        ∃ u, Spells exampleTrie (splitDots "dEQP-GLES2.info.version".toList) u ∧
          u.children = []) :=
  have h := parseCaseTrie_spec exampleHash exampleNameChar exampleTrie ['\n']
    "dEQP-GLES2.info.version".toList (by simp [exampleTrie]) (by decide) (by decide)
    (by decide)
  ⟨h.1, h.2.1⟩

end VkVideo

